import Mathlib

/-!
# Chat server (schat.c, lista.c): registries, dispatcher and session handler

A shallow embedding of the server of the repository.

* A C string (`char *`) is the list of its bytes before the terminating NUL,
  one `Char` per byte (`cadena`).  A literal of the source is written as a
  Lean string literal turned into a list; the only non-ASCII letter of the
  source, the a-acute of "Ya estas suscrito", is two bytes in the UTF-8
  source file and is written as the two bytes 0xC3 0xA1.
* A singly linked `lista` is the `List` of its `elemento`s, head first.
* `usuario` and `sala` structs live in two heaps indexed by address
  (`Nat`); a list of rooms or of users is a list of addresses, as the
  source's lists are lists of pointers.  An `hilo_usuario` is represented
  by the address of its `cliente` (the thread id plays no role here).
* A `usuario *` parameter is an `Option Nat`; dereferencing `NULL` makes the
  operation return `none`.
* Every call of `write` on a socket is recorded, in order, in
  `Estado.escrituras` together with the bytes it sends.
* `malloc` is taken to succeed and to return an address not in use (a
  counter).  Three blocks are followed with their size: the line buffer of
  the session thread (byte by byte, by `leer_linea`), the text of a command
  that a session thread queues, and the name buffer of the handshake; a
  copy that runs past the end of one of the last two has no defined result
  (`none`).  Every other buffer is taken to be large enough for what is
  copied into it.
* Each registry operation runs from start to end on the state it is given,
  as it does in the source between locking and unlocking `mutex_salas`;
  threads are not represented, and the calls that lock and unlock a mutex
  are given apart from the state, operation by operation.
* What a client sends is given line by line: the handshake takes the list of
  the lines it reads, and a turn of the main loop takes the line read and the
  last result of `read`.
* `getopt` is represented by the values it returns, `atoi` by the `int` it
  returns (the low 32 bits of what `strtol` gives), and `exit(n)` by
  `Except.error n`.
-/

namespace Schat

/-- C string: bytes before the terminating NUL. -/
abbrev cadena := List Char

/-! ## lista.c -/

section Lista

variable {α : Type} {κ : Type}

/-- Source `lista_vacia`: `l.cabeza == NULL`. -/
def lista_vacia (l : List α) : Bool :=
  match l with
  | [] => true
  | _ :: _ => false

/-- Source `crear_lista`: `l->cabeza = NULL`. -/
def crear_lista : List α := []

/-- Source `agregar_principio`: the new node becomes the head. -/
def agregar_principio (l : List α) (elem : α) : List α :=
  elem :: l

/-- Source `agregar_final`: walk to the last node and link the new node
after it. -/
def agregar_final (l : List α) (elem : α) : List α :=
  match l with
  | [] => [elem]
  | x :: xs => x :: agregar_final xs elem

/-- Source `encontrar_elemento`: the first element that `compare` matches,
`none` for `NULL`. -/
def encontrar_elemento (l : List α) (elem : κ) (compare : κ → α → Bool) :
    Option α :=
  match l with
  | [] => none
  | x :: xs =>
    if compare elem x then some x else encontrar_elemento xs elem compare

/-- The `while (aux != NULL)` loop of `eliminar_elemento`, from the node
`aux` on: the first match is unlinked, and its `elemento` is freed when
`destruir` is set.  The result is the rest of the list from `aux` on and the
elements whose memory was freed. -/
def eliminar_elemento_bucle (aux : List α) (elem : κ)
    (compare : κ → α → Bool) (destruir : Bool) : List α × List α :=
  match aux with
  | [] => ([], [])
  | x :: xs =>
    if compare elem x then (xs, if destruir then [x] else [])
    else
      let r := eliminar_elemento_bucle xs elem compare destruir
      (x :: r.1, r.2)

/-- Source `eliminar_elemento`: when the head matches, the head node is
unlinked (and only the node is freed); otherwise the loop looks for the
first match in the rest.  Returns the resulting list and the elements whose
memory was freed. -/
def eliminar_elemento (l : List α) (elem : κ) (compare : κ → α → Bool)
    (destruir : Bool) : List α × List α :=
  match l with
  | [] => ([], [])
  | x :: xs =>
    if compare elem x then (xs, [])
    else
      let r := eliminar_elemento_bucle xs elem compare destruir
      (x :: r.1, r.2)

/-- Source `existe_elemento`: 1 when some element matches, else 0. -/
def existe_elemento (l : List α) (elem : κ) (compare : κ → α → Bool) : Bool :=
  match l with
  | [] => false
  | x :: xs => if compare elem x then true else existe_elemento xs elem compare

/-- Source `extraer_primero`: the head element (`none` for `NULL`) and the
list without its head. -/
def extraer_primero (l : List α) : Option α × List α :=
  match l with
  | [] => (none, [])
  | x :: xs => (some x, xs)

/-- Source `longitud`. -/
def longitud (l : List α) : Nat :=
  match l with
  | [] => 0
  | _ :: xs => longitud xs + 1

end Lista

/-! ## schat.c: data -/

/-- Source `MAXLENGTH`. -/
def MAXLENGTH : Nat := 500

/-- Source `MAXLENGTH_USER`. -/
def MAXLENGTH_USER : Nat := 25

/-- The value of `sizeof(strlen(mensaje))`: `strlen` returns a `size_t`, and
`sizeof` gives the size of that type, whatever the string is. -/
def sizeof_size_t : Nat := 8

/-- Libc `malloc`, as far as the size of what it hands out goes: the number
of bytes that the block returned for a request of `n` bytes holds (glibc on a
64-bit machine: blocks grow in steps of 16 bytes, 8 of them taken by the
header, and no block holds less than 24 bytes).  A request of 8 bytes gets a
block of 24, a request of 25 a block of 40. -/
def malloc_usable_size (n : Nat) : Nat :=
  max 24 ((n + 8 + 15) / 16 * 16 - 8)

/-- Source `struct usuario` (the socket mutex is not represented). -/
structure usuario where
  nombre_usuario : cadena
  socket : Int
  lista_salas_suscritas : List Nat

/-- Source `struct sala`. -/
structure sala where
  nombre_sala : cadena
  lista_usuarios_activos : List Nat

/-- Source `struct comando`; `sender` may be `NULL`. -/
structure comando where
  texto : cadena
  sender : Option Nat

/-- The global variables of schat.c together with the two heaps, the
allocator counter for `sala` structs and the trace of socket writes. -/
structure Estado where
  usuarios : Nat → usuario
  salas : Nat → sala
  siguiente_sala : Nat
  lista_global_salas : List Nat
  cola_global_comandos : List comando
  lista_global_hilos_usuarios : List Nat
  escrituras : List (Int × cadena)

/-- The byte `*salida = EOF`, that is `(char) -1`. -/
def salida : cadena := [Char.ofNat 255]

/-- Libc `write(fd, buf, n)`: the first `n` bytes of the buffer, whose
contents are the string followed by its NUL, go to `fd`. -/
def write (e : Estado) (fd : Int) (buf : cadena) (n : Nat) : Estado :=
  { e with escrituras := e.escrituras ++ [(fd, (buf ++ [Char.ofNat 0]).take n)] }

/-- Libc `strlen`. -/
def strlen (s : cadena) : Nat := s.length

/-- Source `hilos_iguales`: `!strcmp(h1, h2->cliente->nombre_usuario)`. -/
def hilos_iguales (e : Estado) (h1 : cadena) (h2 : Nat) : Bool :=
  decide (h1 = (e.usuarios h2).nombre_usuario)

/-- Source `salas_iguales`: `!strcmp(s1, s2->nombre_sala)`. -/
def salas_iguales (e : Estado) (s1 : cadena) (s2 : Nat) : Bool :=
  decide (s1 = (e.salas s2).nombre_sala)

/-- Source `usuarios_iguales`: `!strcmp(u1, u2->nombre_usuario)`. -/
def usuarios_iguales (e : Estado) (u1 : cadena) (u2 : Nat) : Bool :=
  decide (u1 = (e.usuarios u2).nombre_usuario)

/-! ## schat.c: registry operations -/

/-- Source `crear_sala`.  When the name exists the requester is written to
(a `NULL` requester cannot be); otherwise a fresh `sala` with an empty
member list is put at the head of the global list. -/
def crear_sala (e : Estado) (sala_agregar : cadena) (user : Option Nat) :
    Option Estado :=
  if existe_elemento e.lista_global_salas sala_agregar (salas_iguales e) then
    match user with
    | none => none
    | some u =>
      some (write e (e.usuarios u).socket "\nLa sala ya existe.\n\n".toList 21)
  else
    let nueva_sala := e.siguiente_sala
    some { e with
      salas := Function.update e.salas nueva_sala
        { nombre_sala := sala_agregar, lista_usuarios_activos := crear_lista }
      siguiente_sala := e.siguiente_sala + 1
      lista_global_salas := agregar_principio e.lista_global_salas nueva_sala }

/-- The `while (usuarios_sala != NULL)` loop of `eliminar_sala`: for each
member the first room named `sala_eliminar` leaves its subscribed list. -/
def eliminar_sala_bucle (e : Estado) (sala_eliminar : cadena)
    (usuarios_sala : List Nat) : Estado :=
  match usuarios_sala with
  | [] => e
  | user_sala :: sig =>
    eliminar_sala_bucle
      { e with
        usuarios := Function.update e.usuarios user_sala
          { e.usuarios user_sala with
            lista_salas_suscritas :=
              (eliminar_elemento (e.usuarios user_sala).lista_salas_suscritas
                sala_eliminar (salas_iguales e) false).1 } }
      sala_eliminar sig

/-- Source `eliminar_sala`. -/
def eliminar_sala (e : Estado) (sala_eliminar : cadena) (user : Option Nat) :
    Option Estado :=
  match encontrar_elemento e.lista_global_salas sala_eliminar (salas_iguales e) with
  | some s =>
    let e1 := eliminar_sala_bucle e sala_eliminar (e.salas s).lista_usuarios_activos
    some { e1 with
      lista_global_salas :=
        (eliminar_elemento e1.lista_global_salas sala_eliminar
          (salas_iguales e1) true).1 }
  | none =>
    match user with
    | none => none
    | some u =>
      some (write e (e.usuarios u).socket "\nLa sala no existe.\n\n".toList 21)

/-- Source `suscribir_usuario`. -/
def suscribir_usuario (e : Estado) (sala_suscribir : cadena)
    (user : Option Nat) : Option Estado :=
  match user with
  | none => none
  | some u =>
    match (if !lista_vacia e.lista_global_salas then
        encontrar_elemento e.lista_global_salas sala_suscribir (salas_iguales e)
      else none) with
    | some actual =>
      if !existe_elemento (e.usuarios u).lista_salas_suscritas
          (e.salas actual).nombre_sala (salas_iguales e) then
        let e1 : Estado := { e with
          usuarios := Function.update e.usuarios u
            { e.usuarios u with
              lista_salas_suscritas :=
                agregar_principio (e.usuarios u).lista_salas_suscritas actual } }
        some { e1 with
          salas := Function.update e1.salas actual
            { e1.salas actual with
              lista_usuarios_activos :=
                agregar_principio (e1.salas actual).lista_usuarios_activos u } }
      else
        some (write e (e.usuarios u).socket
          "\nYa est\xc3\xa1s suscrito.\n\n".toList 22)
    | none =>
      some (write e (e.usuarios u).socket "\nLa sala no existe.\n\n".toList 21)

/-- The `while (aux != NULL)` loop of `desuscribir_usuario`: in each room of
the walked list the first member named like `user` leaves the member
list. -/
def desuscribir_usuario_bucle (e : Estado) (user : Nat) (aux : List Nat) :
    Estado :=
  match aux with
  | [] => e
  | s :: sig =>
    desuscribir_usuario_bucle
      { e with
        salas := Function.update e.salas s
          { e.salas s with
            lista_usuarios_activos :=
              (eliminar_elemento (e.salas s).lista_usuarios_activos
                (e.usuarios user).nombre_usuario (usuarios_iguales e) false).1 } }
      user sig

/-- Source `desuscribir_usuario`. -/
def desuscribir_usuario (e : Estado) (user : Option Nat) : Option Estado :=
  match user with
  | none => none
  | some u =>
    let e1 := desuscribir_usuario_bucle e u (e.usuarios u).lista_salas_suscritas
    some { e1 with
      usuarios := Function.update e1.usuarios u
        { e1.usuarios u with lista_salas_suscritas := crear_lista } }

/-- Source `eliminar_usuario`. -/
def eliminar_usuario (e : Estado) (user : Option Nat) : Option Estado :=
  match desuscribir_usuario e user, user with
  | some e1, some u =>
    some { e1 with
      lista_global_hilos_usuarios :=
        (eliminar_elemento e1.lista_global_hilos_usuarios
          (e1.usuarios u).nombre_usuario (hilos_iguales e1) true).1 }
  | _, _ => none

/-- The `while (aux != NULL)` loop of `imprimir_lista_salas`: three writes
per room. -/
def imprimir_lista_salas_bucle (e : Estado) (fd : Int) (aux : List Nat) :
    Estado :=
  match aux with
  | [] => e
  | actual :: sig =>
    let e1 := write e fd "\"".toList 1
    let e2 := write e1 fd (e.salas actual).nombre_sala
      (strlen (e.salas actual).nombre_sala)
    let e3 := write e2 fd "\"\n".toList 2
    imprimir_lista_salas_bucle e3 fd sig

/-- Source `imprimir_lista_salas`. -/
def imprimir_lista_salas (e : Estado) (l : List Nat) (user : Option Nat)
    (sistema : Bool) : Option Estado :=
  match user with
  | none => none
  | some u =>
    let fd := (e.usuarios u).socket
    let e1 :=
      if sistema then
        write e fd
          "\nLISTA DE SALAS DEL SISTEMA\n==========================\n".toList 56
      else
        write e fd
          "\nLISTA DE SALAS SUSCRITAS\n========================\n".toList 51
    let e2 := imprimir_lista_salas_bucle e1 fd l
    some (write e2 fd "\n".toList 1)

/-- The `while (nodo_aux != NULL)` loop of `listar_usuarios`. -/
def listar_usuarios_bucle (e : Estado) (fd : Int) (nodo_aux : List Nat) :
    Estado :=
  match nodo_aux with
  | [] => e
  | hc_aux :: sig =>
    let user_name := (e.usuarios hc_aux).nombre_usuario ++ "\n".toList
    listar_usuarios_bucle (write e fd user_name (strlen user_name)) fd sig

/-- Source `listar_usuarios`. -/
def listar_usuarios (e : Estado) (user : Option Nat) : Option Estado :=
  match user with
  | none => none
  | some u =>
    let fd := (e.usuarios u).socket
    let e1 := write e fd
      "\nLISTA DE USUARIOS DEL SISTEMA\n=============================\n".toList 61
    let e2 := listar_usuarios_bucle e1 fd e.lista_global_hilos_usuarios
    some (write e2 fd "\n".toList 1)

/-- The inner `while (user_nod != NULL)` loop of `enviar_mensaje`: one
write per member of the room `aux_sala_usuario`. -/
def enviar_mensaje_usuarios (e : Estado) (user : Nat) (aux_sala_usuario : Nat)
    (mens : cadena) (user_nod : List Nat) : Estado :=
  match user_nod with
  | [] => e
  | user_act :: sig =>
    let complemento_mensaje :=
      "\n>> ".toList ++ (e.usuarios user).nombre_usuario ++ "@".toList ++
        (e.salas aux_sala_usuario).nombre_sala ++ ": ".toList ++ mens ++
        "\n".toList
    enviar_mensaje_usuarios
      (write e (e.usuarios user_act).socket complemento_mensaje
        (strlen complemento_mensaje))
      user aux_sala_usuario mens sig

/-- The outer `while (nodo_sala_usuario != NULL)` loop of
`enviar_mensaje`. -/
def enviar_mensaje_salas (e : Estado) (user : Nat) (mens : cadena)
    (nodo_sala_usuario : List Nat) : Estado :=
  match nodo_sala_usuario with
  | [] => e
  | aux_sala_usuario :: sig =>
    enviar_mensaje_salas
      (enviar_mensaje_usuarios e user aux_sala_usuario mens
        (e.salas aux_sala_usuario).lista_usuarios_activos)
      user mens sig

/-- Source `enviar_mensaje`.  The local `nodo_sala_usuario` is assigned only
when the global room list is not empty; reading it unassigned is undefined
and gives `none`. -/
def enviar_mensaje (e : Estado) (user : Option Nat) (mens : cadena) :
    Option Estado :=
  match user with
  | none => none
  | some u =>
    if !lista_vacia e.lista_global_salas then
      some (enviar_mensaje_salas e u (mens.drop 4)
        (e.usuarios u).lista_salas_suscritas)
    else none

/-! ## schat.c: dispatcher thread -/

/-- Lines 684 to 707 of `rutina_hilo_manager`: the opcode is the first three
bytes of the text, the argument starts at the fifth byte. -/
def rutina_hilo_manager_despachar (e : Estado) (com : comando) :
    Option Estado :=
  let aux := com.texto.take 3
  let texto := com.texto.drop 4
  if aux = "cre".toList then
    if texto ≠ [] then crear_sala e texto com.sender else some e
  else if aux = "eli".toList then
    if existe_elemento e.lista_global_salas texto (salas_iguales e) then
      eliminar_sala e texto com.sender
    else some e
  else if aux = "sus".toList then
    suscribir_usuario e texto com.sender
  else if aux = "sal".toList then
    imprimir_lista_salas e e.lista_global_salas com.sender true
  else if aux = "des".toList then
    desuscribir_usuario e com.sender
  else if aux = "mis".toList then
    match com.sender with
    | none => none
    | some u =>
      imprimir_lista_salas e (e.usuarios u).lista_salas_suscritas (some u) false
  else some e

/-- One turn of the `while (1)` of `rutina_hilo_manager`: when the queue is
not empty its first command is extracted and dispatched. -/
def rutina_hilo_manager_paso (e : Estado) : Option Estado :=
  if !lista_vacia e.cola_global_comandos then
    match extraer_primero e.cola_global_comandos with
    | (some com, cola) =>
      rutina_hilo_manager_despachar { e with cola_global_comandos := cola } com
    | (none, _) => none
  else some e

/-- The dispatcher applying the commands `coms` in order. -/
def despachar_todos (e : Estado) (coms : List comando) : Option Estado :=
  match coms with
  | [] => some e
  | com :: resto =>
    match rutina_hilo_manager_despachar e com with
    | some e1 => despachar_todos e1 resto
    | none => none

/-! ## schat.c: session thread -/

/-- Lines 856 to 875 and 888 to 907 of `rutina_hilo_cliente`: the text of
the new command is a block of `malloc(sizeof(strlen(mensaje)))`, the line is
copied into it with `strcpy`, and the command goes to the tail of the queue.
A line that does not fit into the block with its NUL is written past the end
of the block, which has no defined result and gives `none`. -/
def encolar_comando (e : Estado) (user : Nat) (mensaje : cadena) :
    Option Estado :=
  if strlen mensaje + 1 ≤ malloc_usable_size sizeof_size_t then
    some { e with
      cola_global_comandos :=
        agregar_final e.cola_global_comandos
          { texto := mensaje, sender := some user } }
  else none

/-- One turn of the main `while (1)` of `rutina_hilo_cliente`, after the
inner read loop has stopped with `status` (the last result of `read`) and the
line `mensaje`.  The second component is `some r` when the thread ends with
`ret_value = r` and `none` when it loops again. -/
def rutina_hilo_cliente_paso (e : Estado) (user : Nat) (status : Int)
    (mensaje : cadena) : Option (Estado × Option Int) :=
  let no_reconocido :=
    write e (e.usuarios user).socket "Comando no reconocido\n".toList 22
  if status ≠ 1 then some (e, some 1)
  else if mensaje ≠ [] then
    if strlen mensaje ≥ 4 then
      if mensaje.take 4 = "men ".toList then
        (enviar_mensaje e (some user) mensaje).map (fun e1 => (e1, none))
      else if mensaje.take 4 = "sus ".toList ∨ mensaje.take 4 = "cre ".toList ∨
          mensaje.take 4 = "eli ".toList then
        (encolar_comando e user mensaje).map (fun e1 => (e1, none))
      else some (no_reconocido, none)
    else if strlen mensaje = 3 then
      if mensaje.take 3 = "sal".toList ∨ mensaje.take 3 = "mis".toList ∨
          mensaje.take 3 = "des".toList then
        (encolar_comando e user mensaje).map (fun e1 => (e1, none))
      else if mensaje.take 3 = "usu".toList then
        (listar_usuarios e (some user)).map (fun e1 => (e1, none))
      else if mensaje.take 3 = "fue".toList then
        (eliminar_usuario e (some user)).map
          (fun e1 => (write e1 (e1.usuarios user).socket salida 1, some 0))
      else some (no_reconocido, none)
    else some (no_reconocido, none)
  else some (e, none)

/-- The text `mens_pide_nombre` of `rutina_hilo_cliente`. -/
def mens_pide_nombre : cadena :=
  "Ese nombre de usuario ya existe, por favor ingrese otro: \n".toList

/-- Lines 731 to 733 of `rutina_hilo_cliente`: the name buffer is allocated,
with whatever bytes `basura` the fresh memory holds, and the subscribed list
is made empty. -/
def rutina_hilo_cliente_preparar (e : Estado) (user : Nat) (basura : cadena) :
    Estado :=
  { e with
    usuarios := Function.update e.usuarios user
      { e.usuarios user with
        nombre_usuario := basura, lista_salas_suscritas := crear_lista } }

/-- The `do ... while` of the handshake (lines 756 to 776), fed with the
lines the client sends.  Each line is read, with no test on its length, into
the block `nombre_aux` of `malloc(MAXLENGTH_USER)`: a line that does not fit
into the block with its NUL is written past the end of the block, which has
no defined result and gives `none`.  A name that `existe_elemento` finds in
the session registry is answered with `mens_pide_nombre` and the next line is
read; the first name that is not found ends the loop.  The result is the
state, the accepted `nombre_aux` and the lines not yet read; `none` also when
the lines run out before a name is accepted. -/
def rutina_hilo_cliente_handshake (e : Estado) (user : Nat)
    (lineas : List cadena) : Option (Estado × cadena × List cadena) :=
  match lineas with
  | [] => none
  | nombre_aux :: resto =>
    if strlen nombre_aux + 1 ≤ malloc_usable_size MAXLENGTH_USER then
      let e1 :=
        if existe_elemento e.lista_global_hilos_usuarios nombre_aux (hilos_iguales e) then
          write e (e.usuarios user).socket mens_pide_nombre (strlen mens_pide_nombre)
        else e
      if existe_elemento e1.lista_global_hilos_usuarios nombre_aux (hilos_iguales e1) then
        rutina_hilo_cliente_handshake e1 user resto
      else some (e1, nombre_aux, resto)
    else none

/-- Lines 728 to 798 of `rutina_hilo_cliente`, up to the main loop: prepare
the `usuario`, run the handshake, copy the accepted name (it fits into the
block of `user->nombre_usuario`, which has the size of `nombre_aux`), and
append the command `sus <sala_pedida>` of this session to the command
queue. -/
def rutina_hilo_cliente_entrada (sala_pedida : cadena) (e : Estado) (user : Nat)
    (basura : cadena) (lineas : List cadena) : Option (Estado × List cadena) :=
  match rutina_hilo_cliente_handshake
      (rutina_hilo_cliente_preparar e user basura) user lineas with
  | none => none
  | some (e1, nombre_aux, resto) =>
    let e2 : Estado := { e1 with
      usuarios := Function.update e1.usuarios user
        { e1.usuarios user with nombre_usuario := nombre_aux } }
    some ({ e2 with
        cola_global_comandos :=
          agregar_final e2.cola_global_comandos
            { texto := "sus ".toList ++ sala_pedida, sender := some user } },
      resto)

/-! ## schat.c: main and check_invocation -/

/-- Lines 1048 to 1083 of `main`: the three global lists are created empty
and the command `cre <sala_pedida>`, with no sender, is appended to the
command queue. -/
def main_inicio (sala_pedida : cadena) (e : Estado) : Estado :=
  { e with
    lista_global_salas := crear_lista
    lista_global_hilos_usuarios := crear_lista
    cola_global_comandos :=
      agregar_final crear_lista
        { texto := "cre ".toList ++ sala_pedida, sender := none } }

/-- Lines 1122 to 1150 of `main`, after a successful `accept`: a `usuario`
is allocated at `usuario_nuevo` (its fields hold whatever `basura` the fresh
memory holds), gets the socket, and its `hilo_usuario` goes to the head of
the session registry. -/
def main_aceptar (e : Estado) (usuario_nuevo : Nat) (newsockfd : Int)
    (basura : usuario) : Estado :=
  { e with
    usuarios := Function.update e.usuarios usuario_nuevo
      { basura with socket := newsockfd }
    lista_global_hilos_usuarios :=
      agregar_principio e.lista_global_hilos_usuarios usuario_nuevo }

/-- What `getopt(argc, argv, "p:s:")` hands to the loop of
`check_invocation`, one value per turn. -/
inductive opcion where
  | p (optarg : cadena)
  | s (optarg : cadena)
  | dos_puntos
  | interrogacion

/-- The digits loop of libc `strtol` in base 10. -/
def atoi_digitos (acc : Int) (s : cadena) : Int :=
  match s with
  | [] => acc
  | c :: cs =>
    if c.isDigit then atoi_digitos (acc * 10 + ((c.toNat : Int) - 48)) cs
    else acc

/-- Libc `isspace` in the C locale: space and the bytes 9 to 13. -/
def isspace (c : Char) : Bool :=
  c.toNat = 32 || (9 ≤ c.toNat && c.toNat ≤ 13)

/-- Libc `strtol(s, NULL, 10)`: white space, an optional sign, then digits;
a value outside the range of a `long` (64 bits) comes back as `LONG_MAX` or
`LONG_MIN`. -/
def strtol (s : cadena) : Int :=
  let valor : Int :=
    match s.dropWhile isspace with
    | [] => 0
    | c :: cs =>
      if c = Char.ofNat 45 then - atoi_digitos 0 cs
      else if c = Char.ofNat 43 then atoi_digitos 0 cs
      else atoi_digitos 0 (c :: cs)
  if valor > 9223372036854775807 then 9223372036854775807
  else if valor < -9223372036854775808 then -9223372036854775808
  else valor

/-- The conversion `(int) x` of a `long`: the low 32 bits, read as a signed
number. -/
def a_int (x : Int) : Int :=
  (x + 2147483648) % 4294967296 - 2147483648

/-- Libc `atoi`: `(int) strtol(s, NULL, 10)`. -/
def atoi (s : cadena) : Int :=
  a_int (strtol s)

/-- The variables `pflag`, `puerto` and `sala_pedida` that
`check_invocation` sets. -/
structure invocacion where
  pflag : Bool
  puerto : Int
  sala_pedida : cadena

/-- The `while` of `check_invocation`; `Except.error n` stands for
`exit(n)`. -/
def check_invocation_bucle (v : invocacion) (opts : List opcion) :
    Except Nat invocacion :=
  match opts with
  | [] => Except.ok v
  | opcion.p optarg :: resto =>
    let puerto := atoi optarg
    if puerto < 1024 ∨ puerto > 65535 then Except.error 1
    else check_invocation_bucle { v with pflag := true, puerto := puerto } resto
  | opcion.s optarg :: resto =>
    check_invocation_bucle { v with sala_pedida := optarg } resto
  | opcion.dos_puntos :: _ => Except.error 1
  | opcion.interrogacion :: _ => Except.error 1

/-- Source `check_invocation`, on the values of `getopt`; the globals start
as in the source, `sala_pedida = "actual"` and `puerto` zero. -/
def check_invocation (opts : List opcion) : Except Nat invocacion :=
  match check_invocation_bucle
      { pflag := false, puerto := 0, sala_pedida := "actual".toList } opts with
  | Except.error n => Except.error n
  | Except.ok v => if !v.pflag then Except.error 1 else Except.ok v

/-! ## schat.c: the line buffer of the session thread -/

/-- The value of `sizeof(j*2)`: the operand has type `int`, and `sizeof`
gives the size of that type. -/
def sizeof_int : Nat := 4

/-- The variables of the read loop of `rutina_hilo_cliente`: the bytes at
the offsets from the pointer `mensaje`, the counters `i` and `j`, and the
size of the block that `mensaje` points to, as the last `malloc` or
`realloc` made it. -/
structure lectura where
  mensaje : Nat → Char
  i : Nat
  j : Nat
  capacidad : Nat

/-- Lines 809 to 813 of `rutina_hilo_cliente`: the block of `malloc(MAXLENGTH)`
holds whatever bytes `basura` the fresh memory holds, and `i` and `j` are
zero when the first line is read. -/
def lectura_inicial (basura : Nat → Char) : lectura :=
  { mensaje := basura, i := 0, j := 0, capacidad := MAXLENGTH }

/-- The `while ((status = read(user->socket, &c, 1)) == 1)` of lines 815 to
835, fed with the bytes `entrada` that the socket delivers: when `j` has
reached `MAXLENGTH` the block is reallocated with size `sizeof(j*2)` and `j`
starts again at zero; a newline stores the NUL at offset `i` and leaves the
loop, any other byte is stored at offset `i` and both counters go up.  The
stores are made whatever the size of the block is.  The result is the
variables when the loop stops, the last `status` (0 when the bytes run out)
and the bytes not yet read. -/
def leer_linea (v : lectura) (entrada : List Char) :
    lectura × Int × List Char :=
  match entrada with
  | [] => (v, 0, [])
  | c :: resto =>
    let v1 : lectura :=
      if v.j ≥ MAXLENGTH then { v with capacidad := sizeof_int, j := 0 } else v
    if c = Char.ofNat 10 then
      ({ v1 with mensaje := Function.update v1.mensaje v1.i (Char.ofNat 0) },
        1, resto)
    else
      leer_linea
        { v1 with
          mensaje := Function.update v1.mensaje v1.i c
          i := v1.i + 1
          j := v1.j + 1 }
        resto

/-- Lines 811 to 835 for one line: `i = 0; j = 0;` and then the read loop,
with the block as the turn before left it. -/
def leer_linea_desde (v : lectura) (entrada : List Char) :
    lectura × Int × List Char :=
  leer_linea { v with i := 0, j := 0 } entrada

/-! ## schat.c: calls of pthread_mutex_lock and pthread_mutex_unlock

Each function below gives, for one operation of the source, the calls of
`pthread_mutex_lock` and `pthread_mutex_unlock` that the operation makes, in
program order, up to its return or up to the point where a `NULL` user is
dereferenced. -/

/-- The mutexes of schat.c; `mutex_socket user` is the field `mutex_socket`
of the `usuario` at address `user`. -/
inductive mutex where
  | mutex_comandos
  | mutex_salas
  | mutex_socket (user : Nat)
deriving DecidableEq

/-- A call of `pthread_mutex_lock` or of `pthread_mutex_unlock`. -/
inductive llamada where
  | lock (m : mutex)
  | unlock (m : mutex)
deriving DecidableEq

/-- The calls of source `crear_sala` (lines 304 to 329). -/
def crear_sala_cerrojos (e : Estado) (sala_agregar : cadena)
    (user : Option Nat) : List llamada :=
  llamada.lock mutex.mutex_salas ::
    if existe_elemento e.lista_global_salas sala_agregar (salas_iguales e) then
      match user with
      | none => []
      | some u =>
        [llamada.lock (mutex.mutex_socket u), llamada.unlock (mutex.mutex_socket u),
          llamada.unlock mutex.mutex_salas]
    else [llamada.unlock mutex.mutex_salas]

/-- The calls of source `eliminar_sala` (lines 350 to 375). -/
def eliminar_sala_cerrojos (e : Estado) (sala_eliminar : cadena)
    (user : Option Nat) : List llamada :=
  llamada.lock mutex.mutex_salas ::
    match encontrar_elemento e.lista_global_salas sala_eliminar (salas_iguales e) with
    | some _ => [llamada.unlock mutex.mutex_salas]
    | none =>
      match user with
      | none => []
      | some u =>
        [llamada.lock (mutex.mutex_socket u), llamada.unlock (mutex.mutex_socket u),
          llamada.unlock mutex.mutex_salas]

/-- The calls of source `suscribir_usuario` (lines 398 to 425). -/
def suscribir_usuario_cerrojos (e : Estado) (sala_suscribir : cadena)
    (user : Option Nat) : List llamada :=
  llamada.lock mutex.mutex_salas ::
    match user with
    | none => []
    | some u =>
      match (if !lista_vacia e.lista_global_salas then
          encontrar_elemento e.lista_global_salas sala_suscribir (salas_iguales e)
        else none) with
      | some actual =>
        if !existe_elemento (e.usuarios u).lista_salas_suscritas
            (e.salas actual).nombre_sala (salas_iguales e) then
          [llamada.unlock mutex.mutex_salas]
        else
          [llamada.lock (mutex.mutex_socket u), llamada.unlock (mutex.mutex_socket u),
            llamada.unlock mutex.mutex_salas]
      | none =>
        [llamada.lock (mutex.mutex_socket u), llamada.unlock (mutex.mutex_socket u),
          llamada.unlock mutex.mutex_salas]

/-- The calls of source `desuscribir_usuario` (lines 448 to 464). -/
def desuscribir_usuario_cerrojos (user : Option Nat) : List llamada :=
  llamada.lock mutex.mutex_salas ::
    match user with
    | none => []
    | some _ => [llamada.unlock mutex.mutex_salas]

/-- The calls of source `eliminar_usuario`: those of `desuscribir_usuario`;
the removal from the session registry that follows makes none. -/
def eliminar_usuario_cerrojos (user : Option Nat) : List llamada :=
  desuscribir_usuario_cerrojos user

/-- The calls of source `imprimir_lista_salas` (lines 508 to 534). -/
def imprimir_lista_salas_cerrojos (user : Option Nat) : List llamada :=
  llamada.lock mutex.mutex_salas ::
    match user with
    | none => []
    | some u =>
      [llamada.lock (mutex.mutex_socket u), llamada.unlock (mutex.mutex_socket u),
        llamada.unlock mutex.mutex_salas]

/-- The calls of source `listar_usuarios` (lines 562 to 583). -/
def listar_usuarios_cerrojos (user : Option Nat) : List llamada :=
  match user with
  | none => []
  | some u =>
    [llamada.lock (mutex.mutex_socket u), llamada.unlock (mutex.mutex_socket u)]

/-- The calls of the inner loop of `enviar_mensaje` (lines 646 to 649): the
write to each member is between a lock and an unlock of the mutex of that
member. -/
def enviar_mensaje_usuarios_cerrojos (user_nod : List Nat) : List llamada :=
  match user_nod with
  | [] => []
  | user_act :: sig =>
    llamada.lock (mutex.mutex_socket user_act) ::
      llamada.unlock (mutex.mutex_socket user_act) ::
        enviar_mensaje_usuarios_cerrojos sig

/-- The calls of the outer loop of `enviar_mensaje`. -/
def enviar_mensaje_salas_cerrojos (e : Estado) (nodo_sala_usuario : List Nat) :
    List llamada :=
  match nodo_sala_usuario with
  | [] => []
  | aux_sala_usuario :: sig =>
    enviar_mensaje_usuarios_cerrojos (e.salas aux_sala_usuario).lista_usuarios_activos ++
      enviar_mensaje_salas_cerrojos e sig

/-- The calls of source `enviar_mensaje`; none is made when the local
`nodo_sala_usuario` is read unassigned. -/
def enviar_mensaje_cerrojos (e : Estado) (user : Option Nat) : List llamada :=
  match user with
  | none => []
  | some u =>
    if !lista_vacia e.lista_global_salas then
      enviar_mensaje_salas_cerrojos e (e.usuarios u).lista_salas_suscritas
    else []

/-- The calls of the branch `fue` of `rutina_hilo_cliente` (lines 912 to
918): `eliminar_usuario`, then the write of `salida` between a lock and an
unlock of the mutex of the session. -/
def rutina_hilo_cliente_fue_cerrojos (user : Nat) : List llamada :=
  eliminar_usuario_cerrojos (some user) ++
    [llamada.lock (mutex.mutex_socket user), llamada.unlock (mutex.mutex_socket user)]

/-! ## schat.c: ctrlc_handler -/

/-- The first `while` of `ctrlc_handler` (lines 1007 to 1016): as long as the
session registry is not empty its first entry is extracted and the byte
`salida` is written to the socket of its `cliente`.  A `NULL` entry cannot be
dereferenced and gives `none`.  The three calls of `free` leave no mark in
the two heaps. -/
def ctrlc_handler_hilos (e : Estado) : Option Estado :=
  if !lista_vacia e.lista_global_hilos_usuarios then
    match _h : extraer_primero e.lista_global_hilos_usuarios with
    | (some hc, resto) =>
      ctrlc_handler_hilos
        (write { e with lista_global_hilos_usuarios := resto }
          (e.usuarios hc).socket salida 1)
    | (none, _) => none
  else some e
termination_by e.lista_global_hilos_usuarios.length
decreasing_by
  cases hl : e.lista_global_hilos_usuarios with
  | nil => rw [hl] at _h; simp [extraer_primero] at _h
  | cons x xs =>
    rw [hl] at _h
    simp only [extraer_primero, Prod.mk.injEq] at _h
    simp [write, ← _h.2]

/-- The second `while` of `ctrlc_handler` (lines 1018 to 1021): as long as
the room list is not empty its first entry is extracted and freed. -/
def ctrlc_handler_salas (e : Estado) : Estado :=
  if !lista_vacia e.lista_global_salas then
    match _h : extraer_primero e.lista_global_salas with
    | (_, resto) => ctrlc_handler_salas { e with lista_global_salas := resto }
  else e
termination_by e.lista_global_salas.length
decreasing_by
  cases hl : e.lista_global_salas with
  | nil => simp_all [lista_vacia]
  | cons x xs =>
    rw [hl] at _h
    simp only [extraer_primero, Prod.mk.injEq] at _h
    simp [← _h.2]

/-- Source `ctrlc_handler`: the two loops, one after the other.  The call
`pthread_kill(tid_manager, 0)` sends no signal, and `close` and `exit(0)`
end the process. -/
def ctrlc_handler (e : Estado) : Option Estado :=
  (ctrlc_handler_hilos e).map ctrlc_handler_salas

/-! ## Well-formed states -/

/-- Room names of the global list are pairwise distinct and every listed
address was handed out by the allocator. -/
def salas_unicas (e : Estado) : Prop :=
  (e.lista_global_salas.map (fun s => (e.salas s).nombre_sala)).Nodup ∧
    ∀ s ∈ e.lista_global_salas, s < e.siguiente_sala

/-- Membership is mutually consistent: a listed room is in a session's
subscribed list exactly when the session is in the room's member list, and
subscribed lists hold listed rooms only. -/
def consistente (e : Estado) : Prop :=
  (∀ s ∈ e.lista_global_salas, ∀ u,
      s ∈ (e.usuarios u).lista_salas_suscritas ↔
        u ∈ (e.salas s).lista_usuarios_activos) ∧
    ∀ u, ∀ s ∈ (e.usuarios u).lista_salas_suscritas, s ∈ e.lista_global_salas

/-- Well-formed state: distinct room names, consistent membership, and no
membership list holds an address twice. -/
structure invariante (e : Estado) : Prop where
  salas : salas_unicas e
  membresia : consistente e
  suscritas_sin_repetir : ∀ u, (e.usuarios u).lista_salas_suscritas.Nodup
  activos_sin_repetir :
    ∀ s ∈ e.lista_global_salas, (e.salas s).lista_usuarios_activos.Nodup

/-- The five registry operations, each with the session that asks. -/
inductive operacion where
  | crear (sala_agregar : cadena) (user : Nat)
  | eliminar (sala_eliminar : cadena) (user : Nat)
  | suscribir (sala_suscribir : cadena) (user : Nat)
  | desuscribir (user : Nat)
  | eliminar_usr (user : Nat)

/-- The session that issues the operation. -/
def operacion.usuario (op : operacion) : Nat :=
  match op with
  | .crear _ u => u
  | .eliminar _ u => u
  | .suscribir _ u => u
  | .desuscribir u => u
  | .eliminar_usr u => u

/-- In the rooms that the session `u` is subscribed to, a member that
carries the username of `u` is `u`. -/
def sin_homonimos (e : Estado) (u : Nat) : Prop :=
  ∀ r ∈ (e.usuarios u).lista_salas_suscritas,
    ∀ m ∈ (e.salas r).lista_usuarios_activos,
      (e.usuarios m).nombre_usuario = (e.usuarios u).nombre_usuario → m = u

/-- The sessions of the list `U` have pairwise distinct usernames. -/
def nombres_distintos (e : Estado) (U : List Nat) : Prop :=
  ∀ u ∈ U, ∀ v ∈ U,
    (e.usuarios u).nombre_usuario = (e.usuarios v).nombre_usuario → u = v

/-- The members of the listed rooms are sessions of the list `U`. -/
def miembros_en (e : Estado) (U : List Nat) : Prop :=
  ∀ s ∈ e.lista_global_salas, ∀ m ∈ (e.salas s).lista_usuarios_activos, m ∈ U

/-- Run one registry operation. -/
def operacion.aplicar (e : Estado) (op : operacion) : Option Estado :=
  match op with
  | .crear n u => crear_sala e n (some u)
  | .eliminar n u => eliminar_sala e n (some u)
  | .suscribir n u => suscribir_usuario e n (some u)
  | .desuscribir u => desuscribir_usuario e (some u)
  | .eliminar_usr u => eliminar_usuario e (some u)

/-- Run a sequence of registry operations in order. -/
def aplicar_operaciones (e : Estado) (ops : List operacion) : Option Estado :=
  match ops with
  | [] => some e
  | op :: resto =>
    match op.aplicar e with
    | some e1 => aplicar_operaciones e1 resto
    | none => none

/-! ## Example states -/

/-- Username of the example session at address `u`: `u` letters. -/
def nombre_ejemplo (u : Nat) : cadena := List.replicate u (Char.ofNat 97)

/-- The state right after start-up, with no room and no command, for
sessions named by `nombre_ejemplo` that hold no subscription. -/
def estado_vacio : Estado :=
  { usuarios := fun u =>
      { nombre_usuario := nombre_ejemplo u, socket := (u : Int) + 4,
        lista_salas_suscritas := [] }
    salas := fun _ => { nombre_sala := [], lista_usuarios_activos := [] }
    siguiente_sala := 0
    lista_global_salas := []
    cola_global_comandos := []
    lista_global_hilos_usuarios := []
    escrituras := [] }

/-- Two sessions connected and named, before any command: `estado_vacio`
with the sessions 2 and 1 in the session registry. -/
def estado_dos_sesiones : Estado :=
  { estado_vacio with lista_global_hilos_usuarios := [2, 1] }

/-- A running server: room 0 "lobby" with members 2 and 1, room 1 "juegos"
with member 2, both sessions registered. -/
def estado_ejemplo : Estado :=
  { usuarios := fun u =>
      { nombre_usuario := nombre_ejemplo u, socket := (u : Int) + 4,
        lista_salas_suscritas :=
          if u = 1 then [0] else if u = 2 then [1, 0] else [] }
    salas := fun s =>
      if s = 0 then
        { nombre_sala := "lobby".toList, lista_usuarios_activos := [2, 1] }
      else if s = 1 then
        { nombre_sala := "juegos".toList, lista_usuarios_activos := [2] }
      else { nombre_sala := [], lista_usuarios_activos := [] }
    siguiente_sala := 2
    lista_global_salas := [1, 0]
    cola_global_comandos := []
    lista_global_hilos_usuarios := [2, 1]
    escrituras := [] }

/-- A state with consistent membership in which a subscribed list holds a
room twice: room 0 "lobby" has the one member 1, and the subscribed list of
session 1 holds room 0 two times. -/
def estado_repetida : Estado :=
  { usuarios := fun u =>
      { nombre_usuario := nombre_ejemplo u, socket := (u : Int) + 4,
        lista_salas_suscritas := if u = 1 then [0, 0] else [] }
    salas := fun s =>
      if s = 0 then
        { nombre_sala := "lobby".toList, lista_usuarios_activos := [1] }
      else { nombre_sala := [], lista_usuarios_activos := [] }
    siguiente_sala := 1
    lista_global_salas := [0]
    cola_global_comandos := []
    lista_global_hilos_usuarios := [1]
    escrituras := [] }

/-- The state `e1` differs from `e` at most in the trace of writes. -/
def solo_escribe (e e1 : Estado) : Prop :=
  e1.usuarios = e.usuarios ∧ e1.salas = e.salas ∧
    e1.siguiente_sala = e.siguiente_sala ∧
    e1.lista_global_salas = e.lista_global_salas ∧
    e1.cola_global_comandos = e.cola_global_comandos ∧
    e1.lista_global_hilos_usuarios = e.lista_global_hilos_usuarios

/-- A chat in progress: session 1 "alice" (socket 5) and session 2 "bob"
(socket 6), both registered and both in room 0 "lobby". -/
def estado_chat : Estado :=
  { usuarios := fun u =>
      { nombre_usuario :=
          if u = 1 then "alice".toList else if u = 2 then "bob".toList
          else nombre_ejemplo u
        socket := (u : Int) + 4
        lista_salas_suscritas := if u = 1 ∨ u = 2 then [0] else [] }
    salas := fun s =>
      if s = 0 then
        { nombre_sala := "lobby".toList, lista_usuarios_activos := [2, 1] }
      else { nombre_sala := [], lista_usuarios_activos := [] }
    siguiente_sala := 1
    lista_global_salas := [0]
    cola_global_comandos := []
    lista_global_hilos_usuarios := [2, 1]
    escrituras := [] }

/-- Append the commands `cs` to the queue one after the other. -/
def agregar_todos {α : Type} (l : List α) (cs : List α) : List α :=
  match cs with
  | [] => l
  | c :: resto => agregar_todos (agregar_final l c) resto

/-- Call `extraer_primero` `n` times: the values returned, in order, and
the queue that is left. -/
def extraer_varios {α : Type} (l : List α) (n : Nat) : List (Option α) × List α :=
  match n with
  | 0 => ([], l)
  | k + 1 =>
    let r := extraer_primero l
    let r1 := extraer_varios r.2 k
    (r.1 :: r1.1, r1.2)

/-- The line starts with the bytes `p`. -/
def empieza_con (p mensaje : cadena) : Prop := ∃ arg, mensaje = p ++ arg

/-- The lines that the claims call queued commands: create, delete and
subscribe with their argument, and exactly `sal`, `mis`, `des`. -/
def linea_encolada (mensaje : cadena) : Prop :=
  empieza_con "cre ".toList mensaje ∨ empieza_con "eli ".toList mensaje ∨
    empieza_con "sus ".toList mensaje ∨ mensaje = "sal".toList ∨
    mensaje = "mis".toList ∨ mensaje = "des".toList

/-- What happens to the server, in order: a connection is accepted and its
handshake runs to the end, or the handler of a session reads `fue`. -/
inductive evento where
  | conectar (usuario_nuevo : Nat) (newsockfd : Int) (basura : usuario)
      (basura_nombre : cadena) (lineas : List cadena)
  | salir (user : Nat)

/-- Run the events in order.  A connection gets an address that no
registered session has; `none` when a handshake runs out of lines. -/
def ejecutar_eventos (sala_pedida : cadena) (e : Estado) (evs : List evento) :
    Option Estado :=
  match evs with
  | [] => some e
  | evento.conectar u fd basura basura_nombre lineas :: resto =>
    if u ∈ e.lista_global_hilos_usuarios then none
    else
      match rutina_hilo_cliente_entrada sala_pedida (main_aceptar e u fd basura)
          u basura_nombre lineas with
      | some (e1, _) => ejecutar_eventos sala_pedida e1 resto
      | none => none
  | evento.salir u :: resto =>
    match rutina_hilo_cliente_paso e u 1 "fue".toList with
    | some (e1, _) => ejecutar_eventos sala_pedida e1 resto
    | none => none

/-- The writes of one broadcast of `user` with text `mens`, room by room of
the list `salas_usuario` and member by member: socket and bytes. -/
def traza_mensaje (e : Estado) (user : Nat) (mens : cadena)
    (salas_usuario : List Nat) : List (Int × cadena) :=
  salas_usuario.flatMap (fun r =>
    (e.salas r).lista_usuarios_activos.map (fun m =>
      ((e.usuarios m).socket,
        "\n>> ".toList ++ (e.usuarios user).nombre_usuario ++ "@".toList ++
          (e.salas r).nombre_sala ++ ": ".toList ++ mens ++ "\n".toList)))

/-- The number that a string of decimal digits denotes. -/
def valor_decimal (s : cadena) : Nat :=
  s.foldl (fun acc c => acc * 10 + (c.toNat - 48)) 0

/-- The string is a decimal numeral: one digit at least, and digits only. -/
def solo_digitos (s : cadena) : Prop :=
  s ≠ [] ∧ ∀ c ∈ s, c.isDigit = true

/-- An option value that lets the loop of `check_invocation` go on: `-p`
with a port from 1024 to 65535, or `-s`. -/
def opcion_valida (o : opcion) : Prop :=
  match o with
  | opcion.p optarg => 1024 ≤ atoi optarg ∧ atoi optarg ≤ 65535
  | opcion.s _ => True
  | opcion.dos_puntos => False
  | opcion.interrogacion => False

/-- The mutex is the `mutex_socket` of some session. -/
def es_mutex_socket (m : mutex) : Bool :=
  match m with
  | mutex.mutex_socket _ => true
  | _ => false

/-- Walking the calls in order from the set `tomados` of mutexes held: no
call locks `mutex_salas` while the `mutex_socket` of some session is held. -/
def salas_sin_socket_tomado (tomados : List mutex) (ls : List llamada) : Bool :=
  match ls with
  | [] => true
  | llamada.lock m :: resto =>
    (!decide (m = mutex.mutex_salas) || !tomados.any es_mutex_socket) &&
      salas_sin_socket_tomado (m :: tomados) resto
  | llamada.unlock m :: resto => salas_sin_socket_tomado (tomados.erase m) resto

/-- Walking the calls in order from the set `tomados` of mutexes held: no
call locks a `mutex_socket` while a `mutex_socket` is held. -/
def un_socket_a_la_vez (tomados : List mutex) (ls : List llamada) : Bool :=
  match ls with
  | [] => true
  | llamada.lock m :: resto =>
    (!es_mutex_socket m || !tomados.any es_mutex_socket) &&
      un_socket_a_la_vez (m :: tomados) resto
  | llamada.unlock m :: resto => un_socket_a_la_vez (tomados.erase m) resto

section ListaLemas

variable {α : Type} {κ : Type}

theorem agregar_final_eq (l : List α) (x : α) : agregar_final l x = l ++ [x] := by
  induction l with
  | nil => rfl
  | cons y ys ih => simp [agregar_final, ih]

theorem existe_elemento_iff (l : List α) (k : κ) (cmp : κ → α → Bool) :
    existe_elemento l k cmp = true ↔ ∃ x ∈ l, cmp k x = true := by
  induction l with
  | nil => simp [existe_elemento]
  | cons y ys ih =>
    by_cases h : cmp k y = true
    · simp [existe_elemento, h]
    · simp [existe_elemento, h, ih]

theorem existe_elemento_false_iff (l : List α) (k : κ) (cmp : κ → α → Bool) :
    existe_elemento l k cmp = false ↔ ∀ x ∈ l, cmp k x = false := by
  rw [← Bool.not_eq_true, existe_elemento_iff]
  simp

theorem encontrar_elemento_eq_find (l : List α) (k : κ) (cmp : κ → α → Bool) :
    encontrar_elemento l k cmp = l.find? (cmp k) := by
  induction l with
  | nil => rfl
  | cons y ys ih =>
    by_cases h : cmp k y = true
    · simp [encontrar_elemento, h]
    · simp [encontrar_elemento, h, ih]

theorem encontrar_elemento_none_iff (l : List α) (k : κ) (cmp : κ → α → Bool) :
    encontrar_elemento l k cmp = none ↔ existe_elemento l k cmp = false := by
  rw [encontrar_elemento_eq_find, existe_elemento_false_iff]
  simp

theorem encontrar_elemento_some (l : List α) (k : κ) (cmp : κ → α → Bool) (x : α)
    (h : encontrar_elemento l k cmp = some x) : x ∈ l ∧ cmp k x = true := by
  rw [encontrar_elemento_eq_find] at h
  exact ⟨List.mem_of_find?_eq_some h, List.find?_some h⟩

theorem eliminar_elemento_bucle_fst (l : List α) (k : κ) (cmp : κ → α → Bool)
    (d : Bool) : (eliminar_elemento_bucle l k cmp d).1 = l.eraseP (cmp k) := by
  induction l with
  | nil => rfl
  | cons y ys ih =>
    by_cases h : cmp k y = true
    · simp [eliminar_elemento_bucle, h]
    · simp [eliminar_elemento_bucle, h, ih]

theorem eliminar_elemento_fst (l : List α) (k : κ) (cmp : κ → α → Bool)
    (d : Bool) : (eliminar_elemento l k cmp d).1 = l.eraseP (cmp k) := by
  cases l with
  | nil => rfl
  | cons y ys =>
    by_cases h : cmp k y = true
    · simp [eliminar_elemento, h]
    · simp [eliminar_elemento, h, eliminar_elemento_bucle_fst]

/-- When the comparison singles out `a` among the elements of the list, the
removal is the removal of `a`. -/
theorem eliminar_elemento_eq_erase [DecidableEq α] (l : List α) (k : κ)
    (cmp : κ → α → Bool) (d : Bool) (a : α)
    (h : ∀ x ∈ l, (cmp k x = true ↔ x = a)) :
    (eliminar_elemento l k cmp d).1 = l.erase a := by
  rw [eliminar_elemento_fst]
  induction l with
  | nil => rfl
  | cons y ys ih =>
    have hy := h y (List.mem_cons_self _ _)
    have ih1 := ih (fun x hx => h x (List.mem_cons_of_mem _ hx))
    by_cases hc : cmp k y = true
    · have : y = a := hy.1 hc
      subst this
      simp [List.eraseP_cons, hc]
    · have hne : ¬ y = a := fun h1 => hc (hy.2 h1)
      simp [List.eraseP_cons, hc, ih1, List.erase_cons, hne]

end ListaLemas

/-! ## The two loops over membership lists -/

theorem eliminar_sala_bucle_marco (n : cadena) (L : List Nat) (e : Estado) :
    (eliminar_sala_bucle e n L).salas = e.salas ∧
    (eliminar_sala_bucle e n L).siguiente_sala = e.siguiente_sala ∧
    (eliminar_sala_bucle e n L).lista_global_salas = e.lista_global_salas ∧
    (eliminar_sala_bucle e n L).cola_global_comandos = e.cola_global_comandos ∧
    (eliminar_sala_bucle e n L).lista_global_hilos_usuarios =
      e.lista_global_hilos_usuarios ∧
    (eliminar_sala_bucle e n L).escrituras = e.escrituras ∧
    ∀ m, ((eliminar_sala_bucle e n L).usuarios m).nombre_usuario =
        (e.usuarios m).nombre_usuario ∧
      ((eliminar_sala_bucle e n L).usuarios m).socket = (e.usuarios m).socket := by
  induction L generalizing e with
  | nil => simp [eliminar_sala_bucle]
  | cons m0 L ih =>
    obtain ⟨h1, h2, h3, h4, h5, h6, h7⟩ := ih
      { e with
        usuarios := Function.update e.usuarios m0
          { e.usuarios m0 with
            lista_salas_suscritas :=
              (eliminar_elemento (e.usuarios m0).lista_salas_suscritas
                n (salas_iguales e) false).1 } }
    refine ⟨h1, h2, h3, h4, h5, h6, fun m => ?_⟩
    have := h7 m
    by_cases hm : m = m0
    · subst hm
      simpa [eliminar_sala_bucle] using this
    · simpa [eliminar_sala_bucle, Function.update_apply, hm] using this

theorem eliminar_sala_bucle_suscritas (n : cadena) (R : Nat) (L : List Nat)
    (e : Estado) (hnd : ∀ m, (e.usuarios m).lista_salas_suscritas.Nodup)
    (hp : ∀ m, ∀ x ∈ (e.usuarios m).lista_salas_suscritas,
      (salas_iguales e n x = true ↔ x = R)) (m : Nat) :
    ((eliminar_sala_bucle e n L).usuarios m).lista_salas_suscritas =
      if m ∈ L then (e.usuarios m).lista_salas_suscritas.erase R
      else (e.usuarios m).lista_salas_suscritas := by
  induction L generalizing e with
  | nil => simp [eliminar_sala_bucle]
  | cons m0 L ih =>
    have hstep : (eliminar_elemento (e.usuarios m0).lista_salas_suscritas
        n (salas_iguales e) false).1 =
        (e.usuarios m0).lista_salas_suscritas.erase R :=
      eliminar_elemento_eq_erase _ _ _ _ _ (hp m0)
    have := ih
      { e with
        usuarios := Function.update e.usuarios m0
          { e.usuarios m0 with
            lista_salas_suscritas :=
              (eliminar_elemento (e.usuarios m0).lista_salas_suscritas
                n (salas_iguales e) false).1 } }
      (by
        intro m1
        by_cases h1 : m1 = m0
        · subst h1
          simp only [Function.update_same, hstep]
          exact (hnd m1).erase R
        · simp only [Function.update_apply, h1, if_false]
          exact hnd m1)
      (by
        intro m1 x hx
        show salas_iguales e n x = true ↔ x = R
        by_cases h1 : m1 = m0
        · subst h1
          simp only [Function.update_same, hstep] at hx
          exact hp m1 x (List.mem_of_mem_erase hx)
        · simp only [Function.update_apply, h1, if_false] at hx
          exact hp m1 x hx)
    rw [eliminar_sala_bucle, this]
    by_cases h1 : m = m0
    · subst h1
      have hno : R ∉ (e.usuarios m).lista_salas_suscritas.erase R :=
        fun hc => ((hnd m).mem_erase_iff.1 hc).1 rfl
      simp only [Function.update_same, hstep, List.mem_cons, true_or, if_true]
      split_ifs
      · exact List.erase_of_not_mem hno
      · rfl
    · simp [Function.update_apply, h1]

theorem desuscribir_usuario_bucle_marco (u : Nat) (L : List Nat) (e : Estado) :
    (desuscribir_usuario_bucle e u L).usuarios = e.usuarios ∧
    (desuscribir_usuario_bucle e u L).siguiente_sala = e.siguiente_sala ∧
    (desuscribir_usuario_bucle e u L).lista_global_salas = e.lista_global_salas ∧
    (desuscribir_usuario_bucle e u L).cola_global_comandos =
      e.cola_global_comandos ∧
    (desuscribir_usuario_bucle e u L).lista_global_hilos_usuarios =
      e.lista_global_hilos_usuarios ∧
    (desuscribir_usuario_bucle e u L).escrituras = e.escrituras ∧
    ∀ r, ((desuscribir_usuario_bucle e u L).salas r).nombre_sala =
        (e.salas r).nombre_sala := by
  induction L generalizing e with
  | nil => simp [desuscribir_usuario_bucle]
  | cons r0 L ih =>
    obtain ⟨h1, h2, h3, h4, h5, h6, h7⟩ := ih
      { e with
        salas := Function.update e.salas r0
          { e.salas r0 with
            lista_usuarios_activos :=
              (eliminar_elemento (e.salas r0).lista_usuarios_activos
                (e.usuarios u).nombre_usuario (usuarios_iguales e) false).1 } }
    refine ⟨h1, h2, h3, h4, h5, h6, fun r => ?_⟩
    have := h7 r
    by_cases hr : r = r0
    · subst hr
      simpa [desuscribir_usuario_bucle] using this
    · simpa [desuscribir_usuario_bucle, Function.update_apply, hr] using this

theorem desuscribir_usuario_bucle_activos (u : Nat) (L : List Nat) (e : Estado)
    (hnd : ∀ r ∈ L, (e.salas r).lista_usuarios_activos.Nodup)
    (hn : ∀ r ∈ L, ∀ x ∈ (e.salas r).lista_usuarios_activos,
      (e.usuarios x).nombre_usuario = (e.usuarios u).nombre_usuario → x = u)
    (r : Nat) :
    ((desuscribir_usuario_bucle e u L).salas r).lista_usuarios_activos =
      if r ∈ L then (e.salas r).lista_usuarios_activos.erase u
      else (e.salas r).lista_usuarios_activos := by
  induction L generalizing e with
  | nil => simp [desuscribir_usuario_bucle]
  | cons r0 L ih =>
    have hr0 : r0 ∈ r0 :: L := List.mem_cons_self _ _
    have hstep : (eliminar_elemento (e.salas r0).lista_usuarios_activos
        (e.usuarios u).nombre_usuario (usuarios_iguales e) false).1 =
        (e.salas r0).lista_usuarios_activos.erase u :=
      eliminar_elemento_eq_erase _ _ _ _ _
        (fun x hx => by
          simp only [usuarios_iguales, decide_eq_true_eq]
          constructor
          · intro h
            exact hn r0 hr0 x hx h.symm
          · intro h
            rw [h])
    have := ih
      { e with
        salas := Function.update e.salas r0
          { e.salas r0 with
            lista_usuarios_activos :=
              (eliminar_elemento (e.salas r0).lista_usuarios_activos
                (e.usuarios u).nombre_usuario (usuarios_iguales e) false).1 } }
      (by
        intro r1 hr1
        by_cases h1 : r1 = r0
        · subst h1
          simp only [Function.update_same, hstep]
          exact (hnd r1 hr0).erase u
        · simp only [Function.update_apply, h1, if_false]
          exact hnd r1 (List.mem_cons_of_mem _ hr1))
      (by
        intro r1 hr1 x hx
        show (e.usuarios x).nombre_usuario = (e.usuarios u).nombre_usuario → x = u
        by_cases h1 : r1 = r0
        · subst h1
          simp only [Function.update_same, hstep] at hx
          exact hn r1 hr0 x (List.mem_of_mem_erase hx)
        · simp only [Function.update_apply, h1, if_false] at hx
          exact hn r1 (List.mem_cons_of_mem _ hr1) x hx)
    rw [desuscribir_usuario_bucle, this]
    by_cases h1 : r = r0
    · subst h1
      have hno : u ∉ (e.salas r).lista_usuarios_activos.erase u :=
        fun hc => ((hnd r hr0).mem_erase_iff.1 hc).1 rfl
      simp only [Function.update_same, hstep, List.mem_cons, true_or, if_true]
      split_ifs
      · exact List.erase_of_not_mem hno
      · rfl
    · simp [Function.update_apply, h1]

/-! ## Rooms are found by name -/

theorem salas_iguales_iff (e : Estado)
    (hs : (e.lista_global_salas.map (fun s => (e.salas s).nombre_sala)).Nodup)
    (R x : Nat)
    (hR : R ∈ e.lista_global_salas) (hx : x ∈ e.lista_global_salas) :
    salas_iguales e (e.salas R).nombre_sala x = true ↔ x = R := by
  simp only [salas_iguales, decide_eq_true_eq]
  constructor
  · intro h
    exact (List.inj_on_of_nodup_map hs hR hx h).symm
  · intro h
    rw [h]

theorem encontrar_sala (e : Estado)
    (hs : (e.lista_global_salas.map (fun s => (e.salas s).nombre_sala)).Nodup)
    (R : Nat) (hR : R ∈ e.lista_global_salas) :
    encontrar_elemento e.lista_global_salas (e.salas R).nombre_sala
      (salas_iguales e) = some R := by
  cases h : encontrar_elemento e.lista_global_salas (e.salas R).nombre_sala
      (salas_iguales e) with
  | none =>
    rw [encontrar_elemento_none_iff, existe_elemento_false_iff] at h
    have := h R hR
    simp [salas_iguales] at this
  | some x =>
    obtain ⟨hx, hc⟩ := encontrar_elemento_some _ _ _ _ h
    rw [(salas_iguales_iff e hs R x hR hx).1 hc]

theorem existe_sala (e : Estado) (R : Nat) (hR : R ∈ e.lista_global_salas) :
    existe_elemento e.lista_global_salas (e.salas R).nombre_sala
      (salas_iguales e) = true := by
  rw [existe_elemento_iff]
  exact ⟨R, hR, by simp [salas_iguales]⟩

theorem salas_iguales_congr (e e1 : Estado)
    (h : ∀ r, (e1.salas r).nombre_sala = (e.salas r).nombre_sala) :
    salas_iguales e1 = salas_iguales e := by
  funext n x
  simp [salas_iguales, h]

/-- Well-formedness does not look at the trace of writes. -/
theorem invariante_write (e : Estado) (fd : Int) (buf : cadena) (n : Nat)
    (h : invariante e) : invariante (write e fd buf n) :=
  { salas := h.salas
    membresia := h.membresia
    suscritas_sin_repetir := h.suscritas_sin_repetir
    activos_sin_repetir := h.activos_sin_repetir }

/-! ## crear_sala -/

theorem crear_sala_existe (e : Estado) (n : cadena) (u : Nat)
    (h : existe_elemento e.lista_global_salas n (salas_iguales e) = true) :
    crear_sala e n (some u) =
      some (write e (e.usuarios u).socket "\nLa sala ya existe.\n\n".toList 21) := by
  simp [crear_sala, h]

theorem crear_sala_nueva (e : Estado) (n : cadena) (user : Option Nat)
    (h : existe_elemento e.lista_global_salas n (salas_iguales e) = false) :
    crear_sala e n user =
      some { e with
        salas := Function.update e.salas e.siguiente_sala
          { nombre_sala := n, lista_usuarios_activos := [] }
        siguiente_sala := e.siguiente_sala + 1
        lista_global_salas := e.siguiente_sala :: e.lista_global_salas } := by
  simp [crear_sala, h, crear_lista, agregar_principio]

theorem salas_unicas_crear (e : Estado) (n : cadena) (hs : salas_unicas e)
    (h : existe_elemento e.lista_global_salas n (salas_iguales e) = false) :
    salas_unicas { e with
        salas := Function.update e.salas e.siguiente_sala
          { nombre_sala := n, lista_usuarios_activos := [] }
        siguiente_sala := e.siguiente_sala + 1
        lista_global_salas := e.siguiente_sala :: e.lista_global_salas } := by
  have hne : ∀ s ∈ e.lista_global_salas, s ≠ e.siguiente_sala :=
    fun s hs1 => Nat.ne_of_lt (hs.2 s hs1)
  have hmap : e.lista_global_salas.map
      (fun s => (Function.update e.salas e.siguiente_sala
        { nombre_sala := n, lista_usuarios_activos := [] } s).nombre_sala) =
      e.lista_global_salas.map (fun s => (e.salas s).nombre_sala) := by
    apply List.map_congr_left
    intro s hs1
    simp [Function.update_apply, hne s hs1]
  rw [existe_elemento_false_iff] at h
  constructor
  · simp only [List.map_cons, Function.update_same, List.nodup_cons, hmap]
    refine ⟨?_, hs.1⟩
    intro hmem
    obtain ⟨s, hs1, hs2⟩ := List.mem_map.mp hmem
    have := h s hs1
    simp [salas_iguales, hs2] at this
  · intro s hs1
    rcases List.mem_cons.mp hs1 with h1 | h1
    · rw [h1]; exact Nat.lt_succ_self _
    · exact Nat.lt_succ_of_lt (hs.2 s h1)

theorem invariante_crear (e : Estado) (n : cadena) (hi : invariante e)
    (h : existe_elemento e.lista_global_salas n (salas_iguales e) = false) :
    invariante { e with
        salas := Function.update e.salas e.siguiente_sala
          { nombre_sala := n, lista_usuarios_activos := [] }
        siguiente_sala := e.siguiente_sala + 1
        lista_global_salas := e.siguiente_sala :: e.lista_global_salas } := by
  have hne : ∀ s ∈ e.lista_global_salas, s ≠ e.siguiente_sala :=
    fun s hs1 => Nat.ne_of_lt (hi.salas.2 s hs1)
  have hfresh : ∀ u, e.siguiente_sala ∉ (e.usuarios u).lista_salas_suscritas :=
    fun u hu => hne _ (hi.membresia.2 u _ hu) rfl
  refine
    { salas := salas_unicas_crear e n hi.salas h
      membresia := ⟨?_, ?_⟩
      suscritas_sin_repetir := hi.suscritas_sin_repetir
      activos_sin_repetir := ?_ }
  · intro s hs1 u
    rcases List.mem_cons.mp hs1 with h1 | h1
    · subst h1
      simp [hfresh u]
    · simpa [Function.update_apply, hne s h1] using hi.membresia.1 s h1 u
  · intro u s hs1
    exact List.mem_cons_of_mem _ (hi.membresia.2 u s hs1)
  · intro s hs1
    rcases List.mem_cons.mp hs1 with h1 | h1
    · subst h1
      simp
    · simpa [Function.update_apply, hne s h1] using hi.activos_sin_repetir s h1

/-! ## eliminar_sala -/

/-- What `eliminar_sala` does when the room exists, in a state with distinct
room names, consistent membership and no room twice in a subscribed list:
the room leaves the global list and every subscribed list, nothing else
changes. -/
theorem eliminar_sala_existe (e : Estado)
    (hs : (e.lista_global_salas.map (fun s => (e.salas s).nombre_sala)).Nodup)
    (hc : consistente e)
    (hnd : ∀ u, (e.usuarios u).lista_salas_suscritas.Nodup) (R : Nat)
    (hR : R ∈ e.lista_global_salas) (user : Option Nat) :
    ∃ e1, eliminar_sala e (e.salas R).nombre_sala user = some e1 ∧
      e1.lista_global_salas = e.lista_global_salas.erase R ∧
      e1.salas = e.salas ∧
      e1.siguiente_sala = e.siguiente_sala ∧
      e1.cola_global_comandos = e.cola_global_comandos ∧
      e1.lista_global_hilos_usuarios = e.lista_global_hilos_usuarios ∧
      e1.escrituras = e.escrituras ∧
      ∀ m, (e1.usuarios m).nombre_usuario = (e.usuarios m).nombre_usuario ∧
        (e1.usuarios m).socket = (e.usuarios m).socket ∧
        (e1.usuarios m).lista_salas_suscritas =
          (e.usuarios m).lista_salas_suscritas.erase R := by
  obtain ⟨h1, h2, h3, h4, h5, h6, h7⟩ :=
    eliminar_sala_bucle_marco (e.salas R).nombre_sala
      (e.salas R).lista_usuarios_activos e
  have hsub := eliminar_sala_bucle_suscritas (e.salas R).nombre_sala R
    (e.salas R).lista_usuarios_activos e hnd
    (fun m x hx => salas_iguales_iff e hs R x hR (hc.2 m x hx))
  have hsi : salas_iguales (eliminar_sala_bucle e (e.salas R).nombre_sala
      (e.salas R).lista_usuarios_activos) = salas_iguales e :=
    salas_iguales_congr _ _ (fun r => by rw [h1])
  have heq : eliminar_sala e (e.salas R).nombre_sala user =
      some { eliminar_sala_bucle e (e.salas R).nombre_sala
          (e.salas R).lista_usuarios_activos with
        lista_global_salas :=
          (eliminar_elemento (eliminar_sala_bucle e (e.salas R).nombre_sala
              (e.salas R).lista_usuarios_activos).lista_global_salas
            (e.salas R).nombre_sala
            (salas_iguales (eliminar_sala_bucle e (e.salas R).nombre_sala
              (e.salas R).lista_usuarios_activos)) true).1 } := by
    simp only [eliminar_sala, encontrar_sala e hs R hR]
  refine ⟨_, heq, ?_, h1, h2, h4, h5, h6, fun m => ⟨(h7 m).1, (h7 m).2, ?_⟩⟩
  · show (eliminar_elemento _ _ _ true).1 = _
    rw [hsi, h3]
    exact eliminar_elemento_eq_erase _ _ _ _ _
      (fun x hx => salas_iguales_iff e hs R x hR hx)
  · show ((eliminar_sala_bucle e _ _).usuarios m).lista_salas_suscritas = _
    rw [hsub m]
    by_cases hm : m ∈ (e.salas R).lista_usuarios_activos
    · simp [hm]
    · have : R ∉ (e.usuarios m).lista_salas_suscritas :=
        fun hc1 => hm ((hc.1 R hR m).1 hc1)
      simp [hm, List.erase_of_not_mem this]

/-- A state that differs from a well-formed one by the removal of a room
from the global list and from every subscribed list is well-formed. -/
theorem invariante_sin_sala (e e1 : Estado) (hi : invariante e) (R : Nat)
    (hg : e1.lista_global_salas = e.lista_global_salas.erase R)
    (hs : e1.salas = e.salas) (hn : e1.siguiente_sala = e.siguiente_sala)
    (hu : ∀ m, (e1.usuarios m).nombre_usuario = (e.usuarios m).nombre_usuario ∧
        (e1.usuarios m).lista_salas_suscritas =
          (e.usuarios m).lista_salas_suscritas.erase R) :
    invariante e1 := by
  have hnd : e.lista_global_salas.Nodup := List.Nodup.of_map _ hi.salas.1
  have hmem : ∀ x, x ∈ e1.lista_global_salas ↔ x ≠ R ∧ x ∈ e.lista_global_salas := by
    intro x
    rw [hg, hnd.mem_erase_iff]
  have hsubs : ∀ m x, x ∈ (e1.usuarios m).lista_salas_suscritas ↔
      x ≠ R ∧ x ∈ (e.usuarios m).lista_salas_suscritas := by
    intro m x
    rw [(hu m).2, (hi.suscritas_sin_repetir m).mem_erase_iff]
  refine
    { salas := ⟨?_, ?_⟩
      membresia := ⟨?_, ?_⟩
      suscritas_sin_repetir := ?_
      activos_sin_repetir := ?_ }
  · rw [hg, hs]
    exact hi.salas.1.sublist ((List.erase_sublist R _).map _)
  · intro s hs1
    rw [hn]
    exact hi.salas.2 s ((hmem s).1 hs1).2
  · intro s hs1 u
    obtain ⟨hne, hs2⟩ := (hmem s).1 hs1
    rw [hsubs, hs]
    constructor
    · intro h
      exact (hi.membresia.1 s hs2 u).1 h.2
    · intro h
      exact ⟨hne, (hi.membresia.1 s hs2 u).2 h⟩
  · intro u s hs1
    obtain ⟨hne, hs2⟩ := (hsubs u s).1 hs1
    exact (hmem s).2 ⟨hne, hi.membresia.2 u s hs2⟩
  · intro u
    rw [(hu u).2]
    exact (hi.suscritas_sin_repetir u).erase R
  · intro s hs1
    rw [hs]
    exact hi.activos_sin_repetir s ((hmem s).1 hs1).2

theorem eliminar_sala_ausente (e : Estado) (n : cadena) (u : Nat)
    (h : existe_elemento e.lista_global_salas n (salas_iguales e) = false) :
    eliminar_sala e n (some u) =
      some (write e (e.usuarios u).socket "\nLa sala no existe.\n\n".toList 21) := by
  rw [← encontrar_elemento_none_iff] at h
  simp [eliminar_sala, h]

theorem invariante_eliminar_sala (e e1 : Estado) (n : cadena) (u : Nat)
    (hi : invariante e) (h : eliminar_sala e n (some u) = some e1) :
    invariante e1 := by
  cases hf : encontrar_elemento e.lista_global_salas n (salas_iguales e) with
  | none =>
    rw [encontrar_elemento_none_iff] at hf
    rw [eliminar_sala_ausente e n u hf] at h
    injection h with h
    rw [← h]
    exact invariante_write _ _ _ _ hi
  | some R =>
    obtain ⟨hR, hc⟩ := encontrar_elemento_some _ _ _ _ hf
    have hname : n = (e.salas R).nombre_sala := by
      simpa [salas_iguales] using hc
    obtain ⟨e2, h2, hg, hs, hn, -, -, -, hu⟩ :=
      eliminar_sala_existe e hi.salas.1 hi.membresia hi.suscritas_sin_repetir R hR
        (some u)
    rw [← hname, h] at h2
    injection h2 with h2
    subst h2
    exact invariante_sin_sala e e1 hi R hg hs hn
      (fun m => ⟨(hu m).1, (hu m).2.2⟩)

/-! ## suscribir_usuario -/

theorem buscar_si_no_vacia (l : List Nat) (n : cadena) (cmp : cadena → Nat → Bool) :
    (if (!lista_vacia l) = true then encontrar_elemento l n cmp else none) =
      encontrar_elemento l n cmp := by
  cases l <;> simp [lista_vacia, encontrar_elemento]

theorem suscribir_usuario_ausente (e : Estado) (n : cadena) (u : Nat)
    (h : existe_elemento e.lista_global_salas n (salas_iguales e) = false) :
    suscribir_usuario e n (some u) =
      some (write e (e.usuarios u).socket "\nLa sala no existe.\n\n".toList 21) := by
  rw [← encontrar_elemento_none_iff] at h
  simp only [suscribir_usuario]
  rw [buscar_si_no_vacia, h]

theorem suscribir_usuario_ya (e : Estado) (n : cadena) (u R : Nat)
    (hR : encontrar_elemento e.lista_global_salas n (salas_iguales e) = some R)
    (h : existe_elemento (e.usuarios u).lista_salas_suscritas
      (e.salas R).nombre_sala (salas_iguales e) = true) :
    suscribir_usuario e n (some u) =
      some (write e (e.usuarios u).socket
        "\nYa est\xc3\xa1s suscrito.\n\n".toList 22) := by
  simp only [suscribir_usuario]
  rw [buscar_si_no_vacia, hR]
  simp [h]

theorem suscribir_usuario_nuevo (e : Estado) (n : cadena) (u R : Nat)
    (hR : encontrar_elemento e.lista_global_salas n (salas_iguales e) = some R)
    (h : existe_elemento (e.usuarios u).lista_salas_suscritas
      (e.salas R).nombre_sala (salas_iguales e) = false) :
    suscribir_usuario e n (some u) =
      some { e with
        usuarios := Function.update e.usuarios u
          { e.usuarios u with
            lista_salas_suscritas := R :: (e.usuarios u).lista_salas_suscritas }
        salas := Function.update e.salas R
          { e.salas R with
            lista_usuarios_activos := u :: (e.salas R).lista_usuarios_activos } } := by
  simp only [suscribir_usuario]
  rw [buscar_si_no_vacia, hR]
  simp [h, agregar_principio]

theorem invariante_suscribir (e : Estado) (hi : invariante e) (u R : Nat)
    (hR : R ∈ e.lista_global_salas)
    (hno : R ∉ (e.usuarios u).lista_salas_suscritas) :
    invariante { e with
        usuarios := Function.update e.usuarios u
          { e.usuarios u with
            lista_salas_suscritas := R :: (e.usuarios u).lista_salas_suscritas }
        salas := Function.update e.salas R
          { e.salas R with
            lista_usuarios_activos := u :: (e.salas R).lista_usuarios_activos } } := by
  have hnom : ∀ s, (Function.update e.salas R
      { e.salas R with
        lista_usuarios_activos := u :: (e.salas R).lista_usuarios_activos } s).nombre_sala =
      (e.salas s).nombre_sala := by
    intro s
    by_cases h : s = R
    · subst h; simp
    · simp [Function.update_apply, h]
  have hnu : ∀ m, (Function.update e.usuarios u
      { e.usuarios u with
        lista_salas_suscritas := R :: (e.usuarios u).lista_salas_suscritas } m).nombre_usuario =
      (e.usuarios m).nombre_usuario := by
    intro m
    by_cases h : m = u
    · subst h; simp
    · simp [Function.update_apply, h]
  have hnoact : u ∉ (e.salas R).lista_usuarios_activos :=
    fun hc => hno ((hi.membresia.1 R hR u).2 hc)
  refine
    { salas := ⟨?_, hi.salas.2⟩
      membresia := ⟨?_, ?_⟩
      suscritas_sin_repetir := ?_
      activos_sin_repetir := ?_ }
  · simp only [hnom]
    exact hi.salas.1
  · intro s hs1 m
    have := hi.membresia.1 s hs1 m
    by_cases h1 : s = R <;> by_cases h2 : m = u
    · subst h1; subst h2; simp
    · subst h1
      simp [Function.update_apply, h2, this]
    · subst h2
      simp [Function.update_apply, h1, this]
    · simp [Function.update_apply, h1, h2, this]
  · intro m s hs1
    by_cases h2 : m = u
    · subst h2
      simp only [Function.update_same, List.mem_cons] at hs1
      rcases hs1 with h | h
      · rw [h]; exact hR
      · exact hi.membresia.2 m s h
    · simp only [Function.update_apply, h2, if_false] at hs1
      exact hi.membresia.2 m s hs1
  · intro m
    by_cases h2 : m = u
    · subst h2
      simp [hno, hi.suscritas_sin_repetir m]
    · simp [Function.update_apply, h2, hi.suscritas_sin_repetir m]
  · intro s hs1
    by_cases h1 : s = R
    · subst h1
      simp [hnoact, hi.activos_sin_repetir s hs1]
    · simp [Function.update_apply, h1, hi.activos_sin_repetir s hs1]

/-- Where room names are distinct and the subscribed list of `u` holds listed
rooms only, the name test of `suscribir_usuario` on that list is the test
whether the room itself is in the list. -/
theorem existe_suscrita_iff (e : Estado)
    (hs : (e.lista_global_salas.map (fun s => (e.salas s).nombre_sala)).Nodup)
    (u R : Nat) (hR : R ∈ e.lista_global_salas)
    (hsub : ∀ s ∈ (e.usuarios u).lista_salas_suscritas, s ∈ e.lista_global_salas) :
    existe_elemento (e.usuarios u).lista_salas_suscritas
      (e.salas R).nombre_sala (salas_iguales e) = true ↔
      R ∈ (e.usuarios u).lista_salas_suscritas := by
  rw [existe_elemento_iff]
  constructor
  · rintro ⟨x, hx, hc⟩
    rw [← (salas_iguales_iff e hs R x hR (hsub x hx)).1 hc]
    exact hx
  · intro h
    exact ⟨R, h, by simp [salas_iguales]⟩

theorem invariante_suscribir_usuario (e e1 : Estado) (n : cadena) (u : Nat)
    (hi : invariante e) (h : suscribir_usuario e n (some u) = some e1) :
    invariante e1 := by
  cases hf : encontrar_elemento e.lista_global_salas n (salas_iguales e) with
  | none =>
    rw [encontrar_elemento_none_iff] at hf
    rw [suscribir_usuario_ausente e n u hf] at h
    injection h with h
    rw [← h]
    exact invariante_write _ _ _ _ hi
  | some R =>
    obtain ⟨hR, -⟩ := encontrar_elemento_some _ _ _ _ hf
    cases hx : existe_elemento (e.usuarios u).lista_salas_suscritas
        (e.salas R).nombre_sala (salas_iguales e) with
    | true =>
      rw [suscribir_usuario_ya e n u R hf hx] at h
      injection h with h
      rw [← h]
      exact invariante_write _ _ _ _ hi
    | false =>
      rw [suscribir_usuario_nuevo e n u R hf hx] at h
      injection h with h
      rw [← h]
      refine invariante_suscribir e hi u R hR ?_
      intro hc
      rw [(existe_suscrita_iff e hi.salas.1 u R hR (hi.membresia.2 u)).2 hc] at hx
      exact Bool.noConfusion hx

/-! ## desuscribir_usuario and eliminar_usuario -/

/-- What `desuscribir_usuario` does in a state with consistent membership
where no listed room has a member twice and, in the rooms of `u`, no other
member carries the username of `u`. -/
theorem desuscribir_usuario_efecto (e : Estado) (hc : consistente e)
    (hnd : ∀ s ∈ e.lista_global_salas, (e.salas s).lista_usuarios_activos.Nodup)
    (u : Nat) (hn : sin_homonimos e u) :
    ∃ e1, desuscribir_usuario e (some u) = some e1 ∧
      e1.lista_global_salas = e.lista_global_salas ∧
      e1.siguiente_sala = e.siguiente_sala ∧
      e1.cola_global_comandos = e.cola_global_comandos ∧
      e1.lista_global_hilos_usuarios = e.lista_global_hilos_usuarios ∧
      e1.escrituras = e.escrituras ∧
      (∀ r, (e1.salas r).nombre_sala = (e.salas r).nombre_sala) ∧
      (∀ r ∈ e.lista_global_salas, (e1.salas r).lista_usuarios_activos =
        (e.salas r).lista_usuarios_activos.erase u) ∧
      (e1.usuarios u).lista_salas_suscritas = [] ∧
      (e1.usuarios u).nombre_usuario = (e.usuarios u).nombre_usuario ∧
      (e1.usuarios u).socket = (e.usuarios u).socket ∧
      ∀ m, m ≠ u → e1.usuarios m = e.usuarios m := by
  obtain ⟨h1, h2, h3, h4, h5, h6, h7⟩ :=
    desuscribir_usuario_bucle_marco u (e.usuarios u).lista_salas_suscritas e
  have hact := desuscribir_usuario_bucle_activos u
    (e.usuarios u).lista_salas_suscritas e
    (fun r hr => hnd r (hc.2 u r hr)) hn
  refine ⟨_, rfl, h3, h2, h4, h5, h6, h7, ?_, ?_, ?_, ?_, ?_⟩
  · intro r hr
    show ((desuscribir_usuario_bucle e u _).salas r).lista_usuarios_activos = _
    rw [hact r]
    by_cases hm : r ∈ (e.usuarios u).lista_salas_suscritas
    · simp [hm]
    · have : u ∉ (e.salas r).lista_usuarios_activos :=
        fun hc1 => hm ((hc.1 r hr u).2 hc1)
      simp [hm, List.erase_of_not_mem this]
  · simp [crear_lista]
  · simp [h1]
  · simp [h1]
  · intro m hm
    simp [Function.update_apply, hm, h1]

/-- A state that differs from a well-formed one by the removal of a session
from every member list, with that session's subscribed list emptied, is
well-formed. -/
theorem invariante_sin_usuario (e e1 : Estado) (hi : invariante e) (u : Nat)
    (hg : e1.lista_global_salas = e.lista_global_salas)
    (hn : e1.siguiente_sala = e.siguiente_sala)
    (hnom : ∀ r, (e1.salas r).nombre_sala = (e.salas r).nombre_sala)
    (hact : ∀ r ∈ e.lista_global_salas, (e1.salas r).lista_usuarios_activos =
        (e.salas r).lista_usuarios_activos.erase u)
    (hsub : (e1.usuarios u).lista_salas_suscritas = [])
    (hotros : ∀ m, m ≠ u → e1.usuarios m = e.usuarios m) :
    invariante e1 := by
  refine
    { salas := ⟨?_, ?_⟩
      membresia := ⟨?_, ?_⟩
      suscritas_sin_repetir := ?_
      activos_sin_repetir := ?_ }
  · rw [hg]
    simp only [hnom]
    exact hi.salas.1
  · rw [hg, hn]
    exact hi.salas.2
  · intro s hs1 m
    rw [hg] at hs1
    rw [hact s hs1, (hi.activos_sin_repetir s hs1).mem_erase_iff]
    by_cases h : m = u
    · subst h
      simp [hsub]
    · rw [hotros m h]
      simp [h, hi.membresia.1 s hs1 m]
  · intro m s hs1
    rw [hg]
    by_cases h : m = u
    · subst h
      simp [hsub] at hs1
    · rw [hotros m h] at hs1
      exact hi.membresia.2 m s hs1
  · intro m
    by_cases h : m = u
    · subst h
      simp [hsub]
    · rw [hotros m h]
      exact hi.suscritas_sin_repetir m
  · intro s hs1
    rw [hg] at hs1
    rw [hact s hs1]
    exact (hi.activos_sin_repetir s hs1).erase u

theorem invariante_desuscribir_usuario (e e1 : Estado) (u : Nat)
    (hi : invariante e) (hn : sin_homonimos e u)
    (h : desuscribir_usuario e (some u) = some e1) :
    invariante e1 := by
  obtain ⟨e2, h2, hg, hn1, -, -, -, hnom, hact, hsub, -, -, hotros⟩ :=
    desuscribir_usuario_efecto e hi.membresia hi.activos_sin_repetir u hn
  rw [h] at h2
  injection h2 with h2
  subst h2
  exact invariante_sin_usuario e e1 hi u hg hn1 hnom hact hsub hotros

/-- After `desuscribir_usuario`, `eliminar_usuario` only takes an entry out
of the session registry. -/
theorem eliminar_usuario_partes (e e1 : Estado) (u : Nat)
    (h1 : desuscribir_usuario e (some u) = some e1) :
    eliminar_usuario e (some u) =
      some { e1 with
        lista_global_hilos_usuarios :=
          (eliminar_elemento e1.lista_global_hilos_usuarios
            (e1.usuarios u).nombre_usuario (hilos_iguales e1) true).1 } := by
  simp [eliminar_usuario, h1]

theorem invariante_eliminar_usuario (e e2 : Estado) (u : Nat)
    (hi : invariante e) (hn : sin_homonimos e u)
    (h : eliminar_usuario e (some u) = some e2) :
    invariante e2 := by
  obtain ⟨e1, h1, -⟩ :=
    desuscribir_usuario_efecto e hi.membresia hi.activos_sin_repetir u hn
  have hi1 := invariante_desuscribir_usuario e e1 u hi hn h1
  rw [eliminar_usuario_partes e e1 u h1] at h
  injection h with h
  rw [← h]
  exact
    { salas := hi1.salas
      membresia := hi1.membresia
      suscritas_sin_repetir := hi1.suscritas_sin_repetir
      activos_sin_repetir := hi1.activos_sin_repetir }

/-! ## Sequences of registry operations -/

/-- Where the members of the listed rooms are sessions of `U`, which has
distinct usernames, a session of `U` has no namesake in its rooms. -/
theorem sin_homonimos_de (U : List Nat) (e : Estado) (hc : consistente e)
    (hU : nombres_distintos e U) (hm : miembros_en e U) (u : Nat) (hu : u ∈ U) :
    sin_homonimos e u :=
  fun r hr m hmr hnom => hU m (hm r (hc.2 u r hr) m hmr) u hu hnom

/-- The registry operations leave usernames alone. -/
theorem operacion_nombres (e e1 : Estado) (op : operacion)
    (h : op.aplicar e = some e1) :
    ∀ m, (e1.usuarios m).nombre_usuario = (e.usuarios m).nombre_usuario := by
  have hdes : ∀ (u : Nat) (e2 : Estado), desuscribir_usuario e (some u) = some e2 →
      ∀ m, (e2.usuarios m).nombre_usuario = (e.usuarios m).nombre_usuario := by
    intro u e2 h2 m
    obtain ⟨h1, -⟩ :=
      desuscribir_usuario_bucle_marco u (e.usuarios u).lista_salas_suscritas e
    simp only [desuscribir_usuario, Option.some.injEq] at h2
    rw [← h2]
    by_cases hm : m = u
    · subst hm
      simp [h1]
    · simp [Function.update_apply, hm, h1]
  cases op with
  | crear n u =>
    intro m
    simp only [operacion.aplicar, crear_sala] at h
    split at h
    · injection h with h
      rw [← h]
      rfl
    · injection h with h
      rw [← h]
  | eliminar n u =>
    intro m
    simp only [operacion.aplicar, eliminar_sala] at h
    split at h
    · rename_i R hR
      injection h with h
      rw [← h]
      exact ((eliminar_sala_bucle_marco n (e.salas R).lista_usuarios_activos e).2.2.2.2.2.2
        m).1
    · injection h with h
      rw [← h]
      rfl
  | suscribir n u =>
    intro m
    simp only [operacion.aplicar, suscribir_usuario] at h
    split at h
    · split at h
      · injection h with h
        rw [← h]
        by_cases hm : m = u
        · subst hm
          simp
        · simp [Function.update_apply, hm]
      · injection h with h
        rw [← h]
        rfl
    · injection h with h
      rw [← h]
      rfl
  | desuscribir u => exact hdes u e1 h
  | eliminar_usr u =>
    intro m
    cases h1 : desuscribir_usuario e (some u) with
    | none => simp [desuscribir_usuario] at h1
    | some e2 =>
      simp only [operacion.aplicar] at h
      rw [eliminar_usuario_partes e e2 u h1] at h
      injection h with h
      rw [← h]
      exact hdes u e2 h1 m

/-- Each registry operation of a session of `U` keeps a state well-formed
and its members in `U`, when the sessions of `U` have distinct usernames. -/
theorem operacion_invariante (U : List Nat) (e : Estado) (hi : invariante e)
    (hU : nombres_distintos e U) (hm : miembros_en e U) (op : operacion)
    (hop : op.usuario ∈ U) :
    ∃ e1, op.aplicar e = some e1 ∧ invariante e1 ∧ nombres_distintos e1 U ∧
      miembros_en e1 U := by
  have hnom : ∀ e1, op.aplicar e = some e1 → nombres_distintos e1 U := by
    intro e1 h u hu v hv huv
    rw [operacion_nombres e e1 op h u, operacion_nombres e e1 op h v] at huv
    exact hU u hu v hv huv
  have hwrite : ∀ (fd : Int) (buf : cadena) (k : Nat),
      miembros_en (write e fd buf k) U := fun _ _ _ => hm
  cases op with
  | crear n u =>
    cases hx : existe_elemento e.lista_global_salas n (salas_iguales e) with
    | true =>
      exact ⟨_, crear_sala_existe e n u hx, invariante_write _ _ _ _ hi,
        hnom _ (crear_sala_existe e n u hx), hwrite _ _ _⟩
    | false =>
      refine ⟨_, crear_sala_nueva e n (some u) hx, invariante_crear e n hi hx,
        hnom _ (crear_sala_nueva e n (some u) hx), ?_⟩
      intro s hs m hms
      rcases List.mem_cons.1 hs with h1 | h1
      · subst h1
        simp at hms
      · have hne : s ≠ e.siguiente_sala := Nat.ne_of_lt (hi.salas.2 s h1)
        simp only [Function.update_apply, hne, if_false] at hms
        exact hm s h1 m hms
  | eliminar n u =>
    cases hx : eliminar_sala e n (some u) with
    | none =>
      exfalso
      unfold eliminar_sala at hx
      split at hx <;> simp at hx
    | some e1 =>
      refine ⟨e1, hx, invariante_eliminar_sala e e1 n u hi hx, hnom e1 hx, ?_⟩
      cases hf : encontrar_elemento e.lista_global_salas n (salas_iguales e) with
      | none =>
        rw [encontrar_elemento_none_iff] at hf
        rw [eliminar_sala_ausente e n u hf] at hx
        injection hx with hx
        rw [← hx]
        exact hwrite _ _ _
      | some R =>
        obtain ⟨hR, hcmp⟩ := encontrar_elemento_some _ _ _ _ hf
        have hname : n = (e.salas R).nombre_sala := by
          simpa [salas_iguales] using hcmp
        obtain ⟨e2, h2, hg, hs, -⟩ :=
          eliminar_sala_existe e hi.salas.1 hi.membresia hi.suscritas_sin_repetir R hR
            (some u)
        rw [← hname, hx] at h2
        injection h2 with h2
        subst h2
        intro s hs1 m hms
        rw [hg] at hs1
        rw [hs] at hms
        exact hm s (List.mem_of_mem_erase hs1) m hms
  | suscribir n u =>
    cases hx : suscribir_usuario e n (some u) with
    | none =>
      exfalso
      simp only [suscribir_usuario] at hx
      split at hx
      · split at hx <;> simp at hx
      · simp at hx
    | some e1 =>
      refine ⟨e1, hx, invariante_suscribir_usuario e e1 n u hi hx, hnom e1 hx, ?_⟩
      cases hf : encontrar_elemento e.lista_global_salas n (salas_iguales e) with
      | none =>
        rw [encontrar_elemento_none_iff] at hf
        rw [suscribir_usuario_ausente e n u hf] at hx
        injection hx with hx
        rw [← hx]
        exact hwrite _ _ _
      | some R =>
        cases hy : existe_elemento (e.usuarios u).lista_salas_suscritas
            (e.salas R).nombre_sala (salas_iguales e) with
        | true =>
          rw [suscribir_usuario_ya e n u R hf hy] at hx
          injection hx with hx
          rw [← hx]
          exact hwrite _ _ _
        | false =>
          rw [suscribir_usuario_nuevo e n u R hf hy] at hx
          injection hx with hx
          rw [← hx]
          intro s hs1 m hms
          by_cases h1 : s = R
          · subst h1
            simp only [Function.update_same, List.mem_cons] at hms
            rcases hms with h2 | h2
            · rw [h2]
              exact hop
            · exact hm s hs1 m h2
          · simp only [Function.update_apply, h1, if_false] at hms
            exact hm s hs1 m hms
  | desuscribir u =>
    have hn := sin_homonimos_de U e hi.membresia hU hm u hop
    obtain ⟨e1, h1, hg, -, -, -, -, -, hact, -⟩ :=
      desuscribir_usuario_efecto e hi.membresia hi.activos_sin_repetir u hn
    refine ⟨e1, h1, invariante_desuscribir_usuario e e1 u hi hn h1, hnom e1 h1, ?_⟩
    intro s hs1 m hms
    rw [hg] at hs1
    rw [hact s hs1] at hms
    exact hm s hs1 m (List.mem_of_mem_erase hms)
  | eliminar_usr u =>
    have hn := sin_homonimos_de U e hi.membresia hU hm u hop
    obtain ⟨e1, h1, hg, -, -, -, -, -, hact, -⟩ :=
      desuscribir_usuario_efecto e hi.membresia hi.activos_sin_repetir u hn
    have h2 := eliminar_usuario_partes e e1 u h1
    refine ⟨_, h2, invariante_eliminar_usuario e _ u hi hn h2, hnom _ h2, ?_⟩
    intro s hs1 m hms
    have hs2 : s ∈ e.lista_global_salas := by
      rw [← hg]
      exact hs1
    have hms1 : m ∈ (e1.salas s).lista_usuarios_activos := hms
    rw [hact s hs2] at hms1
    exact hm s hs2 m (List.mem_of_mem_erase hms1)

theorem aplicar_operaciones_invariante (U : List Nat) (ops : List operacion)
    (e : Estado) (hi : invariante e) (hU : nombres_distintos e U)
    (hm : miembros_en e U) (hops : ∀ op ∈ ops, op.usuario ∈ U) :
    ∃ e1, aplicar_operaciones e ops = some e1 ∧ invariante e1 := by
  induction ops generalizing e with
  | nil => exact ⟨e, rfl, hi⟩
  | cons op resto ih =>
    obtain ⟨e1, h1, hi1, hU1, hm1⟩ :=
      operacion_invariante U e hi hU hm op (hops op (List.mem_cons_self _ _))
    obtain ⟨e2, h2, hi2⟩ := ih e1 hi1 hU1 hm1
      (fun o ho => hops o (List.mem_cons_of_mem _ ho))
    exact ⟨e2, by simp [aplicar_operaciones, h1, h2], hi2⟩

theorem invariante_sin_salas (e0 : Estado)
    (h_salas : e0.lista_global_salas = [])
    (h_sus : ∀ u, (e0.usuarios u).lista_salas_suscritas = []) :
    invariante e0 :=
  { salas := by simp [salas_unicas, h_salas]
    membresia := by simp [consistente, h_salas, h_sus]
    suscritas_sin_repetir := by simp [h_sus]
    activos_sin_repetir := by simp [h_salas] }

theorem nombre_ejemplo_inyectivo (u v : Nat)
    (h : (estado_vacio.usuarios u).nombre_usuario =
      (estado_vacio.usuarios v).nombre_usuario) : u = v := by
  have := congrArg List.length h
  simpa [estado_vacio, nombre_ejemplo] using this

/-! ## C1 -/

/-- C1, as the code has it: from a state with no room in which no session
holds a subscription, every sequence of the registry operations `crear_sala`,
`eliminar_sala`, `suscribir_usuario`, `desuscribir_usuario` and
`eliminar_usuario`, issued by sessions whose usernames are pairwise distinct,
runs to a state in which a listed room is in a session's
`lista_salas_suscritas` exactly when the session is in the room's
`lista_usuarios_activos`, and in which subscribed lists hold listed rooms
only.  The operations find a member by username, so that the usernames of
the sessions that take part have to tell them apart. -/
theorem C1_membresia_consistente (e0 : Estado)
    (h_salas : e0.lista_global_salas = [])
    (h_sus : ∀ u, (e0.usuarios u).lista_salas_suscritas = [])
    (ops : List operacion)
    (h_nom : ∀ a ∈ ops, ∀ b ∈ ops,
      (e0.usuarios a.usuario).nombre_usuario =
        (e0.usuarios b.usuario).nombre_usuario → a.usuario = b.usuario) :
    ∃ e, aplicar_operaciones e0 ops = some e ∧
      (∀ s ∈ e.lista_global_salas, ∀ u,
        s ∈ (e.usuarios u).lista_salas_suscritas ↔
          u ∈ (e.salas s).lista_usuarios_activos) ∧
      ∀ u, ∀ s ∈ (e.usuarios u).lista_salas_suscritas,
        s ∈ e.lista_global_salas := by
  obtain ⟨e, h, hi⟩ := aplicar_operaciones_invariante (ops.map operacion.usuario)
    ops e0 (invariante_sin_salas e0 h_salas h_sus)
    (by
      intro u hu v hv huv
      obtain ⟨a, ha, rfl⟩ := List.mem_map.1 hu
      obtain ⟨b, hb, rfl⟩ := List.mem_map.1 hv
      exact h_nom a ha b hb huv)
    (by
      intro s hs
      rw [h_salas] at hs
      exact absurd hs (List.not_mem_nil _))
    (fun op hop => List.mem_map_of_mem _ hop)
  exact ⟨e, h, hi.membresia.1, hi.membresia.2⟩

/-- C1 at work, from the start state of the examples, whose sessions have
distinct usernames: two rooms, sessions 1, 2 and 3 subscribing, one
unsubscribing, one room deleted and one session removed.  At the end session
3 is the one member of "juegos", and "juegos" its one room. -/
theorem C1_membresia_consistente_testigo :
    estado_vacio.lista_global_salas = [] ∧
    (∀ u, (estado_vacio.usuarios u).lista_salas_suscritas = []) ∧
    (∀ a ∈ [operacion.crear "lobby".toList 1, operacion.crear "juegos".toList 2,
        operacion.suscribir "lobby".toList 1, operacion.suscribir "lobby".toList 2,
        operacion.suscribir "juegos".toList 2, operacion.suscribir "juegos".toList 3,
        operacion.desuscribir 1, operacion.eliminar "lobby".toList 2,
        operacion.eliminar_usr 2],
      ∀ b ∈ [operacion.crear "lobby".toList 1, operacion.crear "juegos".toList 2,
        operacion.suscribir "lobby".toList 1, operacion.suscribir "lobby".toList 2,
        operacion.suscribir "juegos".toList 2, operacion.suscribir "juegos".toList 3,
        operacion.desuscribir 1, operacion.eliminar "lobby".toList 2,
        operacion.eliminar_usr 2],
      (estado_vacio.usuarios a.usuario).nombre_usuario =
        (estado_vacio.usuarios b.usuario).nombre_usuario → a.usuario = b.usuario) ∧
    ∃ e, aplicar_operaciones estado_vacio
        [operacion.crear "lobby".toList 1, operacion.crear "juegos".toList 2,
          operacion.suscribir "lobby".toList 1, operacion.suscribir "lobby".toList 2,
          operacion.suscribir "juegos".toList 2, operacion.suscribir "juegos".toList 3,
          operacion.desuscribir 1, operacion.eliminar "lobby".toList 2,
          operacion.eliminar_usr 2] = some e ∧
      e.lista_global_salas = [1] ∧
      (e.salas 1).lista_usuarios_activos = [3] ∧
      (e.usuarios 3).lista_salas_suscritas = [1] ∧
      (∀ s ∈ e.lista_global_salas, ∀ u,
        s ∈ (e.usuarios u).lista_salas_suscritas ↔
          u ∈ (e.salas s).lista_usuarios_activos) ∧
      ∀ u, ∀ s ∈ (e.usuarios u).lista_salas_suscritas,
        s ∈ e.lista_global_salas := by
  have hnom : ∀ a ∈ [operacion.crear "lobby".toList 1, operacion.crear "juegos".toList 2,
        operacion.suscribir "lobby".toList 1, operacion.suscribir "lobby".toList 2,
        operacion.suscribir "juegos".toList 2, operacion.suscribir "juegos".toList 3,
        operacion.desuscribir 1, operacion.eliminar "lobby".toList 2,
        operacion.eliminar_usr 2],
      ∀ b ∈ [operacion.crear "lobby".toList 1, operacion.crear "juegos".toList 2,
        operacion.suscribir "lobby".toList 1, operacion.suscribir "lobby".toList 2,
        operacion.suscribir "juegos".toList 2, operacion.suscribir "juegos".toList 3,
        operacion.desuscribir 1, operacion.eliminar "lobby".toList 2,
        operacion.eliminar_usr 2],
      (estado_vacio.usuarios a.usuario).nombre_usuario =
        (estado_vacio.usuarios b.usuario).nombre_usuario → a.usuario = b.usuario :=
    fun a _ b _ h => nombre_ejemplo_inyectivo _ _ h
  have hx : ∃ e, aplicar_operaciones estado_vacio
        [operacion.crear "lobby".toList 1, operacion.crear "juegos".toList 2,
          operacion.suscribir "lobby".toList 1, operacion.suscribir "lobby".toList 2,
          operacion.suscribir "juegos".toList 2, operacion.suscribir "juegos".toList 3,
          operacion.desuscribir 1, operacion.eliminar "lobby".toList 2,
          operacion.eliminar_usr 2] = some e ∧
      e.lista_global_salas = [1] ∧
      (e.salas 1).lista_usuarios_activos = [3] ∧
      (e.usuarios 3).lista_salas_suscritas = [1] := ⟨_, rfl, rfl, rfl, rfl⟩
  obtain ⟨e, h1, h2, h3, h4⟩ := hx
  obtain ⟨e2, k1, k2, k3⟩ :=
    C1_membresia_consistente estado_vacio rfl (fun _ => rfl) _ hnom
  rw [h1] at k1
  injection k1 with k1
  subst k1
  exact ⟨rfl, fun _ => rfl, hnom, e, h1, h2, h3, h4, k2, k3⟩

/-- C1 fails when two sessions carry one username, which the server allows
one after the other: "alice" connects as session 1, quits, and "alice"
connects again as session 2.  In the state so reached there is no room and
no session holds a subscription.  Then session 2 creates "sala" and
subscribes, session 1 subscribes, and session 2 unsubscribes from all:
`desuscribir_usuario` finds the member to remove by username and removes
session 1.  At the end session 2 is in the member list of the listed room 0,
and room 0 is not in the subscribed list of session 2. -/
theorem C1_contraejemplo :
    ∃ e0 e, ejecutar_eventos "actual".toList (main_inicio "actual".toList estado_vacio)
        [evento.conectar 1 5 ⟨[], 0, []⟩ [] ["alice".toList], evento.salir 1,
          evento.conectar 2 6 ⟨[], 0, []⟩ [] ["alice".toList]] = some e0 ∧
      e0.lista_global_salas = [] ∧
      (∀ u, (e0.usuarios u).lista_salas_suscritas = []) ∧
      (e0.usuarios 1).nombre_usuario = (e0.usuarios 2).nombre_usuario ∧
      aplicar_operaciones e0
        [operacion.crear "sala".toList 2, operacion.suscribir "sala".toList 2,
          operacion.suscribir "sala".toList 1, operacion.desuscribir 2] = some e ∧
      e.lista_global_salas = [0] ∧
      (e.salas 0).lista_usuarios_activos = [2] ∧
      (e.usuarios 2).lista_salas_suscritas = [] ∧
      (e.usuarios 1).lista_salas_suscritas = [0] ∧
      ¬ (0 ∈ (e.usuarios 2).lista_salas_suscritas ↔
        2 ∈ (e.salas 0).lista_usuarios_activos) := by
  refine ⟨_, _, rfl, rfl, ?_, rfl, rfl, rfl, rfl, rfl, rfl, by decide⟩
  intro u
  by_cases h1 : u = 1
  · subst h1
    rfl
  · by_cases h2 : u = 2
    · subst h2
      rfl
    · simp +decide [Function.update_apply, h1, h2, estado_vacio, main_inicio,
        rutina_hilo_cliente_preparar, main_aceptar, write, desuscribir_usuario_bucle,
        crear_lista, agregar_final, agregar_principio]

/-! ## The dispatcher keeps room names distinct -/

theorem solo_escribe_refl (e : Estado) : solo_escribe e e :=
  ⟨rfl, rfl, rfl, rfl, rfl, rfl⟩

theorem solo_escribe_write (e e1 : Estado) (fd : Int) (buf : cadena) (n : Nat)
    (h : solo_escribe e e1) : solo_escribe e (write e1 fd buf n) := h

theorem imprimir_lista_salas_bucle_marco (fd : Int) (l : List Nat) (e e1 : Estado)
    (h : solo_escribe e e1) :
    solo_escribe e (imprimir_lista_salas_bucle e1 fd l) := by
  induction l generalizing e1 with
  | nil => exact h
  | cons x xs ih =>
    rw [imprimir_lista_salas_bucle]
    exact ih _ h

theorem imprimir_lista_salas_marco (e e1 : Estado) (l : List Nat)
    (user : Option Nat) (sistema : Bool)
    (h : imprimir_lista_salas e l user sistema = some e1) : solo_escribe e e1 := by
  cases user with
  | none => simp [imprimir_lista_salas] at h
  | some u =>
    simp only [imprimir_lista_salas] at h
    injection h with h
    rw [← h]
    apply solo_escribe_write
    apply imprimir_lista_salas_bucle_marco
    split
    · exact solo_escribe_refl e
    · exact solo_escribe_refl e

theorem salas_unicas_de (e e1 : Estado) (hs : salas_unicas e)
    (hg : e1.lista_global_salas = e.lista_global_salas)
    (hn : e1.siguiente_sala = e.siguiente_sala)
    (hnom : ∀ r, (e1.salas r).nombre_sala = (e.salas r).nombre_sala) :
    salas_unicas e1 := by
  unfold salas_unicas
  rw [hg, hn]
  simp only [hnom]
  exact hs

theorem salas_unicas_solo_escribe (e e1 : Estado) (hs : salas_unicas e)
    (h : solo_escribe e e1) : salas_unicas e1 :=
  salas_unicas_de e e1 hs h.2.2.2.1 h.2.2.1 (fun r => by rw [h.2.1])

theorem salas_unicas_crear_sala (e e1 : Estado) (n : cadena) (user : Option Nat)
    (hs : salas_unicas e) (h : crear_sala e n user = some e1) : salas_unicas e1 := by
  cases hx : existe_elemento e.lista_global_salas n (salas_iguales e) with
  | true =>
    cases user with
    | none => simp [crear_sala, hx] at h
    | some u =>
      rw [crear_sala_existe e n u hx] at h
      injection h with h
      rw [← h]
      exact hs
  | false =>
    rw [crear_sala_nueva e n user hx] at h
    injection h with h
    rw [← h]
    exact salas_unicas_crear e n hs hx

/-- Whatever the state, a successful `eliminar_sala` leaves the room heap
alone and takes the first room of that name, if any, out of the global
list. -/
theorem eliminar_sala_lista (e e1 : Estado) (n : cadena) (user : Option Nat)
    (h : eliminar_sala e n user = some e1) :
    e1.salas = e.salas ∧ e1.siguiente_sala = e.siguiente_sala ∧
      e1.lista_global_salas = e.lista_global_salas.eraseP (salas_iguales e n) := by
  cases hf : encontrar_elemento e.lista_global_salas n (salas_iguales e) with
  | none =>
    cases user with
    | none => simp [eliminar_sala, hf] at h
    | some u =>
      rw [encontrar_elemento_none_iff] at hf
      rw [eliminar_sala_ausente e n u hf] at h
      injection h with h
      rw [← h]
      refine ⟨rfl, rfl, ?_⟩
      rw [existe_elemento_false_iff] at hf
      rw [List.eraseP_of_forall_not]
      · rfl
      · intro x hx
        simp [hf x hx]
  | some R =>
    simp only [eliminar_sala, hf] at h
    injection h with h
    rw [← h]
    obtain ⟨h1, h2, h3, -⟩ :=
      eliminar_sala_bucle_marco n (e.salas R).lista_usuarios_activos e
    refine ⟨h1, h2, ?_⟩
    show (eliminar_elemento _ _ _ true).1 = _
    rw [eliminar_elemento_fst, h3, salas_iguales_congr _ e (fun r => by rw [h1])]

theorem salas_unicas_eliminar_sala (e e1 : Estado) (n : cadena)
    (user : Option Nat) (hs : salas_unicas e)
    (h : eliminar_sala e n user = some e1) : salas_unicas e1 := by
  obtain ⟨h1, h2, h3⟩ := eliminar_sala_lista e e1 n user h
  unfold salas_unicas
  rw [h1, h2, h3]
  exact ⟨hs.1.sublist ((List.eraseP_sublist _).map _),
    fun s hs1 => hs.2 s (List.mem_of_mem_eraseP hs1)⟩

theorem salas_unicas_suscribir_usuario (e e1 : Estado) (n : cadena)
    (user : Option Nat) (hs : salas_unicas e)
    (h : suscribir_usuario e n user = some e1) : salas_unicas e1 := by
  cases user with
  | none => simp [suscribir_usuario] at h
  | some u =>
    cases hf : encontrar_elemento e.lista_global_salas n (salas_iguales e) with
    | none =>
      rw [encontrar_elemento_none_iff] at hf
      rw [suscribir_usuario_ausente e n u hf] at h
      injection h with h
      rw [← h]
      exact hs
    | some R =>
      cases hx : existe_elemento (e.usuarios u).lista_salas_suscritas
          (e.salas R).nombre_sala (salas_iguales e) with
      | true =>
        rw [suscribir_usuario_ya e n u R hf hx] at h
        injection h with h
        rw [← h]
        exact hs
      | false =>
        rw [suscribir_usuario_nuevo e n u R hf hx] at h
        injection h with h
        rw [← h]
        refine salas_unicas_de e _ hs rfl rfl (fun r => ?_)
        by_cases hr : r = R
        · subst hr; simp
        · simp [Function.update_apply, hr]

theorem salas_unicas_desuscribir_usuario (e e1 : Estado) (user : Option Nat)
    (hs : salas_unicas e) (h : desuscribir_usuario e user = some e1) :
    salas_unicas e1 := by
  cases user with
  | none => simp [desuscribir_usuario] at h
  | some u =>
    simp only [desuscribir_usuario] at h
    injection h with h
    rw [← h]
    obtain ⟨-, h2, h3, -, -, -, h7⟩ :=
      desuscribir_usuario_bucle_marco u (e.usuarios u).lista_salas_suscritas e
    exact salas_unicas_de e _ hs h3 h2 h7

theorem salas_unicas_despachar (e e1 : Estado) (com : comando)
    (hs : salas_unicas e) (h : rutina_hilo_manager_despachar e com = some e1) :
    salas_unicas e1 := by
  unfold rutina_hilo_manager_despachar at h
  simp only at h
  split at h
  · split at h
    · exact salas_unicas_crear_sala e e1 _ _ hs h
    · injection h with h; rw [← h]; exact hs
  · split at h
    · split at h
      · exact salas_unicas_eliminar_sala e e1 _ _ hs h
      · injection h with h; rw [← h]; exact hs
    · split at h
      · exact salas_unicas_suscribir_usuario e e1 _ _ hs h
      · split at h
        · exact salas_unicas_solo_escribe e e1 hs
            (imprimir_lista_salas_marco e e1 _ _ _ h)
        · split at h
          · exact salas_unicas_desuscribir_usuario e e1 _ hs h
          · split at h
            · split at h
              · simp at h
              · exact salas_unicas_solo_escribe e e1 hs
                  (imprimir_lista_salas_marco e e1 _ _ _ h)
            · injection h with h; rw [← h]; exact hs

theorem salas_unicas_despachar_todos (coms : List comando) (e e1 : Estado)
    (hs : salas_unicas e) (h : despachar_todos e coms = some e1) :
    salas_unicas e1 := by
  induction coms generalizing e with
  | nil =>
    simp only [despachar_todos] at h
    injection h with h
    rw [← h]
    exact hs
  | cons com resto ih =>
    simp only [despachar_todos] at h
    cases hd : rutina_hilo_manager_despachar e com with
    | none => simp [hd] at h
    | some e2 =>
      rw [hd] at h
      exact ih e2 (salas_unicas_despachar e e2 com hs hd) h

/-! ## C2 -/

/-- C2: in every state that the dispatcher reaches from a state with an
empty global room list, whatever the commands it applies (any text, any
sender, the sender-less start-up command included), no two rooms of
`lista_global_salas` have the same name. -/
theorem C2_nombres_de_sala_unicos (e0 : Estado)
    (h_salas : e0.lista_global_salas = []) (coms : List comando) (e : Estado)
    (h : despachar_todos e0 coms = some e) :
    (e.lista_global_salas.map (fun s => (e.salas s).nombre_sala)).Nodup :=
  (salas_unicas_despachar_todos coms e0 e
    (by simp [salas_unicas, h_salas]) h).1

/-- C2 at work: the start-up command, a second room, a duplicate create and
a delete leave the rooms 1 "juegos" alone in the list. -/
theorem C2_nombres_de_sala_unicos_testigo :
    estado_vacio.lista_global_salas = [] ∧
    ∃ e, despachar_todos estado_vacio
        [⟨"cre lobby".toList, none⟩, ⟨"cre juegos".toList, some 2⟩,
          ⟨"sus lobby".toList, some 1⟩, ⟨"cre lobby".toList, some 1⟩,
          ⟨"eli lobby".toList, some 2⟩] = some e ∧
      e.lista_global_salas = [1] ∧
      (e.lista_global_salas.map (fun s => (e.salas s).nombre_sala)).Nodup :=
  ⟨rfl, _, rfl, rfl,
    C2_nombres_de_sala_unicos estado_vacio rfl
      [⟨"cre lobby".toList, none⟩, ⟨"cre juegos".toList, some 2⟩,
        ⟨"sus lobby".toList, some 1⟩, ⟨"cre lobby".toList, some 1⟩,
        ⟨"eli lobby".toList, some 2⟩] _ rfl⟩

/-! ## The example state is well-formed -/

theorem invariante_estado_ejemplo : invariante estado_ejemplo :=
  { salas := by
      constructor
      · decide
      · intro s hs
        simp only [estado_ejemplo, List.mem_cons, List.mem_singleton,
          List.mem_nil_iff, or_false] at hs
        rcases hs with h | h <;> simp [estado_ejemplo, h]
    membresia := by
      constructor
      · intro s hs u
        simp only [estado_ejemplo, List.mem_cons, List.mem_singleton,
          List.mem_nil_iff, or_false] at hs
        rcases hs with h | h <;> subst h <;>
          by_cases h1 : u = 1 <;> by_cases h2 : u = 2 <;>
          simp [estado_ejemplo, h1, h2]
      · intro u s hs
        by_cases h1 : u = 1 <;> by_cases h2 : u = 2 <;>
          simp [estado_ejemplo, h1, h2] at hs ⊢ <;> omega
    suscritas_sin_repetir := by
      intro u
      by_cases h1 : u = 1 <;> by_cases h2 : u = 2 <;>
        simp [estado_ejemplo, h1, h2]
    activos_sin_repetir := by
      intro s hs
      simp only [estado_ejemplo, List.mem_cons, List.mem_singleton,
        List.mem_nil_iff, or_false] at hs
      rcases hs with h | h <;> subst h <;> simp [estado_ejemplo] }

/-! ## C3 -/

/-- C3, as the code has it: in a state with consistent membership in which
room names are pairwise distinct and no subscribed list holds a room twice,
`eliminar_sala` on the name of a listed room `R` returns a state in which `R`
is out of `lista_global_salas` and out of the subscribed list of each former
member, indeed of every session; the other rooms stay listed in their order,
every member list and every other subscription is as before, and nothing is
written. -/
theorem C3_eliminar_sala (e : Estado) (hc : consistente e)
    (hs : (e.lista_global_salas.map (fun s => (e.salas s).nombre_sala)).Nodup)
    (hsr : ∀ u, (e.usuarios u).lista_salas_suscritas.Nodup) (R : Nat)
    (hR : R ∈ e.lista_global_salas) (user : Option Nat) :
    ∃ e1, eliminar_sala e (e.salas R).nombre_sala user = some e1 ∧
      R ∉ e1.lista_global_salas ∧
      (∀ u ∈ (e.salas R).lista_usuarios_activos,
        R ∉ (e1.usuarios u).lista_salas_suscritas) ∧
      (∀ u, R ∉ (e1.usuarios u).lista_salas_suscritas) ∧
      e1.lista_global_salas = e.lista_global_salas.erase R ∧
      (∀ s, s ≠ R → (s ∈ e1.lista_global_salas ↔ s ∈ e.lista_global_salas)) ∧
      e1.salas = e.salas ∧
      (∀ u, (e1.usuarios u).lista_salas_suscritas =
        (e.usuarios u).lista_salas_suscritas.erase R) ∧
      (∀ u s, s ≠ R → (s ∈ (e1.usuarios u).lista_salas_suscritas ↔
        s ∈ (e.usuarios u).lista_salas_suscritas)) ∧
      (∀ u, (e1.usuarios u).nombre_usuario = (e.usuarios u).nombre_usuario ∧
        (e1.usuarios u).socket = (e.usuarios u).socket) ∧
      e1.lista_global_hilos_usuarios = e.lista_global_hilos_usuarios ∧
      e1.cola_global_comandos = e.cola_global_comandos ∧
      e1.escrituras = e.escrituras := by
  obtain ⟨e1, h, hg, hs1, -, hq, hh, hw, hu⟩ :=
    eliminar_sala_existe e hs hc hsr R hR user
  have hnd : e.lista_global_salas.Nodup := List.Nodup.of_map _ hs
  have hsub : ∀ u, R ∉ (e1.usuarios u).lista_salas_suscritas := by
    intro u
    rw [(hu u).2.2]
    exact fun hc1 => (List.Nodup.mem_erase_iff (hsr u)).1 hc1 |>.1 rfl
  refine ⟨e1, h, ?_, fun u _ => hsub u, hsub, hg, ?_, hs1, fun u => (hu u).2.2, ?_,
    fun u => ⟨(hu u).1, (hu u).2.1⟩, hh, hq, hw⟩
  · rw [hg]
    exact fun hc1 => (List.Nodup.mem_erase_iff hnd).1 hc1 |>.1 rfl
  · intro s hs2
    rw [hg, List.Nodup.mem_erase_iff hnd]
    simp [hs2]
  · intro u s hs2
    rw [(hu u).2.2, List.Nodup.mem_erase_iff (hsr u)]
    simp [hs2]

/-- C3 at work: deleting "lobby" (room 0, members 2 and 1) from the example
state. -/
theorem C3_eliminar_sala_testigo :
    consistente estado_ejemplo ∧
    (estado_ejemplo.lista_global_salas.map
      (fun s => (estado_ejemplo.salas s).nombre_sala)).Nodup ∧
    (∀ u, (estado_ejemplo.usuarios u).lista_salas_suscritas.Nodup) ∧
    0 ∈ estado_ejemplo.lista_global_salas ∧
    ∃ e1, eliminar_sala estado_ejemplo "lobby".toList (some 1) = some e1 ∧
      0 ∉ e1.lista_global_salas ∧
      (∀ u ∈ [2, 1], 0 ∉ (e1.usuarios u).lista_salas_suscritas) ∧
      e1.lista_global_salas = [1] ∧
      (e1.usuarios 2).lista_salas_suscritas = [1] ∧
      e1.escrituras = [] := by
  obtain ⟨e1, h, h1, h2, -, h4, -, -, h7, -, -, -, -, h12⟩ :=
    C3_eliminar_sala estado_ejemplo invariante_estado_ejemplo.membresia
      invariante_estado_ejemplo.salas.1
      invariante_estado_ejemplo.suscritas_sin_repetir 0 (by decide) (some 1)
  exact ⟨invariante_estado_ejemplo.membresia, invariante_estado_ejemplo.salas.1,
    invariante_estado_ejemplo.suscritas_sin_repetir, by decide, e1, h, h1, h2, h4,
    by rw [h7]; rfl, h12⟩

theorem consistente_estado_repetida : consistente estado_repetida := by
  constructor
  · intro s hs u
    simp only [estado_repetida, List.mem_singleton] at hs
    subst hs
    by_cases h1 : u = 1 <;> simp [estado_repetida, h1]
  · intro u s hs
    by_cases h1 : u = 1 <;> simp [estado_repetida, h1] at hs ⊢
    exact hs

/-- C3 fails in a state whose membership is mutually consistent when a
subscribed list holds the room twice: room 0 "lobby" has the one member 1,
whose subscribed list holds room 0 two times; `eliminar_sala` takes the room
off the global list and takes the first of the two entries only, so that the
subscribed list of session 1 still refers to the deleted room. -/
theorem C3_contraejemplo :
    consistente estado_repetida ∧ 0 ∈ estado_repetida.lista_global_salas ∧
    (estado_repetida.salas 0).nombre_sala = "lobby".toList ∧
    (estado_repetida.salas 0).lista_usuarios_activos = [1] ∧
    ∃ e1, eliminar_sala estado_repetida "lobby".toList (some 1) = some e1 ∧
      e1.lista_global_salas = [] ∧
      (e1.usuarios 1).lista_salas_suscritas = [0] ∧
      0 ∈ (e1.usuarios 1).lista_salas_suscritas :=
  ⟨consistente_estado_repetida, by decide, rfl, rfl, _, rfl, rfl, rfl, by decide⟩

/-! ## Create and delete commands in the dispatcher -/

theorem despachar_cre (e : Estado) (n : cadena) (sender : Option Nat) :
    rutina_hilo_manager_despachar e ⟨"cre ".toList ++ n, sender⟩ =
      if n ≠ [] then crear_sala e n sender else some e := by
  have h1 : ("cre ".toList ++ n).take 3 = "cre".toList := rfl
  have h2 : ("cre ".toList ++ n).drop 4 = n := rfl
  simp only [rutina_hilo_manager_despachar, h1, h2, if_true]

theorem despachar_eli (e : Estado) (n : cadena) (sender : Option Nat) :
    rutina_hilo_manager_despachar e ⟨"eli ".toList ++ n, sender⟩ =
      if existe_elemento e.lista_global_salas n (salas_iguales e) = true then
        eliminar_sala e n sender
      else some e := by
  have h1 : ("eli ".toList ++ n).take 3 = "eli".toList := rfl
  have h2 : ("eli ".toList ++ n).drop 4 = n := rfl
  have h3 : ¬ ("eli".toList = "cre".toList) := by decide
  simp only [rutina_hilo_manager_despachar, h1, h2, h3, if_true, if_false]

theorem sin_nombre_tras_eraseP (n : cadena) (f : Nat → cadena) (l : List Nat)
    (h : (l.map f).Nodup) :
    ∀ x ∈ l.eraseP (fun x => decide (n = f x)), n ≠ f x := by
  induction l with
  | nil => simp
  | cons y ys ih =>
    rw [List.map_cons, List.nodup_cons] at h
    by_cases hy : n = f y
    · intro x hx
      simp only [List.eraseP_cons, hy, decide_True, if_true] at hx
      intro hc
      exact h.1 (List.mem_map.mpr ⟨x, hx, by rw [← hc, hy]⟩)
    · intro x hx
      simp only [List.eraseP_cons, hy, decide_False] at hx
      rcases List.mem_cons.mp hx with h1 | h1
      · rw [h1]; exact hy
      · exact ih h.2 x h1

theorem despues_de_cre (e : Estado) (hs : salas_unicas e) (n : cadena)
    (hn : n ≠ []) (u : Nat) :
    ∃ e1, rutina_hilo_manager_despachar e ⟨"cre ".toList ++ n, some u⟩ = some e1 ∧
      salas_unicas e1 ∧
      existe_elemento e1.lista_global_salas n (salas_iguales e1) = true := by
  rw [despachar_cre, if_pos hn]
  cases hx : existe_elemento e.lista_global_salas n (salas_iguales e) with
  | true => exact ⟨_, crear_sala_existe e n u hx, hs, hx⟩
  | false =>
    refine ⟨_, crear_sala_nueva e n (some u) hx, salas_unicas_crear e n hs hx, ?_⟩
    simp [existe_elemento, salas_iguales]

theorem despues_de_eli (e : Estado) (hs : salas_unicas e) (n : cadena)
    (sender : Option Nat) :
    ∃ e1, rutina_hilo_manager_despachar e ⟨"eli ".toList ++ n, sender⟩ = some e1 ∧
      salas_unicas e1 ∧
      existe_elemento e1.lista_global_salas n (salas_iguales e1) = false := by
  rw [despachar_eli]
  cases hx : existe_elemento e.lista_global_salas n (salas_iguales e) with
  | false => exact ⟨e, by simp, hs, hx⟩
  | true =>
    have hsome : ∃ e1, eliminar_sala e n sender = some e1 := by
      cases hf : encontrar_elemento e.lista_global_salas n (salas_iguales e) with
      | none =>
        rw [encontrar_elemento_none_iff, hx] at hf
        exact Bool.noConfusion hf
      | some R => simp [eliminar_sala, hf]
    obtain ⟨e1, h1⟩ := hsome
    refine ⟨e1, by simp [h1], salas_unicas_eliminar_sala e e1 n sender hs h1, ?_⟩
    obtain ⟨h2, -, h4⟩ := eliminar_sala_lista e e1 n sender h1
    rw [existe_elemento_false_iff, h4]
    intro x hx1
    have := sin_nombre_tras_eraseP n (fun s => (e.salas s).nombre_sala)
      e.lista_global_salas hs.1 x hx1
    simp [salas_iguales, h2, this]

/-! ## C4 -/

/-- C4, as the code has it: for every room name that is not empty, from a
state with distinct room names, every non-empty sequence of `cre <name>` and
`eli <name>` commands sent by sessions is applied by the dispatcher, and the
room exists afterwards exactly when the last command is a create. -/
theorem C4_crear_eliminar (n : cadena) (hn : n ≠ []) (coms : List comando)
    (hne : coms ≠ [])
    (hc : ∀ c ∈ coms, (∃ u, c.sender = some u) ∧
      (c.texto = "cre ".toList ++ n ∨ c.texto = "eli ".toList ++ n))
    (e : Estado) (hs : salas_unicas e) :
    ∃ e1, despachar_todos e coms = some e1 ∧
      (existe_elemento e1.lista_global_salas n (salas_iguales e1) = true ↔
        ∃ c, coms.getLast? = some c ∧ c.texto = "cre ".toList ++ n) := by
  induction coms generalizing e with
  | nil => exact absurd rfl hne
  | cons c resto ih =>
    obtain ⟨⟨u, hu⟩, htx⟩ := hc c (List.mem_cons_self _ _)
    have hdist : ¬ ("eli ".toList ++ n = "cre ".toList ++ n) := by
      intro h
      have h1 := congrArg (List.take 3) h
      have h2 : ("eli ".toList ++ n).take 3 = "eli".toList := rfl
      have h3 : ("cre ".toList ++ n).take 3 = "cre".toList := rfl
      rw [h2, h3] at h1
      exact absurd h1 (by decide)
    have hpaso : ∃ e1, rutina_hilo_manager_despachar e c = some e1 ∧
        salas_unicas e1 ∧
        (existe_elemento e1.lista_global_salas n (salas_iguales e1) = true ↔
          c.texto = "cre ".toList ++ n) := by
      have hcm : c = ⟨c.texto, c.sender⟩ := rfl
      rcases htx with h | h
      · obtain ⟨e1, h1, h2, h3⟩ := despues_de_cre e hs n hn u
        rw [hcm, h, hu]
        exact ⟨e1, h1, h2, by simp [h3]⟩
      · obtain ⟨e1, h1, h2, h3⟩ := despues_de_eli e hs n (some u)
        rw [hcm, h, hu]
        exact ⟨e1, h1, h2, by simp [h3, hdist]⟩
    obtain ⟨e1, h1, hs1, hex⟩ := hpaso
    by_cases hr : resto = []
    · subst hr
      refine ⟨e1, by simp [despachar_todos, h1], ?_⟩
      simpa using hex
    · obtain ⟨e2, h2, hex2⟩ := ih hr
        (fun c1 hc1 => hc c1 (List.mem_cons_of_mem _ hc1)) e1 hs1
      refine ⟨e2, by simp [despachar_todos, h1, h2], ?_⟩
      rw [hex2]
      cases resto with
      | nil => exact absurd rfl hr
      | cons c1 resto1 => rw [List.getLast?_cons_cons]

/-- C4 at work: create, delete, create of "lobby" in the example state. -/
theorem C4_crear_eliminar_testigo :
    "lobby".toList ≠ [] ∧ salas_unicas estado_ejemplo ∧
    ∃ e1, despachar_todos estado_ejemplo
        [⟨"cre ".toList ++ "lobby".toList, some 1⟩,
          ⟨"eli ".toList ++ "lobby".toList, some 2⟩,
          ⟨"cre ".toList ++ "lobby".toList, some 2⟩] = some e1 ∧
      (existe_elemento e1.lista_global_salas "lobby".toList (salas_iguales e1) = true ↔
        ∃ c, ([⟨"cre ".toList ++ "lobby".toList, some 1⟩,
            ⟨"eli ".toList ++ "lobby".toList, some 2⟩,
            ⟨"cre ".toList ++ "lobby".toList, some 2⟩] : List comando).getLast? =
          some c ∧ c.texto = "cre ".toList ++ "lobby".toList) :=
  ⟨by decide, invariante_estado_ejemplo.salas,
    C4_crear_eliminar "lobby".toList (by decide) _ (by simp)
      (by
        intro c hc
        simp only [List.mem_cons, List.mem_singleton, List.mem_nil_iff, or_false] at hc
        rcases hc with h | h | h <;> subst h <;> simp)
      estado_ejemplo invariante_estado_ejemplo.salas⟩

/-- C4 fails for the empty room name: the single command `cre ` (a create
whose name is empty) is the last command of its sequence, the dispatcher
skips it, and no room of that name exists afterwards. -/
theorem C4_contraejemplo :
    ([⟨"cre ".toList ++ [], some 1⟩] : List comando).getLast? =
      some ⟨"cre ".toList ++ [], some 1⟩ ∧
    despachar_todos estado_vacio [⟨"cre ".toList ++ [], some 1⟩] =
      some estado_vacio ∧
    existe_elemento estado_vacio.lista_global_salas []
      (salas_iguales estado_vacio) = false :=
  ⟨rfl, rfl, rfl⟩

/-! ## C5 -/

/-- C5, what the code does: when the dispatcher applies `eli <name>` and no
room has that name, the guard of line 694 keeps it from calling
`eliminar_sala`; the state is returned as it was, trace of writes included,
so the requester gets no "La sala no existe" message. -/
theorem C5_eliminar_ausente_sin_aviso (e : Estado) (n : cadena)
    (sender : Option Nat)
    (h : existe_elemento e.lista_global_salas n (salas_iguales e) = false) :
    rutina_hilo_manager_despachar e ⟨"eli ".toList ++ n, sender⟩ = some e := by
  rw [despachar_eli, h]
  simp

/-- C5 at work: session 1 asks to delete "nada" in the example state and
nothing is written. -/
theorem C5_eliminar_ausente_sin_aviso_testigo :
    existe_elemento estado_ejemplo.lista_global_salas "nada".toList
      (salas_iguales estado_ejemplo) = false ∧
    rutina_hilo_manager_despachar estado_ejemplo
      ⟨"eli ".toList ++ "nada".toList, some 1⟩ = some estado_ejemplo ∧
    estado_ejemplo.escrituras = [] :=
  ⟨by decide,
    C5_eliminar_ausente_sin_aviso estado_ejemplo "nada".toList (some 1) (by decide),
    rfl⟩

/-! ## C6 -/

/-- C6: in a state in which room names are pairwise distinct and the
subscribed list of the session `S` holds listed rooms only, for a listed room
`R` that is not in the subscribed list of `S`, `suscribir_usuario` on the
name of `R` returns one state in which `S` heads the member list of `R` and
`R` heads the subscribed list of `S`; every other room and every other
session is as before, the lists of rooms, sessions and commands are as
before, and nothing is written to any socket. -/
theorem C6_suscribir_usuario (e : Estado)
    (hs : (e.lista_global_salas.map (fun s => (e.salas s).nombre_sala)).Nodup)
    (S R : Nat)
    (hsub : ∀ s ∈ (e.usuarios S).lista_salas_suscritas, s ∈ e.lista_global_salas)
    (hR : R ∈ e.lista_global_salas)
    (hno : R ∉ (e.usuarios S).lista_salas_suscritas) :
    ∃ e1, suscribir_usuario e (e.salas R).nombre_sala (some S) = some e1 ∧
      S ∈ (e1.salas R).lista_usuarios_activos ∧
      R ∈ (e1.usuarios S).lista_salas_suscritas ∧
      (e1.salas R).lista_usuarios_activos = S :: (e.salas R).lista_usuarios_activos ∧
      (e1.usuarios S).lista_salas_suscritas =
        R :: (e.usuarios S).lista_salas_suscritas ∧
      (e1.salas R).nombre_sala = (e.salas R).nombre_sala ∧
      (e1.usuarios S).nombre_usuario = (e.usuarios S).nombre_usuario ∧
      (e1.usuarios S).socket = (e.usuarios S).socket ∧
      (∀ r, r ≠ R → e1.salas r = e.salas r) ∧
      (∀ u, u ≠ S → e1.usuarios u = e.usuarios u) ∧
      e1.lista_global_salas = e.lista_global_salas ∧
      e1.lista_global_hilos_usuarios = e.lista_global_hilos_usuarios ∧
      e1.cola_global_comandos = e.cola_global_comandos ∧
      e1.escrituras = e.escrituras := by
  have hx : existe_elemento (e.usuarios S).lista_salas_suscritas
      (e.salas R).nombre_sala (salas_iguales e) = false := by
    rw [← Bool.not_eq_true, existe_suscrita_iff e hs S R hR hsub]
    exact hno
  refine ⟨_, suscribir_usuario_nuevo e _ S R (encontrar_sala e hs R hR) hx,
    ?_, ?_, ?_, ?_, ?_, ?_, ?_, ?_, ?_, rfl, rfl, rfl, rfl⟩
  · simp
  · simp
  · simp
  · simp
  · simp
  · simp
  · simp
  · intro r hr
    simp [Function.update_apply, hr]
  · intro u hu
    simp [Function.update_apply, hu]

/-- C6 at work: session 1 of the example state subscribes to "juegos". -/
theorem C6_suscribir_usuario_testigo :
    (estado_ejemplo.lista_global_salas.map
      (fun s => (estado_ejemplo.salas s).nombre_sala)).Nodup ∧
    (∀ s ∈ (estado_ejemplo.usuarios 1).lista_salas_suscritas,
      s ∈ estado_ejemplo.lista_global_salas) ∧
    1 ∈ estado_ejemplo.lista_global_salas ∧
    1 ∉ (estado_ejemplo.usuarios 1).lista_salas_suscritas ∧
    ∃ e1, suscribir_usuario estado_ejemplo "juegos".toList (some 1) = some e1 ∧
      (e1.salas 1).lista_usuarios_activos = [1, 2] ∧
      (e1.usuarios 1).lista_salas_suscritas = [1, 0] ∧
      e1.salas 0 = estado_ejemplo.salas 0 ∧
      e1.usuarios 2 = estado_ejemplo.usuarios 2 ∧
      e1.escrituras = [] := by
  obtain ⟨e1, h, -, -, h3, h4, -, -, -, h8, h9, -, -, -, h13⟩ :=
    C6_suscribir_usuario estado_ejemplo invariante_estado_ejemplo.salas.1 1 1
      (by decide) (by decide) (by decide)
  exact ⟨invariante_estado_ejemplo.salas.1, by decide, by decide, by decide, e1, h,
    h3, h4, h8 0 (by decide), h9 2 (by decide), h13⟩

/-! ## C7 -/

/-- C7: the three rejections change nothing but the trace of writes, to which
they add exactly one entry, on the socket of the requester: `crear_sala` with
a name that exists adds "La sala ya existe.", `suscribir_usuario` with a name
that does not exist adds "La sala no existe.", and `suscribir_usuario` for a
room that is in the requester's subscribed list adds "Ya estas suscrito."
(with its accented letter, two bytes); each text is framed by a newline
before and two after, as in the source. -/
theorem C7_rechazos (e : Estado) (n : cadena) (u : Nat) :
    (existe_elemento e.lista_global_salas n (salas_iguales e) = true →
      crear_sala e n (some u) =
        some { e with
          escrituras := e.escrituras ++
            [((e.usuarios u).socket, "\nLa sala ya existe.\n\n".toList)] }) ∧
    (existe_elemento e.lista_global_salas n (salas_iguales e) = false →
      suscribir_usuario e n (some u) =
        some { e with
          escrituras := e.escrituras ++
            [((e.usuarios u).socket, "\nLa sala no existe.\n\n".toList)] }) ∧
    (∀ R, encontrar_elemento e.lista_global_salas n (salas_iguales e) = some R →
      R ∈ (e.usuarios u).lista_salas_suscritas →
      suscribir_usuario e n (some u) =
        some { e with
          escrituras := e.escrituras ++
            [((e.usuarios u).socket,
              "\nYa est\xc3\xa1s suscrito.\n\n".toList)] }) := by
  refine ⟨fun h => ?_, fun h => ?_, fun R hR hmem => ?_⟩
  · rw [crear_sala_existe e n u h]
    rfl
  · rw [suscribir_usuario_ausente e n u h]
    rfl
  · have hx : existe_elemento (e.usuarios u).lista_salas_suscritas
        (e.salas R).nombre_sala (salas_iguales e) = true := by
      rw [existe_elemento_iff]
      exact ⟨R, hmem, by simp [salas_iguales]⟩
    rw [suscribir_usuario_ya e n u R hR hx]
    rfl

/-- C7 at work in the example state, for session 1 (socket 5): a second
"lobby", a subscription to the unknown "nada", and a second subscription to
"lobby". -/
theorem C7_rechazos_testigo :
    (existe_elemento estado_ejemplo.lista_global_salas "lobby".toList
        (salas_iguales estado_ejemplo) = true ∧
      crear_sala estado_ejemplo "lobby".toList (some 1) =
        some { estado_ejemplo with
          escrituras := [(5, "\nLa sala ya existe.\n\n".toList)] }) ∧
    (existe_elemento estado_ejemplo.lista_global_salas "nada".toList
        (salas_iguales estado_ejemplo) = false ∧
      suscribir_usuario estado_ejemplo "nada".toList (some 1) =
        some { estado_ejemplo with
          escrituras := [(5, "\nLa sala no existe.\n\n".toList)] }) ∧
    (encontrar_elemento estado_ejemplo.lista_global_salas "lobby".toList
        (salas_iguales estado_ejemplo) = some 0 ∧
      0 ∈ (estado_ejemplo.usuarios 1).lista_salas_suscritas ∧
      suscribir_usuario estado_ejemplo "lobby".toList (some 1) =
        some { estado_ejemplo with
          escrituras := [(5, "\nYa est\xc3\xa1s suscrito.\n\n".toList)] }) :=
  ⟨⟨by decide, (C7_rechazos estado_ejemplo "lobby".toList 1).1 (by decide)⟩,
    ⟨by decide, (C7_rechazos estado_ejemplo "nada".toList 1).2.1 (by decide)⟩,
    ⟨by decide, by decide,
      (C7_rechazos estado_ejemplo "lobby".toList 1).2.2 0 (by decide) (by decide)⟩⟩

/-! ## C8 -/

theorem paso_fue (e : Estado) (S : Nat) :
    rutina_hilo_cliente_paso e S 1 "fue".toList =
      (eliminar_usuario e (some S)).map
        (fun e1 => (write e1 (e1.usuarios S).socket salida 1, some 0)) := rfl

/-- C10, what the code does: when the read loop of the handler stops with a
result of `read` other than 1 (end of input or error), the thread ends with
return value 1 and the state is exactly as it was: no call of
`eliminar_usuario`, so the session keeps its registry entry and its
memberships; nothing is written. -/
theorem C10_lectura_fallida_sin_limpieza (e : Estado) (S : Nat) (status : Int)
    (mensaje : cadena) (h : status ≠ 1) :
    rutina_hilo_cliente_paso e S status mensaje = some (e, some 1) := by
  unfold rutina_hilo_cliente_paso
  exact if_pos h

/-- C10 at work: the connection of session 2 of the example state reaches
end of input (`read` returns 0); afterwards session 2 is still registered and
still a member of room 0 "lobby". -/
theorem C10_lectura_fallida_sin_limpieza_testigo :
    (0 : Int) ≠ 1 ∧
    ∃ e1, rutina_hilo_cliente_paso estado_ejemplo 2 0 [] = some (e1, some 1) ∧
      2 ∈ e1.lista_global_hilos_usuarios ∧
      2 ∈ (e1.salas 0).lista_usuarios_activos ∧
      0 ∈ e1.lista_global_salas ∧
      e1.escrituras = [] :=
  ⟨by decide, estado_ejemplo,
    C10_lectura_fallida_sin_limpieza estado_ejemplo 2 0 [] (by decide),
    by decide, by decide, by decide, rfl⟩

/-! ## The writes of a broadcast -/

theorem write_strlen (e : Estado) (fd : Int) (buf : cadena) :
    write e fd buf (strlen buf) =
      { e with escrituras := e.escrituras ++ [(fd, buf)] } := by
  simp [write, strlen]

theorem enviar_mensaje_usuarios_traza (S r : Nat) (mens : cadena) (L : List Nat)
    (e : Estado) :
    enviar_mensaje_usuarios e S r mens L =
      { e with
        escrituras := e.escrituras ++ L.map (fun m =>
          ((e.usuarios m).socket,
            "\n>> ".toList ++ (e.usuarios S).nombre_usuario ++ "@".toList ++
              (e.salas r).nombre_sala ++ ": ".toList ++ mens ++ "\n".toList)) } := by
  induction L generalizing e with
  | nil => simp [enviar_mensaje_usuarios]
  | cons m L ih =>
    rw [enviar_mensaje_usuarios, write_strlen, ih]
    simp

theorem enviar_mensaje_salas_traza (S : Nat) (mens : cadena) (L : List Nat)
    (e : Estado) :
    enviar_mensaje_salas e S mens L =
      { e with escrituras := e.escrituras ++ traza_mensaje e S mens L } := by
  induction L generalizing e with
  | nil => simp [enviar_mensaje_salas, traza_mensaje]
  | cons r L ih =>
    rw [enviar_mensaje_salas, enviar_mensaje_usuarios_traza, ih]
    simp [traza_mensaje]

theorem enviar_mensaje_traza (e : Estado) (S : Nat) (linea : cadena)
    (h : e.lista_global_salas ≠ []) :
    enviar_mensaje e (some S) linea =
      some { e with
        escrituras := e.escrituras ++
          traza_mensaje e S (linea.drop 4) (e.usuarios S).lista_salas_suscritas } := by
  cases hl : e.lista_global_salas with
  | nil => exact absurd hl h
  | cons x xs =>
    simp [enviar_mensaje, hl, lista_vacia, enviar_mensaje_salas_traza]

/-- How many writes of a broadcast go to the socket of `R`: one for each
room of the walked list that has `R` as a member, when no member list holds
an address twice and sockets tell sessions apart. -/
theorem traza_mensaje_cuenta (e : Estado) (S R : Nat) (mens : cadena)
    (L : List Nat)
    (hnd : ∀ r ∈ L, (e.salas r).lista_usuarios_activos.Nodup)
    (hsock : ∀ u v, (e.usuarios u).socket = (e.usuarios v).socket → u = v) :
    (traza_mensaje e S mens L).countP (fun w => decide (w.1 = (e.usuarios R).socket)) =
      L.countP (fun r => decide (R ∈ (e.salas r).lista_usuarios_activos)) := by
  induction L with
  | nil => simp [traza_mensaje]
  | cons r L ih =>
    have ih1 := ih (fun x hx => hnd x (List.mem_cons_of_mem _ hx))
    have hr := hnd r (List.mem_cons_self _ _)
    have hone : ((e.salas r).lista_usuarios_activos.map (fun m =>
          ((e.usuarios m).socket,
            "\n>> ".toList ++ (e.usuarios S).nombre_usuario ++ "@".toList ++
              (e.salas r).nombre_sala ++ ": ".toList ++ mens ++ "\n".toList))).countP
        (fun w => decide (w.1 = (e.usuarios R).socket)) =
        if R ∈ (e.salas r).lista_usuarios_activos then 1 else 0 := by
      rw [List.countP_map]
      have hfun : ((fun w : Int × cadena => decide (w.1 = (e.usuarios R).socket)) ∘
          fun m => ((e.usuarios m).socket,
            "\n>> ".toList ++ (e.usuarios S).nombre_usuario ++ "@".toList ++
              (e.salas r).nombre_sala ++ ": ".toList ++ mens ++ "\n".toList)) =
          fun m => decide (m = R) := by
        funext m
        simp only [Function.comp, decide_eq_decide]
        exact ⟨fun h => hsock m R h, fun h => by rw [h]⟩
      rw [hfun]
      have hcount : List.countP (fun m => decide (m = R))
          (e.salas r).lista_usuarios_activos =
          List.count R (e.salas r).lista_usuarios_activos := by
        rw [List.count]
        congr 1
      rw [hcount]
      by_cases hmem : R ∈ (e.salas r).lista_usuarios_activos
      · rw [if_pos hmem, List.count_eq_one_of_mem hr hmem]
      · rw [if_neg hmem, List.count_eq_zero_of_not_mem hmem]
    unfold traza_mensaje at ih1 ⊢
    rw [List.flatMap_cons, List.countP_append, hone, ih1, List.countP_cons]
    by_cases hmem : R ∈ (e.salas r).lista_usuarios_activos
    · simp [hmem, Nat.add_comm]
    · simp [hmem]

/-- Where the room list is not empty, a broadcast of `S` in a well-formed
state whose sockets tell sessions apart writes to the socket of `R` once for
each room of the subscribed list of `S` that has `R` as a member. -/
theorem enviar_mensaje_cuenta (e : Estado) (hi : invariante e)
    (hsock : ∀ u v, (e.usuarios u).socket = (e.usuarios v).socket → u = v)
    (h : e.lista_global_salas ≠ []) (S R : Nat) (linea : cadena) :
    ∃ e1 nuevas, enviar_mensaje e (some S) linea = some e1 ∧
      e1.escrituras = e.escrituras ++ nuevas ∧
      nuevas.countP (fun w => decide (w.1 = (e.usuarios R).socket)) =
        (e.usuarios S).lista_salas_suscritas.countP
          (fun r => decide (R ∈ (e.salas r).lista_usuarios_activos)) :=
  ⟨_, _, enviar_mensaje_traza e S linea h, rfl,
    traza_mensaje_cuenta e S R _ _
      (fun r hr => hi.activos_sin_repetir r (hi.membresia.2 S r hr)) hsock⟩

/-! ## C11 -/

/-- C11, where the code departs from it: when `lista_global_salas` is empty
`enviar_mensaje` never assigns its local `nodo_sala_usuario` and then reads
it in the loop condition, so the call has no defined result (instead of
writing nothing). -/
theorem C11_sin_salas_indefinido (e : Estado) (S : Nat) (linea : cadena)
    (h : e.lista_global_salas = []) :
    enviar_mensaje e (some S) linea = none := by
  simp [enviar_mensaje, h, lista_vacia]

/-- C11 at work: no room exists and session 1, subscribed to nothing, sends
`men hi`. -/
theorem C11_sin_salas_indefinido_testigo :
    estado_dos_sesiones.lista_global_salas = [] ∧
    (estado_dos_sesiones.usuarios 1).lista_salas_suscritas = [] ∧
    enviar_mensaje estado_dos_sesiones (some 1) "men hi".toList = none ∧
    rutina_hilo_cliente_paso estado_dos_sesiones 1 1 "men hi".toList = none :=
  ⟨rfl, rfl, C11_sin_salas_indefinido estado_dos_sesiones 1 "men hi".toList rfl, rfl⟩

/-! ## C12 -/

theorem agregar_todos_eq {α : Type} (cs l : List α) :
    agregar_todos l cs = l ++ cs := by
  induction cs generalizing l with
  | nil => simp [agregar_todos]
  | cons c resto ih => simp [agregar_todos, ih, agregar_final_eq]

theorem longitud_eq {α : Type} (l : List α) : longitud l = l.length := by
  induction l with
  | nil => rfl
  | cons x xs ih => simp [longitud, ih]

theorem extraer_varios_append {α : Type} (l l2 : List α) :
    extraer_varios (l ++ l2) l.length = (l.map some, l2) := by
  induction l with
  | nil => simp [extraer_varios]
  | cons x xs ih => simp [extraer_varios, extraer_primero, ih]

/-- C13: the commands `cs` appended one by one with `agregar_final` to an
empty queue come back from as many calls of `extraer_primero` in the order
they went in, and the queue is then empty; a command appended to a queue
that holds `q` is not among the first `longitud q` values extracted, which
are those of `q` in order and leave it alone in the queue, and it is the
value extracted next.  One turn of the dispatcher takes the first command
off the queue and applies it to the state with the rest of the queue. -/
theorem C13_cola_fifo {α : Type} (cs q : List α) (c : α) :
    extraer_varios (agregar_todos [] cs) (longitud cs) = (cs.map some, []) ∧
    extraer_varios (agregar_final q c) (longitud q) = (q.map some, [c]) ∧
    extraer_varios (agregar_final q c) (longitud q + 1) =
      (q.map some ++ [some c], []) ∧
    ∀ (e : Estado) (com : comando) (cola : List comando),
      rutina_hilo_manager_paso { e with cola_global_comandos := com :: cola } =
        rutina_hilo_manager_despachar { e with cola_global_comandos := cola } com := by
  refine ⟨?_, ?_, ?_, fun e com cola => rfl⟩
  · rw [agregar_todos_eq, longitud_eq]
    simpa using extraer_varios_append cs []
  · rw [agregar_final_eq, longitud_eq]
    exact extraer_varios_append q [c]
  · rw [agregar_final_eq, longitud_eq]
    have h := extraer_varios_append (q ++ [c]) []
    simpa using h

/-! ## How the handler sorts a line -/

/-- Where the copy of the line stays inside the block, the command is the
line with its sender, at the tail of the queue. -/
theorem encolar_comando_cabe (e : Estado) (user : Nat) (mensaje : cadena)
    (h : strlen mensaje + 1 ≤ malloc_usable_size sizeof_size_t) :
    encolar_comando e user mensaje =
      some { e with
        cola_global_comandos := e.cola_global_comandos ++
          [{ texto := mensaje, sender := some user }] } := by
  rw [encolar_comando, if_pos h, agregar_final_eq]

theorem encolar_comando_no_cabe (e : Estado) (user : Nat) (mensaje : cadena)
    (h : ¬ strlen mensaje + 1 ≤ malloc_usable_size sizeof_size_t) :
    encolar_comando e user mensaje = none := by
  rw [encolar_comando, if_neg h]

theorem largo_de_take4 (m q : cadena) (hq : q.length = 4) (h : m.take 4 = q) :
    strlen m ≥ 4 := by
  have := congrArg List.length h
  rw [List.length_take, hq] at this
  unfold strlen
  omega

theorem empieza_con_iff (q m : cadena) (hq : q.length = 4) :
    empieza_con q m ↔ m.take 4 = q := by
  constructor
  · rintro ⟨arg, rfl⟩
    rw [← hq, List.take_left]
  · intro h
    exact ⟨m.drop 4, by rw [← h, List.take_append_drop]⟩

/-- The nested tests of the main loop of `rutina_hilo_cliente` on the length
and the first bytes of a line, as one chain of tests on the line. -/
theorem paso_plano (e : Estado) (user : Nat) (mensaje : cadena) :
    rutina_hilo_cliente_paso e user 1 mensaje =
      if mensaje = [] then some (e, none)
      else if mensaje.take 4 = "men ".toList then
        (enviar_mensaje e (some user) mensaje).map (fun e1 => (e1, none))
      else if mensaje.take 4 = "sus ".toList ∨ mensaje.take 4 = "cre ".toList ∨
          mensaje.take 4 = "eli ".toList then
        (encolar_comando e user mensaje).map (fun e1 => (e1, none))
      else if mensaje = "sal".toList ∨ mensaje = "mis".toList ∨
          mensaje = "des".toList then
        (encolar_comando e user mensaje).map (fun e1 => (e1, none))
      else if mensaje = "usu".toList then
        (listar_usuarios e (some user)).map (fun e1 => (e1, none))
      else if mensaje = "fue".toList then
        (eliminar_usuario e (some user)).map
          (fun e1 => (write e1 (e1.usuarios user).socket salida 1, some 0))
      else
        some (write e (e.usuarios user).socket "Comando no reconocido\n".toList 22,
          none) := by
  have t4 : ∀ q : cadena, q.length = 4 → mensaje.take 4 = q → strlen mensaje ≥ 4 :=
    fun q hq h => largo_de_take4 mensaje q hq h
  have e3 : ∀ q : cadena, q.length = 3 → mensaje = q → strlen mensaje = 3 :=
    fun q hq h => by rw [h]; exact hq
  unfold rutina_hilo_cliente_paso
  by_cases h0 : mensaje = []
  · simp [h0]
  · by_cases h4 : strlen mensaje ≥ 4
    · have n3 : ∀ q : cadena, q.length = 3 → ¬ mensaje = q := by
        intro q hq h
        have := e3 q hq h
        omega
      simp only [ne_eq, not_true_eq_false, if_false, h0, not_false_eq_true, if_true,
        h4, n3 "sal".toList rfl, n3 "mis".toList rfl, n3 "des".toList rfl,
        n3 "usu".toList rfl, n3 "fue".toList rfl, or_self]
    · have n4 : ∀ q : cadena, q.length = 4 → ¬ mensaje.take 4 = q :=
        fun q hq h => h4 (t4 q hq h)
      by_cases h3 : strlen mensaje = 3
      · have ht : mensaje.take 3 = mensaje :=
          List.take_of_length_le (by unfold strlen at h3; omega)
        simp only [ne_eq, not_true_eq_false, if_false, h0, not_false_eq_true, if_true,
          h4, h3, ht, n4 "men ".toList rfl, n4 "sus ".toList rfl,
          n4 "cre ".toList rfl, n4 "eli ".toList rfl, or_self]
        rw [if_neg (by decide : ¬ (3 ≥ 4))]
      · have n3 : ∀ q : cadena, q.length = 3 → ¬ mensaje = q :=
          fun q hq h => h3 (e3 q hq h)
        simp only [ne_eq, not_true_eq_false, if_false, h0, not_false_eq_true, if_true,
          h4, h3, n4 "men ".toList rfl, n4 "sus ".toList rfl,
          n4 "cre ".toList rfl, n4 "eli ".toList rfl, n3 "sal".toList rfl,
          n3 "mis".toList rfl, n3 "des".toList rfl, n3 "usu".toList rfl,
          n3 "fue".toList rfl, or_self]

/-! ## Listings and quit, whatever the state -/

theorem listar_usuarios_bucle_traza (fd : Int) (l : List Nat) (e : Estado) :
    listar_usuarios_bucle e fd l =
      { e with
        escrituras := e.escrituras ++
          l.map (fun h => (fd, (e.usuarios h).nombre_usuario ++ "\n".toList)) } := by
  induction l generalizing e with
  | nil => simp [listar_usuarios_bucle]
  | cons h l ih =>
    rw [listar_usuarios_bucle]
    simp only [write_strlen, ih]
    simp

theorem listar_usuarios_traza (e : Estado) (u : Nat) :
    listar_usuarios e (some u) =
      some { e with
        escrituras := e.escrituras ++
          [((e.usuarios u).socket,
            "\nLISTA DE USUARIOS DEL SISTEMA\n=============================\n".toList)] ++
          e.lista_global_hilos_usuarios.map
            (fun h => ((e.usuarios u).socket,
              (e.usuarios h).nombre_usuario ++ "\n".toList)) ++
          [((e.usuarios u).socket, "\n".toList)] } := by
  have h61 : ("\nLISTA DE USUARIOS DEL SISTEMA\n=============================\n".toList ++
      [Char.ofNat 0]).take 61 =
      "\nLISTA DE USUARIOS DEL SISTEMA\n=============================\n".toList := by
    decide
  have h1 : ("\n".toList ++ [Char.ofNat 0]).take 1 = "\n".toList := by decide
  simp only [listar_usuarios, listar_usuarios_bucle_traza]
  simp only [write, h61, h1]

theorem hilos_iguales_congr (e e1 : Estado)
    (h : ∀ m, (e1.usuarios m).nombre_usuario = (e.usuarios m).nombre_usuario) :
    hilos_iguales e1 = hilos_iguales e := by
  funext n x
  simp [hilos_iguales, h]

/-- Whatever the state, `desuscribir_usuario` returns and leaves usernames,
sockets, the three global lists and the trace of writes alone. -/
theorem desuscribir_usuario_marco (e : Estado) (S : Nat) :
    ∃ e1, desuscribir_usuario e (some S) = some e1 ∧
      e1.lista_global_hilos_usuarios = e.lista_global_hilos_usuarios ∧
      (∀ m, (e1.usuarios m).nombre_usuario = (e.usuarios m).nombre_usuario ∧
        (e1.usuarios m).socket = (e.usuarios m).socket) ∧
      e1.cola_global_comandos = e.cola_global_comandos ∧
      e1.escrituras = e.escrituras ∧
      e1.lista_global_salas = e.lista_global_salas := by
  obtain ⟨h1, -, h3, h4, h5, h6, -⟩ :=
    desuscribir_usuario_bucle_marco S (e.usuarios S).lista_salas_suscritas e
  refine ⟨{ desuscribir_usuario_bucle e S (e.usuarios S).lista_salas_suscritas with
      usuarios := Function.update
        (desuscribir_usuario_bucle e S (e.usuarios S).lista_salas_suscritas).usuarios S
        { (desuscribir_usuario_bucle e S
            (e.usuarios S).lista_salas_suscritas).usuarios S with
          lista_salas_suscritas := crear_lista } },
    rfl, h5, ?_, h4, h6, h3⟩
  intro m
  by_cases hm : m = S
  · subst hm
    simp [h1]
  · simp [Function.update_apply, hm, h1]

/-- Whatever the state, `eliminar_usuario` returns, takes the first entry
named like the session out of the session registry, and leaves usernames,
sockets, the global room list, the command queue and the trace of writes
alone. -/
theorem eliminar_usuario_marco (e : Estado) (S : Nat) :
    ∃ e2, eliminar_usuario e (some S) = some e2 ∧
      e2.lista_global_hilos_usuarios =
        e.lista_global_hilos_usuarios.eraseP
          (hilos_iguales e (e.usuarios S).nombre_usuario) ∧
      (∀ m, (e2.usuarios m).nombre_usuario = (e.usuarios m).nombre_usuario ∧
        (e2.usuarios m).socket = (e.usuarios m).socket) ∧
      e2.cola_global_comandos = e.cola_global_comandos ∧
      e2.escrituras = e.escrituras ∧
      e2.lista_global_salas = e.lista_global_salas := by
  obtain ⟨e1, h1, hh, hnom, hc, hw, hg⟩ := desuscribir_usuario_marco e S
  refine ⟨{ e1 with
      lista_global_hilos_usuarios :=
        (eliminar_elemento e1.lista_global_hilos_usuarios
          (e1.usuarios S).nombre_usuario (hilos_iguales e1) true).1 },
    by simp [eliminar_usuario, h1], ?_, hnom, hc, hw, hg⟩
  show (eliminar_elemento _ _ _ true).1 = _
  rw [eliminar_elemento_fst, hh, hilos_iguales_congr e e1 (fun m => (hnom m).1),
    (hnom S).1]

/-! ## C14 -/

/-- A line that goes to the queue gives the turn of the main loop the
result of `encolar_comando`. -/
theorem paso_encolada (e : Estado) (user : Nat) (mensaje : cadena)
    (h : linea_encolada mensaje) :
    rutina_hilo_cliente_paso e user 1 mensaje =
      (encolar_comando e user mensaje).map (fun e1 => (e1, none)) := by
  rw [paso_plano]
  have hdist : ∀ q : cadena, q.length = 4 → q ≠ "men ".toList →
      empieza_con q mensaje →
      mensaje ≠ [] ∧ ¬ mensaje.take 4 = "men ".toList ∧ mensaje.take 4 = q := by
    intro q hq hne hq1
    have ht := (empieza_con_iff q mensaje hq).1 hq1
    refine ⟨?_, ?_, ht⟩
    · intro h0
      rw [h0] at ht
      rw [← ht] at hq
      simp at hq
    · rw [ht]
      exact hne
  rcases h with h | h | h | h | h | h
  · obtain ⟨h0, h1, h2⟩ := hdist "cre ".toList rfl (by decide) h
    simp [h0, h1, h2]
  · obtain ⟨h0, h1, h2⟩ := hdist "eli ".toList rfl (by decide) h
    simp [h0, h1, h2]
  · obtain ⟨h0, h1, h2⟩ := hdist "sus ".toList rfl (by decide) h
    simp [h0, h1, h2]
  · subst h; rfl
  · subst h; rfl
  · subst h; rfl

/-- C14, as the code has it.  The text of a queued command is a block of
`malloc(sizeof(strlen(mensaje)))`, a request of 8 bytes whatever the line is,
which gets a block of 24 bytes.  When the handler has read a line that is a
create, delete or subscribe command with its argument, or exactly `sal`,
`mis` or `des`: if the line fits into that block with its NUL (at most 23
bytes), the state changes in one place only, one command with the text of
the line and the session as sender is added at the tail of
`cola_global_comandos`; if the line has 24 bytes or more, `strcpy` writes
past the end of the block and the turn has no defined result.  For every
other line the queue is as before whenever the turn has a result, and it has
one for every such line, a message line taken apart when no room exists (the
case of C11). -/
theorem C14_lineas_encoladas (e : Estado) (user : Nat) (mensaje : cadena) :
    malloc_usable_size sizeof_size_t = 24 ∧
    (linea_encolada mensaje → strlen mensaje + 1 ≤ 24 →
      rutina_hilo_cliente_paso e user 1 mensaje =
        some ({ e with
          cola_global_comandos := e.cola_global_comandos ++
            [{ texto := mensaje, sender := some user }] }, none)) ∧
    (linea_encolada mensaje → 24 ≤ strlen mensaje →
      rutina_hilo_cliente_paso e user 1 mensaje = none) ∧
    (¬ linea_encolada mensaje →
      ∀ e1 r, rutina_hilo_cliente_paso e user 1 mensaje = some (e1, r) →
        e1.cola_global_comandos = e.cola_global_comandos) ∧
    (¬ linea_encolada mensaje →
      (empieza_con "men ".toList mensaje → e.lista_global_salas ≠ []) →
      ∃ e1 r, rutina_hilo_cliente_paso e user 1 mensaje = some (e1, r) ∧
        e1.cola_global_comandos = e.cola_global_comandos) := by
  have h24 : malloc_usable_size sizeof_size_t = 24 := by decide
  have hcola : ¬ linea_encolada mensaje →
      (empieza_con "men ".toList mensaje → e.lista_global_salas ≠ []) →
      ∃ e1 r, rutina_hilo_cliente_paso e user 1 mensaje = some (e1, r) ∧
        e1.cola_global_comandos = e.cola_global_comandos := by
    intro hne hmen
    have hn1 : ¬ (mensaje.take 4 = "sus ".toList ∨ mensaje.take 4 = "cre ".toList ∨
        mensaje.take 4 = "eli ".toList) := by
      intro h
      apply hne
      rcases h with h | h | h
      · exact Or.inr (Or.inr (Or.inl ((empieza_con_iff "sus ".toList mensaje rfl).2 h)))
      · exact Or.inl ((empieza_con_iff "cre ".toList mensaje rfl).2 h)
      · exact Or.inr (Or.inl ((empieza_con_iff "eli ".toList mensaje rfl).2 h))
    have hn2 : ¬ (mensaje = "sal".toList ∨ mensaje = "mis".toList ∨
        mensaje = "des".toList) := by
      intro h
      apply hne
      rcases h with h | h | h
      · exact Or.inr (Or.inr (Or.inr (Or.inl h)))
      · exact Or.inr (Or.inr (Or.inr (Or.inr (Or.inl h))))
      · exact Or.inr (Or.inr (Or.inr (Or.inr (Or.inr h))))
    rw [paso_plano]
    by_cases h0 : mensaje = []
    · exact ⟨e, none, by rw [if_pos h0], rfl⟩
    · rw [if_neg h0]
      by_cases hm : mensaje.take 4 = "men ".toList
      · rw [if_pos hm, enviar_mensaje_traza e user mensaje
          (hmen ((empieza_con_iff "men ".toList mensaje rfl).2 hm))]
        exact ⟨_, none, rfl, rfl⟩
      · rw [if_neg hm, if_neg hn1, if_neg hn2]
        by_cases hu : mensaje = "usu".toList
        · rw [if_pos hu, listar_usuarios_traza]
          exact ⟨_, none, rfl, rfl⟩
        · rw [if_neg hu]
          by_cases hf : mensaje = "fue".toList
          · obtain ⟨e2, h2, -, -, hc, -, -⟩ := eliminar_usuario_marco e user
            rw [if_pos hf, h2]
            exact ⟨_, some 0, rfl, hc⟩
          · rw [if_neg hf]
            exact ⟨_, none, rfl, rfl⟩
  refine ⟨h24, ?_, ?_, ?_, hcola⟩
  · intro h hc
    rw [paso_encolada e user mensaje h,
      encolar_comando_cabe e user mensaje (by rw [h24]; exact hc)]
    rfl
  · intro h hc
    rw [paso_encolada e user mensaje h,
      encolar_comando_no_cabe e user mensaje (by rw [h24]; omega)]
    rfl
  · intro hne e1 r h
    by_cases hmen : empieza_con "men ".toList mensaje → e.lista_global_salas ≠ []
    · obtain ⟨e2, r2, h2, hc⟩ := hcola hne hmen
      rw [h2] at h
      injection h with h
      injection h with h3 h4
      rw [← h3]
      exact hc
    · exfalso
      rw [Classical.not_imp, not_not] at hmen
      rw [paso_plano] at h
      have hm := (empieza_con_iff "men ".toList mensaje rfl).1 hmen.1
      have h0 : mensaje ≠ [] := by
        intro h0
        rw [h0] at hm
        exact absurd hm (by decide)
      rw [if_neg h0, if_pos hm] at h
      simp [enviar_mensaje, hmen.2, lista_vacia] at h

theorem linea_encolada_iff (m : cadena) :
    linea_encolada m ↔
      (m.take 4 = "cre ".toList ∨ m.take 4 = "eli ".toList ∨
        m.take 4 = "sus ".toList ∨ m = "sal".toList ∨ m = "mis".toList ∨
        m = "des".toList) := by
  unfold linea_encolada
  rw [empieza_con_iff "cre ".toList m rfl, empieza_con_iff "eli ".toList m rfl,
    empieza_con_iff "sus ".toList m rfl]

/-- C14 at work in the chat state, for alice: the line `cre juegos` goes to
the queue; the line `cre ` with a room name of 20 letters, 24 bytes in all,
runs past the block; the lines `usu` and `men hi` do not go to the queue. -/
theorem C14_lineas_encoladas_testigo :
    (linea_encolada "cre juegos".toList ∧ strlen "cre juegos".toList + 1 ≤ 24 ∧
      rutina_hilo_cliente_paso estado_chat 1 1 "cre juegos".toList =
        some ({ estado_chat with
          cola_global_comandos :=
            [{ texto := "cre juegos".toList, sender := some 1 }] }, none)) ∧
    (linea_encolada "cre abcdefghijklmnopqrst".toList ∧
      24 ≤ strlen "cre abcdefghijklmnopqrst".toList ∧
      rutina_hilo_cliente_paso estado_chat 1 1 "cre abcdefghijklmnopqrst".toList =
        none) ∧
    (¬ linea_encolada "usu".toList ∧
      ∀ e1 r, rutina_hilo_cliente_paso estado_chat 1 1 "usu".toList = some (e1, r) →
        e1.cola_global_comandos = []) ∧
    (¬ linea_encolada "men hi".toList ∧
      (empieza_con "men ".toList "men hi".toList →
        estado_chat.lista_global_salas ≠ []) ∧
      ∃ e1 r, rutina_hilo_cliente_paso estado_chat 1 1 "men hi".toList =
          some (e1, r) ∧
        e1.cola_global_comandos = []) :=
  ⟨⟨(linea_encolada_iff _).2 (by decide), by decide,
      (C14_lineas_encoladas estado_chat 1 "cre juegos".toList).2.1
        ((linea_encolada_iff _).2 (by decide)) (by decide)⟩,
    ⟨(linea_encolada_iff _).2 (by decide), by decide,
      (C14_lineas_encoladas estado_chat 1 "cre abcdefghijklmnopqrst".toList).2.2.1
        ((linea_encolada_iff _).2 (by decide)) (by decide)⟩,
    ⟨fun h => absurd ((linea_encolada_iff _).1 h) (by decide),
      (C14_lineas_encoladas estado_chat 1 "usu".toList).2.2.2.1
        (fun h => absurd ((linea_encolada_iff _).1 h) (by decide))⟩,
    ⟨fun h => absurd ((linea_encolada_iff _).1 h) (by decide),
      fun _ => by decide,
      (C14_lineas_encoladas estado_chat 1 "men hi".toList).2.2.2.2
        (fun h => absurd ((linea_encolada_iff _).1 h) (by decide))
        (fun _ => by decide)⟩⟩

/-! ## C15 -/

theorem write_literal (e : Estado) (fd : Int) (buf : cadena) (n : Nat)
    (h : (buf ++ [Char.ofNat 0]).take n = buf) :
    write e fd buf n = { e with escrituras := e.escrituras ++ [(fd, buf)] } := by
  simp [write, h]

theorem imprimir_lista_salas_bucle_traza (fd : Int) (l : List Nat) (e : Estado) :
    imprimir_lista_salas_bucle e fd l =
      { e with
        escrituras := e.escrituras ++ l.flatMap (fun r =>
          [(fd, "\"".toList), (fd, (e.salas r).nombre_sala), (fd, "\"\n".toList)]) } := by
  induction l generalizing e with
  | nil => simp [imprimir_lista_salas_bucle]
  | cons r l ih =>
    rw [imprimir_lista_salas_bucle]
    simp only [write_strlen, write_literal _ _ "\"".toList 1 (by decide),
      write_literal _ _ "\"\n".toList 2 (by decide), ih]
    simp

/-- C18: `imprimir_lista_salas` for the session `S` changes nothing but the
trace of writes, all on the socket of `S`: one header, then for each room of
`l`, in the order of `l`, the three writes `"`, the room name, `"` and
newline, then one newline.  Put together, the bytes after the header are one
line per room, the name between double quotes, in list order, and an empty
line.  A list that `crear_sala` extends has the new room first. -/
theorem C18_imprimir_lista_salas (e : Estado) (l : List Nat) (S : Nat)
    (sistema : Bool) :
    imprimir_lista_salas e l (some S) sistema =
      some { e with
        escrituras := e.escrituras ++
          [((e.usuarios S).socket,
            if sistema then
              "\nLISTA DE SALAS DEL SISTEMA\n==========================\n".toList ++
                [Char.ofNat 0]
            else "\nLISTA DE SALAS SUSCRITAS\n========================\n".toList)] ++
          l.flatMap (fun r =>
            [((e.usuarios S).socket, "\"".toList),
              ((e.usuarios S).socket, (e.salas r).nombre_sala),
              ((e.usuarios S).socket, "\"\n".toList)]) ++
          [((e.usuarios S).socket, "\n".toList)] } ∧
    (l.flatMap (fun r =>
        [((e.usuarios S).socket, "\"".toList),
          ((e.usuarios S).socket, (e.salas r).nombre_sala),
          ((e.usuarios S).socket, "\"\n".toList)])).flatMap Prod.snd =
      l.flatMap (fun r => "\"".toList ++ (e.salas r).nombre_sala ++ "\"\n".toList) ∧
    (∀ n user, existe_elemento e.lista_global_salas n (salas_iguales e) = false →
      ∃ e1, crear_sala e n user = some e1 ∧
        e1.lista_global_salas = e.siguiente_sala :: e.lista_global_salas ∧
        (e1.salas e.siguiente_sala).nombre_sala = n) := by
  refine ⟨?_, ?_, ?_⟩
  · have h56 : ("\nLISTA DE SALAS DEL SISTEMA\n==========================\n".toList ++
        [Char.ofNat 0]).take 56 =
        "\nLISTA DE SALAS DEL SISTEMA\n==========================\n".toList ++
          [Char.ofNat 0] := by decide
    have h51 : ("\nLISTA DE SALAS SUSCRITAS\n========================\n".toList ++
        [Char.ofNat 0]).take 51 =
        "\nLISTA DE SALAS SUSCRITAS\n========================\n".toList := by decide
    have h1 : ("\n".toList ++ [Char.ofNat 0]).take 1 = "\n".toList := by decide
    cases sistema
    · simp only [imprimir_lista_salas, imprimir_lista_salas_bucle_traza]
      simp [write, h51, h1]
    · simp only [imprimir_lista_salas, imprimir_lista_salas_bucle_traza]
      simp [write, h56, h1]
  · induction l with
    | nil => rfl
    | cons r l ih =>
      simp only [List.flatMap_cons, List.flatMap_append, ih]
      simp [List.flatMap]
  · intro n user h
    exact ⟨_, crear_sala_nueva e n user h, rfl, by simp⟩

/-- C18 at work: session 2 of the example state asks for its rooms,
"juegos" (joined last) and "lobby"; and a new room "cine" becomes the head of
the global list. -/
theorem C18_imprimir_lista_salas_testigo :
    imprimir_lista_salas estado_ejemplo [1, 0] (some 2) false =
      some { estado_ejemplo with
        escrituras :=
          [(6, "\nLISTA DE SALAS SUSCRITAS\n========================\n".toList),
            (6, "\"".toList), (6, "juegos".toList), (6, "\"\n".toList),
            (6, "\"".toList), (6, "lobby".toList), (6, "\"\n".toList),
            (6, "\n".toList)] } ∧
    existe_elemento estado_ejemplo.lista_global_salas "cine".toList
      (salas_iguales estado_ejemplo) = false ∧
    ∃ e1, crear_sala estado_ejemplo "cine".toList (some 1) = some e1 ∧
      e1.lista_global_salas = [2, 1, 0] ∧
      (e1.salas 2).nombre_sala = "cine".toList :=
  ⟨(C18_imprimir_lista_salas estado_ejemplo [1, 0] 2 false).1, by decide,
    (C18_imprimir_lista_salas estado_ejemplo [1, 0] 2 false).2.2
      "cine".toList (some 1) (by decide)⟩

/-! ## C19 -/

theorem check_invocation_bucle_error (opts : List opcion) (v : invocacion) (n : Nat)
    (h : check_invocation_bucle v opts = Except.error n) : n = 1 := by
  induction opts generalizing v with
  | nil => simp [check_invocation_bucle] at h
  | cons o resto ih =>
    cases o with
    | p optarg =>
      simp only [check_invocation_bucle] at h
      split at h
      · injection h with h
        exact h.symm
      · exact ih _ h
    | s optarg =>
      simp only [check_invocation_bucle] at h
      exact ih _ h
    | dos_puntos =>
      simp only [check_invocation_bucle] at h
      injection h with h
      exact h.symm
    | interrogacion =>
      simp only [check_invocation_bucle] at h
      injection h with h
      exact h.symm

theorem check_invocation_bucle_ok (opts : List opcion) (v v1 : invocacion)
    (h : check_invocation_bucle v opts = Except.ok v1) :
    (∀ o ∈ opts, opcion_valida o) ∧
    (v1.pflag = true ↔ (v.pflag = true ∨ ∃ a, opcion.p a ∈ opts)) ∧
    ((∃ a, opcion.p a ∈ opts ∧ v1.puerto = atoi a) ∨
      ((∀ a, opcion.p a ∉ opts) ∧ v1.puerto = v.puerto)) ∧
    ((∀ a, opcion.s a ∉ opts) → v1.sala_pedida = v.sala_pedida) := by
  induction opts generalizing v with
  | nil =>
    simp only [check_invocation_bucle] at h
    injection h with h
    subst h
    simp
  | cons o resto ih =>
    cases o with
    | p optarg =>
      simp only [check_invocation_bucle] at h
      split at h
      · exact Except.noConfusion h
      · rename_i hr
        obtain ⟨h1, h2, h3, h4⟩ := ih _ h
        have hval : opcion_valida (opcion.p optarg) := by
          simp only [opcion_valida]
          omega
        refine ⟨?_, ?_, ?_, ?_⟩
        · intro o ho
          rcases List.mem_cons.mp ho with h5 | h5
          · rw [h5]; exact hval
          · exact h1 o h5
        · rw [h2]
          simp
        · rcases h3 with ⟨a, ha, hp⟩ | ⟨hno, hp⟩
          · exact Or.inl ⟨a, List.mem_cons_of_mem _ ha, hp⟩
          · exact Or.inl ⟨optarg, List.mem_cons_self _ _, hp⟩
        · intro hs
          rw [h4 (fun a ha => hs a (List.mem_cons_of_mem _ ha))]
    | s optarg =>
      simp only [check_invocation_bucle] at h
      obtain ⟨h1, h2, h3, h4⟩ := ih _ h
      refine ⟨?_, ?_, ?_, ?_⟩
      · intro o ho
        rcases List.mem_cons.mp ho with h5 | h5
        · rw [h5]; exact True.intro
        · exact h1 o h5
      · rw [h2]
        simp
      · rcases h3 with ⟨a, ha, hp⟩ | ⟨hno, hp⟩
        · exact Or.inl ⟨a, List.mem_cons_of_mem _ ha, hp⟩
        · refine Or.inr ⟨?_, hp⟩
          intro a ha
          rcases List.mem_cons.mp ha with h5 | h5
          · exact opcion.noConfusion h5
          · exact hno a h5
      · intro hs
        exact absurd (List.mem_cons_self _ _) (hs optarg)
    | dos_puntos =>
      simp only [check_invocation_bucle] at h
      exact Except.noConfusion h
    | interrogacion =>
      simp only [check_invocation_bucle] at h
      exact Except.noConfusion h

theorem check_invocation_bucle_validas (opts : List opcion) (v : invocacion)
    (h : ∀ o ∈ opts, opcion_valida o) :
    ∃ v1, check_invocation_bucle v opts = Except.ok v1 := by
  induction opts generalizing v with
  | nil => exact ⟨v, rfl⟩
  | cons o resto ih =>
    have ho := h o (List.mem_cons_self _ _)
    have hr := fun o1 h1 => h o1 (List.mem_cons_of_mem _ h1)
    cases o with
    | p optarg =>
      simp only [opcion_valida] at ho
      simp only [check_invocation_bucle]
      rw [if_neg (by omega)]
      exact ih _ hr
    | s optarg =>
      simp only [check_invocation_bucle]
      exact ih _ hr
    | dos_puntos => exact absurd ho (by simp [opcion_valida])
    | interrogacion => exact absurd ho (by simp [opcion_valida])

/-! ## C20 -/

theorem digito_toNat (c : Char) (h : c.isDigit = true) :
    48 ≤ c.toNat ∧ c.toNat ≤ 57 := by
  simp only [Char.isDigit, Bool.and_eq_true, decide_eq_true_eq] at h
  exact ⟨h.1, h.2⟩

theorem atoi_digitos_eq (s : cadena) (hs : ∀ c ∈ s, c.isDigit = true) (acc : Nat) :
    atoi_digitos (acc : Int) s =
      ((s.foldl (fun a c => a * 10 + (c.toNat - 48)) acc : Nat) : Int) := by
  induction s generalizing acc with
  | nil => rfl
  | cons c cs ih =>
    have hc := hs c (List.mem_cons_self _ _)
    have h48 := (digito_toNat c hc).1
    have hcast : (acc : Int) * 10 + ((c.toNat : Int) - 48) =
        ((acc * 10 + (c.toNat - 48) : Nat) : Int) := by
      push_cast
      omega
    rw [atoi_digitos, if_pos hc, hcast,
      ih (fun d hd => hs d (List.mem_cons_of_mem _ hd)), List.foldl_cons]

/-- On a decimal numeral whose value a `long` holds, `atoi` gives the low 32
bits of the value. -/
theorem atoi_decimal (s : cadena) (hs : solo_digitos s)
    (hv : valor_decimal s ≤ 9223372036854775807) :
    atoi s = a_int (valor_decimal s) := by
  obtain ⟨hne, hd⟩ := hs
  cases s with
  | nil => exact absurd rfl hne
  | cons c cs =>
    have hc := hd c (List.mem_cons_self _ _)
    obtain ⟨h48, h57⟩ := digito_toNat c hc
    have hsp : isspace c = false := by
      simp only [isspace, Bool.or_eq_false_iff, decide_eq_false_iff_not,
        Bool.and_eq_false_iff]
      omega
    have h45 : ¬ c = Char.ofNat 45 := by
      intro h
      rw [h] at h48
      exact absurd h48 (by decide)
    have h43 : ¬ c = Char.ofNat 43 := by
      intro h
      rw [h] at h48
      exact absurd h48 (by decide)
    have hval : atoi_digitos 0 (c :: cs) = ((valor_decimal (c :: cs) : Nat) : Int) :=
      atoi_digitos_eq (c :: cs) hd 0
    unfold atoi strtol
    simp only [List.dropWhile_cons, hsp, Bool.false_eq_true, if_false, h45, h43, hval]
    have h1 : ¬ ((valor_decimal (c :: cs) : Nat) : Int) > 9223372036854775807 := by
      omega
    have h2 : ¬ ((valor_decimal (c :: cs) : Nat) : Int) < -9223372036854775808 := by
      omega
    rw [if_neg h1, if_neg h2]

/-- C20, as the code has it.  An invocation with `-p <arg>` alone is accepted
exactly when the `int` that `atoi(arg)` returns is from 1024 to 65535, and
then the room is "actual".  For any sequence of option values,
`check_invocation` either returns or ends the process with exit status 1;
when it returns, `-p` was given, the port is the `atoi` of a `-p` argument and
lies from 1024 to 65535, and the room is "actual" when no `-s` was given; a
`-p` argument whose `atoi` is outside the range, or no `-p` at all, ends the
process with exit status 1; and when every `-p` is in range, nothing is
unknown and a `-p` is there, it returns.  On a decimal numeral `atoi` gives
the low 32 bits of its value: for a value that an `int` holds the invocation
is accepted exactly when the value is from 1024 to 65535, but `-p 4294976296`
is accepted, with port 9000. -/
theorem C20_check_invocation (opts : List opcion) (optarg : cadena) :
    (check_invocation [opcion.p optarg] =
      if 1024 ≤ atoi optarg ∧ atoi optarg ≤ 65535 then
        Except.ok
          { pflag := true
            puerto := atoi optarg
            sala_pedida := "actual".toList }
      else Except.error 1) ∧
    (∀ n, check_invocation opts = Except.error n → n = 1) ∧
    (∀ v, check_invocation opts = Except.ok v →
      (∃ a, opcion.p a ∈ opts ∧ v.puerto = atoi a) ∧
        1024 ≤ v.puerto ∧ v.puerto ≤ 65535 ∧
        ((∀ a, opcion.s a ∉ opts) → v.sala_pedida = "actual".toList)) ∧
    ((∃ a, opcion.p a ∈ opts ∧ ¬ (1024 ≤ atoi a ∧ atoi a ≤ 65535)) →
      check_invocation opts = Except.error 1) ∧
    ((∀ a, opcion.p a ∉ opts) → check_invocation opts = Except.error 1) ∧
    ((∀ o ∈ opts, opcion_valida o) → (∃ a, opcion.p a ∈ opts) →
      ∃ v, check_invocation opts = Except.ok v) ∧
    (solo_digitos optarg → valor_decimal optarg ≤ 9223372036854775807 →
      atoi optarg = a_int (valor_decimal optarg)) ∧
    (solo_digitos optarg → valor_decimal optarg ≤ 2147483647 →
      ((∃ v, check_invocation [opcion.p optarg] = Except.ok v) ↔
        (1024 ≤ valor_decimal optarg ∧ valor_decimal optarg ≤ 65535))) ∧
    (solo_digitos "4294976296".toList ∧
      valor_decimal "4294976296".toList = 4294976296 ∧
      check_invocation [opcion.p "4294976296".toList] =
        Except.ok
          { pflag := true, puerto := 9000, sala_pedida := "actual".toList }) := by
  have huno : ∀ a : cadena, check_invocation [opcion.p a] =
      if 1024 ≤ atoi a ∧ atoi a ≤ 65535 then
        Except.ok { pflag := true, puerto := atoi a, sala_pedida := "actual".toList }
      else Except.error 1 := by
    intro a
    by_cases hr : 1024 ≤ atoi a ∧ atoi a ≤ 65535
    · rw [if_pos hr]
      simp only [check_invocation, check_invocation_bucle]
      rw [if_neg (by omega)]
      rfl
    · rw [if_neg hr]
      simp only [check_invocation, check_invocation_bucle]
      rw [if_pos (by omega)]
  have herr : ∀ n, check_invocation opts = Except.error n → n = 1 := by
    intro n h
    unfold check_invocation at h
    split at h
    · rename_i m hm
      injection h with h
      rw [← h]
      exact check_invocation_bucle_error opts _ m hm
    · split at h
      · injection h with h
        exact h.symm
      · exact Except.noConfusion h
  have hok : ∀ v, check_invocation opts = Except.ok v →
      check_invocation_bucle
        { pflag := false, puerto := 0, sala_pedida := "actual".toList } opts =
          Except.ok v ∧ v.pflag = true := by
    intro v h
    unfold check_invocation at h
    split at h
    · exact Except.noConfusion h
    · rename_i v1 hv1
      split at h
      · exact Except.noConfusion h
      · rename_i hp
        injection h with h
        subst h
        exact ⟨hv1, by simpa using hp⟩
  have hno : ∀ v, check_invocation opts = Except.ok v → ∀ o ∈ opts, opcion_valida o :=
    fun v h => (check_invocation_bucle_ok opts _ v (hok v h).1).1
  refine ⟨?_, herr, ?_, ?_, ?_, ?_, ?_, ?_, ?_⟩
  · by_cases hr : 1024 ≤ atoi optarg ∧ atoi optarg ≤ 65535
    · rw [if_pos hr]
      simp only [check_invocation, check_invocation_bucle]
      rw [if_neg (by omega)]
      rfl
    · rw [if_neg hr]
      simp only [check_invocation, check_invocation_bucle]
      rw [if_pos (by omega)]
  · intro v h
    obtain ⟨hb, hp⟩ := hok v h
    obtain ⟨h1, h2, h3, h4⟩ := check_invocation_bucle_ok opts _ v hb
    have hex : ∃ a, opcion.p a ∈ opts := by
      rcases h2.1 hp with h5 | h5
      · exact Bool.noConfusion h5
      · exact h5
    have hpu : ∃ a, opcion.p a ∈ opts ∧ v.puerto = atoi a := by
      rcases h3 with h5 | ⟨h5, -⟩
      · exact h5
      · obtain ⟨a, ha⟩ := hex
        exact absurd ha (h5 a)
    refine ⟨hpu, ?_, ?_, h4⟩
    · obtain ⟨a, ha, hp1⟩ := hpu
      have := h1 _ ha
      simp only [opcion_valida] at this
      rw [hp1]
      exact this.1
    · obtain ⟨a, ha, hp1⟩ := hpu
      have := h1 _ ha
      simp only [opcion_valida] at this
      rw [hp1]
      exact this.2
  · rintro ⟨a, ha, hr⟩
    cases hc : check_invocation opts with
    | error n => rw [herr n hc]
    | ok v => exact absurd (hno v hc _ ha) hr
  · intro hnp
    cases hc : check_invocation opts with
    | error n => rw [herr n hc]
    | ok v =>
      obtain ⟨hb, hp⟩ := hok v hc
      obtain ⟨-, h2, -, -⟩ := check_invocation_bucle_ok opts _ v hb
      rcases h2.1 hp with h5 | ⟨a, ha⟩
      · exact Bool.noConfusion h5
      · exact absurd ha (hnp a)
  · intro hval hex
    obtain ⟨v1, hv1⟩ := check_invocation_bucle_validas opts
      { pflag := false, puerto := 0, sala_pedida := "actual".toList } hval
    obtain ⟨-, h2, -, -⟩ := check_invocation_bucle_ok opts _ v1 hv1
    have hp : v1.pflag = true := h2.2 (Or.inr hex)
    refine ⟨v1, ?_⟩
    unfold check_invocation
    rw [hv1]
    simp [hp]
  · intro hs hv
    exact atoi_decimal optarg hs hv
  · intro hs hv
    have ha : atoi optarg = (valor_decimal optarg : Int) := by
      rw [atoi_decimal optarg hs (by omega)]
      unfold a_int
      omega
    rw [huno optarg, ha]
    constructor
    · rintro ⟨v, hv1⟩
      by_cases hr : (1024 : Int) ≤ valor_decimal optarg ∧
          (valor_decimal optarg : Int) ≤ 65535
      · exact ⟨by omega, by omega⟩
      · rw [if_neg hr] at hv1
        exact Except.noConfusion hv1
    · intro hr
      have hr1 : (1024 : Int) ≤ valor_decimal optarg ∧
          (valor_decimal optarg : Int) ≤ 65535 := ⟨by omega, by omega⟩
      rw [if_pos hr1]
      exact ⟨_, rfl⟩
  · refine ⟨⟨by decide, by decide⟩, by decide, ?_⟩
    have h9 : atoi "4294976296".toList = 9000 := by
      rw [atoi_decimal _ ⟨by decide, by decide⟩ (by decide)]
      decide
    rw [huno, h9]
    rfl

/-- C20 at work: `-p 9000` is accepted with room "actual"; `-p 1024` and
`-p 65535` are accepted; `-p 1023`, `-p 65536` and `-s lobby` without `-p`
end with exit status 1; the numeral `70000`, which an `int` holds, is not
accepted. -/
theorem C20_check_invocation_testigo :
    check_invocation [opcion.p "9000".toList] =
      Except.ok { pflag := true, puerto := 9000, sala_pedida := "actual".toList } ∧
    (solo_digitos "70000".toList ∧ valor_decimal "70000".toList ≤ 2147483647 ∧
      ((∃ v, check_invocation [opcion.p "70000".toList] = Except.ok v) ↔
        (1024 ≤ valor_decimal "70000".toList ∧
          valor_decimal "70000".toList ≤ 65535))) ∧
    check_invocation [opcion.p "1023".toList] = Except.error 1 ∧
    ((∃ a, opcion.p a ∈ [opcion.s "lobby".toList, opcion.p "65536".toList] ∧
        ¬ (1024 ≤ atoi a ∧ atoi a ≤ 65535)) ∧
      check_invocation [opcion.s "lobby".toList, opcion.p "65536".toList] =
        Except.error 1) ∧
    ((∀ a, opcion.p a ∉ [opcion.s "lobby".toList]) ∧
      check_invocation [opcion.s "lobby".toList] = Except.error 1) ∧
    ((∀ o ∈ [opcion.p "1024".toList, opcion.p "65535".toList], opcion_valida o) ∧
      ∃ v, check_invocation [opcion.p "1024".toList, opcion.p "65535".toList] =
        Except.ok v) :=
  ⟨((C20_check_invocation [] "9000".toList).1).trans (if_pos (by decide)),
    ⟨⟨by decide, by decide⟩, by decide,
      (C20_check_invocation [] "70000".toList).2.2.2.2.2.2.2.1
        ⟨by decide, by decide⟩ (by decide)⟩,
    ((C20_check_invocation [] "1023".toList).1).trans (if_neg (by decide)),
    ⟨⟨"65536".toList, by simp, by decide⟩,
      (C20_check_invocation [opcion.s "lobby".toList, opcion.p "65536".toList]
        []).2.2.2.1 ⟨"65536".toList, by simp, by decide⟩⟩,
    ⟨fun a h => by simp at h,
      (C20_check_invocation [opcion.s "lobby".toList] []).2.2.2.2.1
        (fun a h => by simp at h)⟩,
    ⟨fun o h => by
        simp only [List.mem_cons, List.mem_singleton, List.mem_nil_iff, or_false] at h
        rcases h with h | h <;> subst h <;> simp only [opcion_valida] <;> decide,
      (C20_check_invocation [opcion.p "1024".toList, opcion.p "65535".toList]
        []).2.2.2.2.2.1
        (fun o h => by
          simp only [List.mem_cons, List.mem_singleton, List.mem_nil_iff, or_false] at h
          rcases h with h | h <;> subst h <;> simp only [opcion_valida] <;> decide)
        ⟨"1024".toList, by simp⟩⟩⟩

/-! ## The handshake -/

theorem handshake_largo (e : Estado) (user : Nat) (n : cadena) (resto : List cadena)
    (hn : ¬ strlen n + 1 ≤ malloc_usable_size MAXLENGTH_USER) :
    rutina_hilo_cliente_handshake e user (n :: resto) = none := by
  rw [rutina_hilo_cliente_handshake, if_neg hn]

theorem handshake_cons (e : Estado) (user : Nat) (n : cadena) (resto : List cadena)
    (hn : strlen n + 1 ≤ malloc_usable_size MAXLENGTH_USER) :
    rutina_hilo_cliente_handshake e user (n :: resto) =
      if existe_elemento e.lista_global_hilos_usuarios n (hilos_iguales e) = true then
        rutina_hilo_cliente_handshake
          (write e (e.usuarios user).socket mens_pide_nombre (strlen mens_pide_nombre))
          user resto
      else some (e, n, resto) := by
  by_cases hx : existe_elemento e.lista_global_hilos_usuarios n (hilos_iguales e) = true
  · have hx1 : existe_elemento
        (write e (e.usuarios user).socket mens_pide_nombre
          (strlen mens_pide_nombre)).lista_global_hilos_usuarios n
        (hilos_iguales (write e (e.usuarios user).socket mens_pide_nombre
          (strlen mens_pide_nombre))) = true := hx
    rw [rutina_hilo_cliente_handshake, if_pos hn]
    simp only [hx, if_true, hx1]
  · rw [rutina_hilo_cliente_handshake, if_pos hn]
    simp [hx]

/-- A handshake that ends leaves everything but the trace of writes alone,
and the name it accepts is the name of no entry of the session registry. -/
theorem handshake_fin (user : Nat) (lineas : List cadena) (e e1 : Estado)
    (n : cadena) (resto : List cadena)
    (h : rutina_hilo_cliente_handshake e user lineas = some (e1, n, resto)) :
    solo_escribe e e1 ∧
      existe_elemento e.lista_global_hilos_usuarios n (hilos_iguales e) = false := by
  induction lineas generalizing e with
  | nil => simp [rutina_hilo_cliente_handshake] at h
  | cons l ls ih =>
    by_cases hl : strlen l + 1 ≤ malloc_usable_size MAXLENGTH_USER
    swap
    · rw [handshake_largo e user l ls hl] at h
      exact Option.noConfusion h
    rw [handshake_cons e user l ls hl] at h
    by_cases hx : existe_elemento e.lista_global_hilos_usuarios l (hilos_iguales e) = true
    · rw [if_pos hx] at h
      have := ih (write e (e.usuarios user).socket mens_pide_nombre
        (strlen mens_pide_nombre)) h
      exact this
    · rw [if_neg hx] at h
      injection h with h
      injection h with h1 h2
      injection h2 with h2 h3
      subst h1
      subst h2
      exact ⟨solo_escribe_refl e, by simpa using hx⟩

/-- The name that a handshake accepts fits into the name buffer. -/
theorem handshake_fin_cabe (user : Nat) (lineas : List cadena) (e e1 : Estado)
    (n : cadena) (resto : List cadena)
    (h : rutina_hilo_cliente_handshake e user lineas = some (e1, n, resto)) :
    strlen n + 1 ≤ malloc_usable_size MAXLENGTH_USER := by
  induction lineas generalizing e with
  | nil => simp [rutina_hilo_cliente_handshake] at h
  | cons l ls ih =>
    by_cases hl : strlen l + 1 ≤ malloc_usable_size MAXLENGTH_USER
    swap
    · rw [handshake_largo e user l ls hl] at h
      exact Option.noConfusion h
    rw [handshake_cons e user l ls hl] at h
    by_cases hx : existe_elemento e.lista_global_hilos_usuarios l (hilos_iguales e) = true
    · rw [if_pos hx] at h
      exact ih _ h
    · rw [if_neg hx] at h
      injection h with h
      injection h with h1 h2
      injection h2 with h2 h3
      rw [← h2]
      exact hl

/-- The handshake, line by line: each submitted name that the registry holds
gets one write of `mens_pide_nombre` on the socket of the client, and the
first name that the registry does not hold is accepted, with nothing else
changed. -/
theorem handshake_rechazos (user : Nat) (tomados : List cadena) (n : cadena)
    (resto : List cadena) (e : Estado)
    (hlen : ∀ l ∈ tomados, strlen l + 1 ≤ malloc_usable_size MAXLENGTH_USER)
    (ht : ∀ l ∈ tomados,
      existe_elemento e.lista_global_hilos_usuarios l (hilos_iguales e) = true)
    (hn : strlen n + 1 ≤ malloc_usable_size MAXLENGTH_USER)
    (hlibre : existe_elemento e.lista_global_hilos_usuarios n (hilos_iguales e) = false) :
    rutina_hilo_cliente_handshake e user (tomados ++ n :: resto) =
      some ({ e with
        escrituras := e.escrituras ++
          tomados.map (fun _ => ((e.usuarios user).socket, mens_pide_nombre)) },
        n, resto) := by
  induction tomados generalizing e with
  | nil =>
    rw [List.nil_append, handshake_cons e user n resto hn, hlibre]
    simp
  | cons l ls ih =>
    have hl := hlen l (List.mem_cons_self _ _)
    have hx := ht l (List.mem_cons_self _ _)
    rw [List.cons_append, handshake_cons e user l _ hl, if_pos hx]
    have := ih (write e (e.usuarios user).socket mens_pide_nombre
        (strlen mens_pide_nombre))
      (fun l1 h1 => hlen l1 (List.mem_cons_of_mem _ h1))
      (fun l1 h1 => ht l1 (List.mem_cons_of_mem _ h1)) hlibre
    rw [this, write_strlen]
    simp

/-- What the entry of a session thread leaves behind when its handshake
ends: the session has the accepted name, which no entry of the registry had
(the session's own entry counted with the bytes its fresh name buffer held),
and an empty subscribed list; its command `sus <sala_pedida>` is at the tail
of the queue; nothing else differs but the trace of writes. -/
theorem entrada_fin (D : cadena) (e : Estado) (user : Nat) (basura : cadena)
    (lineas : List cadena) (e1 : Estado) (resto : List cadena)
    (h : rutina_hilo_cliente_entrada D e user basura lineas = some (e1, resto)) :
    e1.cola_global_comandos = e.cola_global_comandos ++
        [{ texto := "sus ".toList ++ D, sender := some user }] ∧
      (e1.usuarios user).lista_salas_suscritas = [] ∧
      (e1.usuarios user).socket = (e.usuarios user).socket ∧
      (∀ m, m ≠ user → e1.usuarios m = e.usuarios m) ∧
      e1.salas = e.salas ∧ e1.siguiente_sala = e.siguiente_sala ∧
      e1.lista_global_salas = e.lista_global_salas ∧
      e1.lista_global_hilos_usuarios = e.lista_global_hilos_usuarios ∧
      (∀ m ∈ e.lista_global_hilos_usuarios, m ≠ user →
        (e.usuarios m).nombre_usuario ≠ (e1.usuarios user).nombre_usuario) ∧
      (user ∈ e.lista_global_hilos_usuarios →
        basura ≠ (e1.usuarios user).nombre_usuario) := by
  unfold rutina_hilo_cliente_entrada at h
  cases hh : rutina_hilo_cliente_handshake
      (rutina_hilo_cliente_preparar e user basura) user lineas with
  | none => simp [hh] at h
  | some r =>
    obtain ⟨e2, n, resto2⟩ := r
    rw [hh] at h
    simp only at h
    injection h with h
    injection h with h1 h2
    obtain ⟨⟨hu, hs, hn, hg, hc, hr⟩, hx⟩ := handshake_fin user lineas _ e2 n resto2 hh
    rw [existe_elemento_false_iff] at hx
    subst h1
    refine ⟨?_, ?_, ?_, ?_, hs, hn, hg, hr, ?_, ?_⟩
    · show agregar_final e2.cola_global_comandos _ = _
      rw [agregar_final_eq, hc]
      rfl
    · simp [hu, rutina_hilo_cliente_preparar, crear_lista]
    · simp [hu, rutina_hilo_cliente_preparar]
    · intro m hm
      simp [Function.update_apply, hm, hu, rutina_hilo_cliente_preparar]
    · intro m hm hne
      have := hx m hm
      simp only [hilos_iguales, rutina_hilo_cliente_preparar, Function.update_apply,
        hne, if_false, decide_eq_false_iff_not] at this
      simpa using fun hc => this hc.symm
    · intro hm
      have := hx user hm
      simp only [hilos_iguales, rutina_hilo_cliente_preparar, Function.update_same,
        decide_eq_false_iff_not] at this
      simpa using fun hc => this hc.symm

/-! ## Usernames stay distinct -/

theorem nombres_tras_conectar (D : cadena) (e : Estado) (u : Nat) (fd : Int)
    (b : usuario) (basura : cadena) (lineas : List cadena) (e1 : Estado)
    (resto : List cadena)
    (hnd : (e.lista_global_hilos_usuarios.map
      (fun h => (e.usuarios h).nombre_usuario)).Nodup)
    (hu : u ∉ e.lista_global_hilos_usuarios)
    (h : rutina_hilo_cliente_entrada D (main_aceptar e u fd b) u basura lineas =
      some (e1, resto)) :
    (e1.lista_global_hilos_usuarios.map
      (fun h => (e1.usuarios h).nombre_usuario)).Nodup := by
  obtain ⟨-, -, -, hotros, -, -, -, hreg, hdist, -⟩ := entrada_fin D _ u basura lineas e1 resto h
  have hne : ∀ m ∈ e.lista_global_hilos_usuarios, m ≠ u :=
    fun m hm hc => hu (hc ▸ hm)
  have hsame : ∀ m ∈ e.lista_global_hilos_usuarios,
      (e1.usuarios m).nombre_usuario = (e.usuarios m).nombre_usuario := by
    intro m hm
    rw [hotros m (hne m hm)]
    simp [main_aceptar, Function.update_apply, hne m hm]
  have hmap : e.lista_global_hilos_usuarios.map
      (fun h => (e1.usuarios h).nombre_usuario) =
      e.lista_global_hilos_usuarios.map (fun h => (e.usuarios h).nombre_usuario) :=
    List.map_congr_left hsame
  rw [hreg]
  show ((u :: e.lista_global_hilos_usuarios).map _).Nodup
  rw [List.map_cons, List.nodup_cons, hmap]
  refine ⟨?_, hnd⟩
  intro hmem
  obtain ⟨m, hm, hmn⟩ := List.mem_map.mp hmem
  have := hdist m (List.mem_cons_of_mem _ hm) (hne m hm)
  apply this
  rw [← hmn]
  simp [main_aceptar, Function.update_apply, hne m hm]

theorem nombres_tras_salir (e : Estado) (S : Nat) (e1 : Estado) (r : Option Int)
    (hnd : (e.lista_global_hilos_usuarios.map
      (fun h => (e.usuarios h).nombre_usuario)).Nodup)
    (h : rutina_hilo_cliente_paso e S 1 "fue".toList = some (e1, r)) :
    (e1.lista_global_hilos_usuarios.map
      (fun h => (e1.usuarios h).nombre_usuario)).Nodup := by
  obtain ⟨e2, h2, hreg, hnom, -, -, -⟩ := eliminar_usuario_marco e S
  rw [paso_fue, h2] at h
  injection h with h
  injection h with h1 h3
  rw [← h1]
  show (e2.lista_global_hilos_usuarios.map
    (fun h => (e2.usuarios h).nombre_usuario)).Nodup
  have hf : (fun h => (e2.usuarios h).nombre_usuario) =
      (fun h => (e.usuarios h).nombre_usuario) := by
    funext m
    exact (hnom m).1
  rw [hf, hreg]
  exact hnd.sublist ((List.eraseP_sublist _).map _)

theorem nombres_tras_eventos (D : cadena) (evs : List evento) (e e1 : Estado)
    (hnd : (e.lista_global_hilos_usuarios.map
      (fun h => (e.usuarios h).nombre_usuario)).Nodup)
    (h : ejecutar_eventos D e evs = some e1) :
    (e1.lista_global_hilos_usuarios.map
      (fun h => (e1.usuarios h).nombre_usuario)).Nodup := by
  induction evs generalizing e with
  | nil =>
    simp only [ejecutar_eventos] at h
    injection h with h
    rw [← h]
    exact hnd
  | cons ev resto ih =>
    cases ev with
    | conectar u fd b basura lineas =>
      simp only [ejecutar_eventos] at h
      split at h
      · exact Option.noConfusion h
      · rename_i hu
        split at h
        · rename_i e2 r2 h2
          exact ih e2 (nombres_tras_conectar D e u fd b basura lineas e2 r2 hnd hu h2) h
        · exact Option.noConfusion h
    | salir S =>
      simp only [ejecutar_eventos] at h
      split at h
      · rename_i e2 r2 h2
        exact ih e2 (nombres_tras_salir e S e2 r2 hnd h2) h
      · exact Option.noConfusion h

/-! ## Registered names fit into the name buffer -/

theorem entrada_cabe (D : cadena) (e : Estado) (user : Nat) (basura : cadena)
    (lineas : List cadena) (e1 : Estado) (resto : List cadena)
    (h : rutina_hilo_cliente_entrada D e user basura lineas = some (e1, resto)) :
    strlen (e1.usuarios user).nombre_usuario + 1 ≤
      malloc_usable_size MAXLENGTH_USER := by
  unfold rutina_hilo_cliente_entrada at h
  cases hh : rutina_hilo_cliente_handshake
      (rutina_hilo_cliente_preparar e user basura) user lineas with
  | none => simp [hh] at h
  | some r =>
    obtain ⟨e2, n, resto2⟩ := r
    rw [hh] at h
    simp only at h
    injection h with h
    injection h with h1 h2
    have hc := handshake_fin_cabe user lineas _ e2 n resto2 hh
    rw [← h1]
    simpa using hc

theorem nombres_caben_tras_eventos (D : cadena) (evs : List evento) (e e1 : Estado)
    (hc : ∀ m ∈ e.lista_global_hilos_usuarios,
      strlen (e.usuarios m).nombre_usuario + 1 ≤ malloc_usable_size MAXLENGTH_USER)
    (h : ejecutar_eventos D e evs = some e1) :
    ∀ m ∈ e1.lista_global_hilos_usuarios,
      strlen (e1.usuarios m).nombre_usuario + 1 ≤
        malloc_usable_size MAXLENGTH_USER := by
  induction evs generalizing e with
  | nil =>
    simp only [ejecutar_eventos] at h
    injection h with h
    rw [← h]
    exact hc
  | cons ev resto ih =>
    cases ev with
    | conectar u fd b basura lineas =>
      simp only [ejecutar_eventos] at h
      split at h
      · exact Option.noConfusion h
      · rename_i hu
        split at h
        · rename_i e2 r2 h2
          refine ih e2 ?_ h
          obtain ⟨-, -, -, hotros, -, -, -, hreg, -, -⟩ :=
            entrada_fin D _ u basura lineas e2 r2 h2
          intro m hm
          rw [hreg] at hm
          by_cases hmu : m = u
          · rw [hmu]
            exact entrada_cabe D _ u basura lineas e2 r2 h2
          · rw [hotros m hmu]
            have hm1 : m ∈ e.lista_global_hilos_usuarios := by
              rcases List.mem_cons.1 hm with h3 | h3
              · exact absurd h3 hmu
              · exact h3
            have := hc m hm1
            simpa [main_aceptar, Function.update_apply, hmu] using this
        · exact Option.noConfusion h
    | salir S =>
      simp only [ejecutar_eventos] at h
      split at h
      · rename_i e2 r2 h2
        refine ih e2 ?_ h
        obtain ⟨e3, h3, hreg, hnom, -, -, -⟩ := eliminar_usuario_marco e S
        rw [paso_fue, h3] at h2
        injection h2 with h2
        injection h2 with h4 h5
        rw [← h4]
        intro m hm
        have hm1 : m ∈ e3.lista_global_hilos_usuarios := hm
        rw [hreg] at hm1
        have := hc m (List.mem_of_mem_eraseP hm1)
        show strlen (e3.usuarios m).nombre_usuario + 1 ≤ _
        rw [(hnom m).1]
        exact this
      · exact Option.noConfusion h

/-! ## C17 -/

/-- C17: the name buffer of the handshake is a block of
`malloc(MAXLENGTH_USER)`, which holds 40 bytes.  A submitted name that fits
into it and that an entry of the session registry holds is answered with
exactly one write, of `mens_pide_nombre`, on the socket of the client, and
the next line is read.  So for submitted names that the registry holds,
followed by one that it does not hold, all of them fitting, the handshake
returns: it has written `mens_pide_nombre` once per name held, it has
accepted the first name not held, and nothing else has changed.  A name of
40 bytes or more is written past the end of the buffer and the handshake has
no defined result.  A handshake that ends has assigned a name that no other
entry of the registry holds.  So after any sequence of connections (each
with a handshake run to its end, on an address that no registered session
has) and quits, starting from the empty registry of `main`, the usernames of
the registry entries are pairwise distinct and fit into the name buffer. -/
theorem C17_nombres_unicos (D : cadena) (e : Estado) (user : Nat) :
    malloc_usable_size MAXLENGTH_USER = 40 ∧
    (∀ n resto, strlen n + 1 ≤ 40 →
      (∃ h ∈ e.lista_global_hilos_usuarios, (e.usuarios h).nombre_usuario = n) →
      rutina_hilo_cliente_handshake e user (n :: resto) =
        rutina_hilo_cliente_handshake
          { e with
            escrituras := e.escrituras ++
              [((e.usuarios user).socket, mens_pide_nombre)] } user resto) ∧
    (∀ tomados n resto,
      (∀ l ∈ tomados, strlen l + 1 ≤ 40 ∧
        ∃ h ∈ e.lista_global_hilos_usuarios, (e.usuarios h).nombre_usuario = l) →
      strlen n + 1 ≤ 40 →
      (∀ h ∈ e.lista_global_hilos_usuarios, (e.usuarios h).nombre_usuario ≠ n) →
      rutina_hilo_cliente_handshake e user (tomados ++ n :: resto) =
        some ({ e with
          escrituras := e.escrituras ++
            tomados.map (fun _ => ((e.usuarios user).socket, mens_pide_nombre)) },
          n, resto)) ∧
    (∀ n resto, 40 ≤ strlen n →
      rutina_hilo_cliente_handshake e user (n :: resto) = none) ∧
    (∀ basura lineas e1 resto,
      rutina_hilo_cliente_entrada D e user basura lineas = some (e1, resto) →
      ∀ h ∈ e1.lista_global_hilos_usuarios, h ≠ user →
        (e1.usuarios h).nombre_usuario ≠ (e1.usuarios user).nombre_usuario) ∧
    (∀ evs e1, ejecutar_eventos D (main_inicio D e) evs = some e1 →
      (e1.lista_global_hilos_usuarios.map
        (fun h => (e1.usuarios h).nombre_usuario)).Nodup ∧
      ∀ h ∈ e1.lista_global_hilos_usuarios,
        strlen (e1.usuarios h).nombre_usuario + 1 ≤ 40) := by
  have h40 : malloc_usable_size MAXLENGTH_USER = 40 := by decide
  have htomado : ∀ l, (∃ h ∈ e.lista_global_hilos_usuarios,
      (e.usuarios h).nombre_usuario = l) →
      existe_elemento e.lista_global_hilos_usuarios l (hilos_iguales e) = true := by
    rintro l ⟨h, hh, hn⟩
    rw [existe_elemento_iff]
    exact ⟨h, hh, by simp [hilos_iguales, hn]⟩
  refine ⟨h40, ?_, ?_, ?_, ?_, ?_⟩
  · intro n resto hlen hn
    rw [handshake_cons e user n resto (by rw [h40]; exact hlen),
      if_pos (htomado n hn), write_strlen]
  · intro tomados n resto ht hlen hlibre
    refine handshake_rechazos user tomados n resto e
      (fun l hl => by rw [h40]; exact (ht l hl).1)
      (fun l hl => htomado l (ht l hl).2) (by rw [h40]; exact hlen) ?_
    rw [existe_elemento_false_iff]
    intro h hh
    have := hlibre h hh
    simpa [hilos_iguales] using fun hc => this hc.symm
  · intro n resto hlen
    exact handshake_largo e user n resto (by rw [h40]; omega)
  · intro basura lineas e1 resto h m hm hne
    obtain ⟨-, -, -, hotros, -, -, -, hreg, hdist, -⟩ :=
      entrada_fin D e user basura lineas e1 resto h
    rw [hreg] at hm
    rw [hotros m hne]
    exact hdist m hm hne
  · intro evs e1 h
    refine ⟨nombres_tras_eventos D evs _ e1 (by simp [main_inicio, crear_lista]) h, ?_⟩
    have := nombres_caben_tras_eventos D evs _ e1
      (by simp [main_inicio, crear_lista]) h
    rw [h40] at this
    exact this

/-- C17 at work: carol (session 3) submits `alice` and then `bob` in the chat
state, is asked again twice, and gets `carol`; a name of 40 letters has no
defined result; from the start of `main`, alice connects, bob connects and
is turned down for `alice` before he gets `bob`, and alice quits. -/
theorem C17_nombres_unicos_testigo :
    (∀ l ∈ ["alice".toList, "bob".toList], strlen l + 1 ≤ 40 ∧
      ∃ h ∈ estado_chat.lista_global_hilos_usuarios,
        (estado_chat.usuarios h).nombre_usuario = l) ∧
    strlen "carol".toList + 1 ≤ 40 ∧
    (∀ h ∈ estado_chat.lista_global_hilos_usuarios,
      (estado_chat.usuarios h).nombre_usuario ≠ "carol".toList) ∧
    rutina_hilo_cliente_handshake estado_chat 3
        ["alice".toList, "bob".toList, "carol".toList] =
      some ({ estado_chat with
          escrituras := [(7, mens_pide_nombre), (7, mens_pide_nombre)] },
        "carol".toList, []) ∧
    40 ≤ strlen (List.replicate 40 (Char.ofNat 97)) ∧
    rutina_hilo_cliente_handshake estado_chat 3
      [List.replicate 40 (Char.ofNat 97)] = none ∧
    ∃ e1, ejecutar_eventos "actual".toList (main_inicio "actual".toList estado_vacio)
        [evento.conectar 1 5 ⟨[], 0, []⟩ [] ["alice".toList],
          evento.conectar 2 6 ⟨[], 0, []⟩ [] ["alice".toList, "bob".toList],
          evento.salir 1] = some e1 ∧
      e1.lista_global_hilos_usuarios = [2] ∧
      (e1.usuarios 2).nombre_usuario = "bob".toList ∧
      e1.escrituras = [(6, mens_pide_nombre), (5, [Char.ofNat 255])] ∧
      (e1.lista_global_hilos_usuarios.map
        (fun h => (e1.usuarios h).nombre_usuario)).Nodup ∧
      ∀ h ∈ e1.lista_global_hilos_usuarios,
        strlen (e1.usuarios h).nombre_usuario + 1 ≤ 40 := by
  have ht : ∀ l ∈ ["alice".toList, "bob".toList], strlen l + 1 ≤ 40 ∧
      ∃ h ∈ estado_chat.lista_global_hilos_usuarios,
        (estado_chat.usuarios h).nombre_usuario = l := by
    intro l hl
    simp only [List.mem_cons, List.mem_singleton, List.mem_nil_iff, or_false] at hl
    rcases hl with rfl | rfl
    · exact ⟨by decide, 1, by decide, by decide⟩
    · exact ⟨by decide, 2, by decide, by decide⟩
  have hlibre : ∀ h ∈ estado_chat.lista_global_hilos_usuarios,
      (estado_chat.usuarios h).nombre_usuario ≠ "carol".toList := by
    intro h hh
    simp only [estado_chat, List.mem_cons, List.mem_singleton, List.mem_nil_iff,
      or_false] at hh
    rcases hh with rfl | rfl <;> decide
  refine ⟨ht, by decide, hlibre, ?_, by decide, ?_, ?_⟩
  · exact ((C17_nombres_unicos [] estado_chat 3).2.2.1
      ["alice".toList, "bob".toList] "carol".toList [] ht (by decide) hlibre).trans rfl
  · exact (C17_nombres_unicos [] estado_chat 3).2.2.2.1 _ [] (by decide)
  · have hx : ∃ e1, ejecutar_eventos "actual".toList
          (main_inicio "actual".toList estado_vacio)
          [evento.conectar 1 5 ⟨[], 0, []⟩ [] ["alice".toList],
            evento.conectar 2 6 ⟨[], 0, []⟩ [] ["alice".toList, "bob".toList],
            evento.salir 1] = some e1 ∧
        e1.lista_global_hilos_usuarios = [2] ∧
        (e1.usuarios 2).nombre_usuario = "bob".toList ∧
        e1.escrituras = [(6, mens_pide_nombre), (5, [Char.ofNat 255])] :=
      ⟨_, rfl, rfl, rfl, rfl⟩
    obtain ⟨e1, h1, h2, h3, h4⟩ := hx
    have h5 := (C17_nombres_unicos "actual".toList estado_vacio 0).2.2.2.2.2 _ e1 h1
    exact ⟨e1, h1, h2, h3, h4, h5.1, h5.2⟩

/-! ## Commands that leave the default room in place -/

theorem eraseP_primero {α : Type} (p : α → Bool) (pre : List α) (x : α)
    (post : List α) (hpre : ∀ y ∈ pre, p y = false) (hx : p x = true) :
    (pre ++ x :: post).eraseP p = pre ++ post := by
  induction pre with
  | nil => simp [List.eraseP_cons, hx]
  | cons y ys ih =>
    have hy : p y = false := hpre y (List.mem_cons_self _ _)
    have := ih (fun z hz => hpre z (List.mem_cons_of_mem _ hz))
    simp [List.eraseP_cons, hy, this]

theorem primero_que_cumple {α : Type} (p : α → Bool) (l : List α)
    (h : ∃ y ∈ l, p y = true) :
    ∃ pre x post, l = pre ++ x :: post ∧ (∀ y ∈ pre, p y = false) ∧ p x = true := by
  induction l with
  | nil => simp at h
  | cons z zs ih =>
    by_cases hz : p z = true
    · exact ⟨[], z, zs, rfl, by simp, hz⟩
    · have h1 : ∃ y ∈ zs, p y = true := by
        obtain ⟨y, hy, hp⟩ := h
        rcases List.mem_cons.1 hy with rfl | hy1
        · exact absurd hp hz
        · exact ⟨y, hy1, hp⟩
      obtain ⟨pre, x, post, hl, hpre, hx⟩ := ih h1
      refine ⟨z :: pre, x, post, by rw [hl]; rfl, ?_, hx⟩
      intro y hy
      rcases List.mem_cons.1 hy with rfl | hy1
      · simpa using hz
      · exact hpre y hy1

/-- C26: for every list, key, comparison and value of `destruir`.  When some
element matches, the list splits at the first match, `pre ++ x :: post` with
no match in `pre`, and `eliminar_elemento` leaves `pre ++ post`: the first
match is gone and every other element is where it was, in the same order.
When no element matches the list is unchanged.  The list that results with
`destruir = 1` is the one that results with `destruir = 0`. -/
theorem C26_eliminar_elemento {α κ : Type} (l : List α) (elem : κ)
    (compare : κ → α → Bool) (destruir : Bool) :
    ((∃ y ∈ l, compare elem y = true) →
      ∃ pre x post, l = pre ++ x :: post ∧
        (∀ y ∈ pre, compare elem y = false) ∧ compare elem x = true ∧
        (eliminar_elemento l elem compare destruir).1 = pre ++ post) ∧
    ((∀ y ∈ l, compare elem y = false) →
      (eliminar_elemento l elem compare destruir).1 = l) ∧
    (eliminar_elemento l elem compare true).1 =
      (eliminar_elemento l elem compare false).1 := by
  refine ⟨?_, ?_, ?_⟩
  · intro h
    obtain ⟨pre, x, post, hl, hpre, hx⟩ := primero_que_cumple (compare elem) l h
    refine ⟨pre, x, post, hl, hpre, hx, ?_⟩
    rw [eliminar_elemento_fst, hl]
    exact eraseP_primero _ pre x post hpre hx
  · intro h
    rw [eliminar_elemento_fst]
    exact List.eraseP_of_forall_not (fun y hy => by simp [h y hy])
  · rw [eliminar_elemento_fst, eliminar_elemento_fst]

/-- C26 at work, with numbers compared by equality: removing 2 from
1, 2, 3, 2 with `destruir = 1` takes the first 2 only, and removing 2 from
1, 3 changes nothing. -/
theorem C26_eliminar_elemento_testigo :
    (∃ y ∈ [1, 2, 3, 2], (fun (k x : Nat) => decide (k = x)) 2 y = true) ∧
    (∃ pre x post, [1, 2, 3, 2] = pre ++ x :: post ∧
      (∀ y ∈ pre, (fun (k x : Nat) => decide (k = x)) 2 y = false) ∧
      (fun (k x : Nat) => decide (k = x)) 2 x = true ∧
      (eliminar_elemento [1, 2, 3, 2] 2 (fun (k x : Nat) => decide (k = x)) true).1 =
        pre ++ post) ∧
    (eliminar_elemento [1, 2, 3, 2] 2 (fun (k x : Nat) => decide (k = x)) true).1 =
      [1, 3, 2] ∧
    (∀ y ∈ [1, 3], (fun (k x : Nat) => decide (k = x)) 2 y = false) ∧
    (eliminar_elemento [1, 3] 2 (fun (k x : Nat) => decide (k = x)) true).1 = [1, 3] :=
  ⟨⟨2, by decide, by decide⟩,
    (C26_eliminar_elemento [1, 2, 3, 2] 2 (fun (k x : Nat) => decide (k = x)) true).1
      ⟨2, by decide, by decide⟩,
    by decide, by decide,
    (C26_eliminar_elemento [1, 3] 2 (fun (k x : Nat) => decide (k = x)) true).2.1
      (by decide)⟩

/-! ## C25 -/

theorem elemento_tras {α : Type} (a : List α) (x : α) (b : List α) :
    (a ++ x :: b)[a.length]? = some x := by
  induction a with
  | nil => simp
  | cons y ys ih => simpa using ih

theorem imprimir_lista_salas_traza (e : Estado) (l : List Nat) (S : Nat)
    (sistema : Bool) :
    imprimir_lista_salas e l (some S) sistema =
      some { e with
        escrituras := e.escrituras ++
          (((e.usuarios S).socket,
            if sistema then
              "\nLISTA DE SALAS DEL SISTEMA\n==========================\n".toList ++
                [Char.ofNat 0]
            else "\nLISTA DE SALAS SUSCRITAS\n========================\n".toList) ::
          (l.flatMap (fun r =>
            [((e.usuarios S).socket, "\"".toList),
              ((e.usuarios S).socket, (e.salas r).nombre_sala),
              ((e.usuarios S).socket, "\"\n".toList)]) ++
          [((e.usuarios S).socket, "\n".toList)])) } := by
  have h56 : ("\nLISTA DE SALAS DEL SISTEMA\n==========================\n".toList ++
      [Char.ofNat 0]).take 56 =
      "\nLISTA DE SALAS DEL SISTEMA\n==========================\n".toList ++
        [Char.ofNat 0] := by decide
  have h51 : ("\nLISTA DE SALAS SUSCRITAS\n========================\n".toList ++
      [Char.ofNat 0]).take 51 =
      "\nLISTA DE SALAS SUSCRITAS\n========================\n".toList := by decide
  have h1 : ("\n".toList ++ [Char.ofNat 0]).take 1 = "\n".toList := by decide
  cases sistema
  · simp only [imprimir_lista_salas, imprimir_lista_salas_bucle_traza]
    simp [write, h51, h1]
  · simp only [imprimir_lista_salas, imprimir_lista_salas_bucle_traza]
    simp [write, h56, h1]

/-- C25, as the code has it.  The first write of each listing is its header.
For the rooms of the system the text literal has 55 bytes and the count
passed to `write` is 56, so that the 56 bytes sent are the header text
followed by the NUL that ends the literal.  For the subscribed rooms (51
bytes) and for the users (61 bytes) the count is the length of the literal
and the bytes sent are the header text. -/
theorem C25_encabezados (e : Estado) (l : List Nat) (S : Nat) :
    (strlen "\nLISTA DE SALAS DEL SISTEMA\n==========================\n".toList = 55 ∧
      ∃ e1, imprimir_lista_salas e l (some S) true = some e1 ∧
        e1.escrituras[e.escrituras.length]? =
          some ((e.usuarios S).socket,
            "\nLISTA DE SALAS DEL SISTEMA\n==========================\n".toList ++
              [Char.ofNat 0])) ∧
    (strlen "\nLISTA DE SALAS SUSCRITAS\n========================\n".toList = 51 ∧
      ∃ e1, imprimir_lista_salas e l (some S) false = some e1 ∧
        e1.escrituras[e.escrituras.length]? =
          some ((e.usuarios S).socket,
            "\nLISTA DE SALAS SUSCRITAS\n========================\n".toList)) ∧
    (strlen "\nLISTA DE USUARIOS DEL SISTEMA\n=============================\n".toList
        = 61 ∧
      ∃ e1, listar_usuarios e (some S) = some e1 ∧
        e1.escrituras[e.escrituras.length]? =
          some ((e.usuarios S).socket,
            "\nLISTA DE USUARIOS DEL SISTEMA\n=============================\n".toList)) := by
  refine ⟨⟨rfl, _, imprimir_lista_salas_traza e l S true, ?_⟩,
    ⟨rfl, _, imprimir_lista_salas_traza e l S false, ?_⟩,
    ⟨rfl, _, listar_usuarios_traza e S, ?_⟩⟩
  · exact elemento_tras _ _ _
  · exact elemento_tras _ _ _
  · show (e.escrituras ++ [_] ++ _ ++ [_])[e.escrituras.length]? = _
    rw [List.append_assoc, List.append_assoc]
    exact elemento_tras _ _ _

/-! ## C23 -/

theorem ctrlc_handler_hilos_traza (l : List Nat) (e : Estado)
    (hl : e.lista_global_hilos_usuarios = l) :
    ctrlc_handler_hilos e =
      some { e with
        lista_global_hilos_usuarios := []
        escrituras := e.escrituras ++
          l.map (fun hc => ((e.usuarios hc).socket, salida)) } := by
  induction l generalizing e with
  | nil =>
    rw [ctrlc_handler_hilos]
    simp [hl, lista_vacia]
    cases e
    simp_all
  | cons hc resto ih =>
    obtain ⟨us, ss, n, gs, q, hs, w⟩ := e
    simp only at hl
    subst hl
    rw [ctrlc_handler_hilos]
    simp only [lista_vacia, extraer_primero, Bool.not_false, if_true]
    rw [ih _ rfl]
    have h1 : ((salida ++ [Char.ofNat 0]).take 1) = salida := rfl
    simp [write, h1]

theorem ctrlc_handler_salas_fin (l : List Nat) (e : Estado)
    (hl : e.lista_global_salas = l) :
    ctrlc_handler_salas e = { e with lista_global_salas := [] } := by
  induction l generalizing e with
  | nil =>
    rw [ctrlc_handler_salas]
    simp [hl, lista_vacia]
    cases e
    simp_all
  | cons s resto ih =>
    obtain ⟨us, ss, n, gs, q, hs, w⟩ := e
    simp only at hl
    subst hl
    rw [ctrlc_handler_salas]
    simp only [lista_vacia, extraer_primero, Bool.not_false, if_true]
    rw [ih _ rfl]

/-- C23: whatever the state, `ctrlc_handler` runs to its end; what it adds to
the trace of writes is one write of the one byte `salida` per entry of the
session registry, to the socket of that entry, in registry order; the
session registry and the room list are empty at the end, and nothing else
has changed.  So the byte goes to a socket as many times as the registry has
entries with that socket: exactly once to the socket of each registered
session when the registered sessions have distinct sockets. -/
theorem C23_ctrlc_handler (e : Estado) :
    (∃ e1, ctrlc_handler e = some e1 ∧
      e1.escrituras = e.escrituras ++
        e.lista_global_hilos_usuarios.map (fun hc => ((e.usuarios hc).socket, salida)) ∧
      e1.lista_global_hilos_usuarios = [] ∧ e1.lista_global_salas = [] ∧
      e1.usuarios = e.usuarios ∧ e1.salas = e.salas ∧
      e1.cola_global_comandos = e.cola_global_comandos) ∧
    salida.length = 1 ∧
    (∀ fd : Int,
      (e.lista_global_hilos_usuarios.map
          (fun hc => ((e.usuarios hc).socket, salida))).count (fd, salida) =
        (e.lista_global_hilos_usuarios.map (fun hc => (e.usuarios hc).socket)).count fd) ∧
    ((e.lista_global_hilos_usuarios.map (fun hc => (e.usuarios hc).socket)).Nodup →
      ∀ hc ∈ e.lista_global_hilos_usuarios,
        (e.lista_global_hilos_usuarios.map
          (fun hc => ((e.usuarios hc).socket, salida))).count
            ((e.usuarios hc).socket, salida) = 1) := by
  have hcount : ∀ (l : List Nat) (fd : Int),
      (l.map (fun hc => ((e.usuarios hc).socket, salida))).count (fd, salida) =
        (l.map (fun hc => (e.usuarios hc).socket)).count fd := by
    intro l fd
    induction l with
    | nil => rfl
    | cons x xs ih =>
      simp only [List.map_cons, List.count_cons, ih]
      by_cases hx : (e.usuarios x).socket = fd
      · simp [hx]
      · simp [hx]
  have hfin : ctrlc_handler e =
      some { e with
        lista_global_salas := []
        lista_global_hilos_usuarios := []
        escrituras := e.escrituras ++
          e.lista_global_hilos_usuarios.map
            (fun hc => ((e.usuarios hc).socket, salida)) } := by
    simp only [ctrlc_handler, ctrlc_handler_hilos_traza _ e rfl, Option.map_some']
    rw [ctrlc_handler_salas_fin _ _ rfl]
  refine ⟨⟨_, hfin, rfl, rfl, rfl, rfl, rfl, rfl⟩, rfl, hcount _, ?_⟩
  · intro hnd hc hmem
    rw [hcount]
    exact List.count_eq_one_of_mem hnd (List.mem_map_of_mem _ hmem)

/-- C23 at work: with the sessions 2 and 1 registered, on the sockets 6 and
5, and the rooms of the example state, the shutdown writes the byte once to
socket 6 and once to socket 5 and leaves both registries empty. -/
theorem C23_ctrlc_handler_testigo :
    (estado_ejemplo.lista_global_hilos_usuarios.map
      (fun hc => (estado_ejemplo.usuarios hc).socket)).Nodup ∧
    (∃ e1, ctrlc_handler estado_ejemplo = some e1 ∧
      e1.escrituras = [(6, salida), (5, salida)] ∧
      e1.lista_global_hilos_usuarios = [] ∧ e1.lista_global_salas = []) ∧
    ∀ hc ∈ estado_ejemplo.lista_global_hilos_usuarios,
      (estado_ejemplo.lista_global_hilos_usuarios.map
        (fun hc => ((estado_ejemplo.usuarios hc).socket, salida))).count
          ((estado_ejemplo.usuarios hc).socket, salida) = 1 := by
  obtain ⟨⟨e1, h1, h2, h3, h4, -⟩, -, -, h5⟩ := C23_ctrlc_handler estado_ejemplo
  exact ⟨by decide, ⟨e1, h1, h2, h3, h4⟩, h5 (by decide)⟩

/-! ## C24 -/

/-- One byte of the read loop, with the test on `j` made on each variable
it touches. -/
theorem leer_linea_cons (v : lectura) (c : Char) (resto : List Char) :
    leer_linea v (c :: resto) =
      if c = Char.ofNat 10 then
        ({ mensaje := Function.update v.mensaje v.i (Char.ofNat 0), i := v.i,
            j := if v.j ≥ MAXLENGTH then 0 else v.j,
            capacidad := if v.j ≥ MAXLENGTH then sizeof_int else v.capacidad },
          1, resto)
      else
        leer_linea
          { mensaje := Function.update v.mensaje v.i c, i := v.i + 1,
            j := (if v.j ≥ MAXLENGTH then 0 else v.j) + 1,
            capacidad := if v.j ≥ MAXLENGTH then sizeof_int else v.capacidad }
          resto := by
  by_cases hj : v.j ≥ MAXLENGTH
  · rw [leer_linea, if_pos hj, if_pos hj, if_pos hj]
  · rw [leer_linea, if_neg hj, if_neg hj, if_neg hj]

/-- What the read loop does to the size of the block, for a line with no
newline in it followed by a newline: the loop stops at the newline with
`status = 1`, `i` has grown by the length of the line, the NUL is at offset
`i`, and the block has the size `MAXLENGTH` only if it had it before and `i`
has stayed below `MAXLENGTH`; otherwise it has the size `sizeof(j*2)`. -/
theorem leer_linea_capacidad (linea : List Char)
    (hl : ∀ c ∈ linea, c ≠ Char.ofNat 10) (resto : List Char) (v : lectura)
    (hv : v.capacidad = sizeof_int ∨ (v.capacidad = MAXLENGTH ∧ v.i = v.j)) :
    (leer_linea v (linea ++ Char.ofNat 10 :: resto)).2 = (1, resto) ∧
    (leer_linea v (linea ++ Char.ofNat 10 :: resto)).1.i = v.i + linea.length ∧
    (leer_linea v (linea ++ Char.ofNat 10 :: resto)).1.mensaje
      (v.i + linea.length) = Char.ofNat 0 ∧
    (leer_linea v (linea ++ Char.ofNat 10 :: resto)).1.capacidad =
      if v.capacidad = MAXLENGTH ∧ v.i + linea.length < MAXLENGTH then MAXLENGTH
      else sizeof_int := by
  have h4 : ¬ (sizeof_int = MAXLENGTH) := by decide
  induction linea generalizing v with
  | nil =>
    rw [List.nil_append, leer_linea_cons, if_pos rfl]
    refine ⟨rfl, rfl, by simp, ?_⟩
    simp only [List.length_nil, Nat.add_zero]
    rcases hv with h | ⟨h1, h2⟩
    · rw [h]
      simp [h4]
    · by_cases hj : v.j ≥ MAXLENGTH
      · have : ¬ v.i < MAXLENGTH := by omega
        simp [hj, this]
      · have : v.i < MAXLENGTH := by omega
        simp [hj, this, h1]
  | cons c cs ih =>
    have hc : c ≠ Char.ofNat 10 := hl c (List.mem_cons_self _ _)
    have hcs : ∀ d ∈ cs, d ≠ Char.ofNat 10 :=
      fun d hd => hl d (List.mem_cons_of_mem _ hd)
    have hv2 : (if v.j ≥ MAXLENGTH then sizeof_int else v.capacidad) = sizeof_int ∨
        ((if v.j ≥ MAXLENGTH then sizeof_int else v.capacidad) = MAXLENGTH ∧
          v.i + 1 = (if v.j ≥ MAXLENGTH then 0 else v.j) + 1) := by
      rcases hv with h | ⟨h1, h2⟩
      · left
        split_ifs
        · rfl
        · exact h
      · by_cases hj : v.j ≥ MAXLENGTH
        · left
          rw [if_pos hj]
        · right
          rw [if_neg hj, if_neg hj]
          exact ⟨h1, by omega⟩
    rw [List.cons_append, leer_linea_cons, if_neg hc]
    obtain ⟨r1, r2, r3, r4⟩ := ih hcs
      { mensaje := Function.update v.mensaje v.i c, i := v.i + 1,
        j := (if v.j ≥ MAXLENGTH then 0 else v.j) + 1,
        capacidad := if v.j ≥ MAXLENGTH then sizeof_int else v.capacidad } hv2
    simp only [] at r2 r3 r4
    have hlen : v.i + (c :: cs).length = v.i + 1 + cs.length := by
      simp only [List.length_cons]
      omega
    rw [hlen]
    refine ⟨r1, r2, r3, ?_⟩
    rw [r4]
    rcases hv with h | ⟨h1, h2⟩
    · have e1 : (if v.j ≥ MAXLENGTH then sizeof_int else v.capacidad) = sizeof_int := by
        split_ifs
        · rfl
        · exact h
      rw [e1, h]
    · by_cases hj : v.j ≥ MAXLENGTH
      · have : ¬ v.i + 1 + cs.length < MAXLENGTH := by omega
        simp [hj, this, h4]
      · simp [hj, h1]

/-- Once the block has been reallocated it keeps the size `sizeof(j*2)` for
every later line: the loop of a later turn starts from `i = 0` and `j = 0`
with the block as it is. -/
theorem leer_linea_desde_tras_realloc (v : lectura)
    (hv : v.capacidad = sizeof_int) (linea : List Char)
    (hl : ∀ c ∈ linea, c ≠ Char.ofNat 10) (resto : List Char) :
    (leer_linea_desde v (linea ++ Char.ofNat 10 :: resto)).1.i = linea.length ∧
    (leer_linea_desde v (linea ++ Char.ofNat 10 :: resto)).1.capacidad =
      sizeof_int := by
  obtain ⟨-, r2, -, r4⟩ := leer_linea_capacidad linea hl resto
    { v with i := 0, j := 0 } (Or.inl hv)
  have h4 : ¬ (sizeof_int = MAXLENGTH) := by decide
  refine ⟨by simpa using r2, ?_⟩
  show (leer_linea { v with i := 0, j := 0 } _).1.capacidad = _
  rw [r4]
  show (if v.capacidad = MAXLENGTH ∧ _ then _ else _) = _
  rw [hv]
  simp [h4]

/-- C22, as the code has it, for the first line that a session thread reads
(block of `MAXLENGTH = 500` bytes) when the line has `n` bytes, none of them a
newline, and is followed by a newline: the loop stores the NUL at offset `n`,
and at that point the size of the block is 500 when `n < 500` and is
`sizeof(j*2) = 4` when `n ≥ 500`.  So the block has at least `n + 1` bytes
when the NUL is stored exactly when `n < 500`; from 500 bytes on the block
has been reallocated to 4 bytes, not to twice its size, and is too small. -/
theorem C22_capacidad_del_buffer (basura : Nat → Char) (linea : List Char)
    (hl : ∀ c ∈ linea, c ≠ Char.ofNat 10) (resto : List Char) :
    (leer_linea (lectura_inicial basura) (linea ++ Char.ofNat 10 :: resto)).2 =
      (1, resto) ∧
    (leer_linea (lectura_inicial basura) (linea ++ Char.ofNat 10 :: resto)).1.i =
      linea.length ∧
    (leer_linea (lectura_inicial basura) (linea ++ Char.ofNat 10 :: resto)).1.mensaje
      linea.length = Char.ofNat 0 ∧
    (leer_linea (lectura_inicial basura)
        (linea ++ Char.ofNat 10 :: resto)).1.capacidad =
      (if linea.length < MAXLENGTH then MAXLENGTH else sizeof_int) ∧
    (linea.length < MAXLENGTH →
      linea.length + 1 ≤ (leer_linea (lectura_inicial basura)
        (linea ++ Char.ofNat 10 :: resto)).1.capacidad) ∧
    (MAXLENGTH ≤ linea.length →
      (leer_linea (lectura_inicial basura)
        (linea ++ Char.ofNat 10 :: resto)).1.capacidad = 4 ∧
      (leer_linea (lectura_inicial basura)
        (linea ++ Char.ofNat 10 :: resto)).1.capacidad < linea.length + 1) := by
  obtain ⟨r1, r2, r3, r4⟩ := leer_linea_capacidad linea hl resto
    (lectura_inicial basura) (Or.inr ⟨rfl, rfl⟩)
  have hi : (lectura_inicial basura).i = 0 := rfl
  have hcap : (lectura_inicial basura).capacidad = MAXLENGTH := rfl
  rw [hi, Nat.zero_add] at r2 r3 r4
  rw [hcap] at r4
  simp only [true_and] at r4
  refine ⟨r1, r2, r3, r4, ?_, ?_⟩
  · intro h
    rw [r4, if_pos h]
    omega
  · intro h
    have hn : ¬ linea.length < MAXLENGTH := by omega
    rw [r4, if_neg hn]
    refine ⟨rfl, ?_⟩
    simp only [MAXLENGTH] at h
    simp only [sizeof_int]
    omega

/-- C22 at work: a first line of 500 letters `a` and a newline.  The NUL is
stored at offset 500 of a block of 4 bytes.  For the line `sal` the block
still has its 500 bytes. -/
theorem C22_capacidad_del_buffer_testigo :
    (∀ c ∈ List.replicate 500 (Char.ofNat 97), c ≠ Char.ofNat 10) ∧
    (leer_linea (lectura_inicial (fun _ => Char.ofNat 0))
      (List.replicate 500 (Char.ofNat 97) ++ [Char.ofNat 10])).1.i = 500 ∧
    (leer_linea (lectura_inicial (fun _ => Char.ofNat 0))
      (List.replicate 500 (Char.ofNat 97) ++ [Char.ofNat 10])).1.mensaje 500 =
        Char.ofNat 0 ∧
    (leer_linea (lectura_inicial (fun _ => Char.ofNat 0))
      (List.replicate 500 (Char.ofNat 97) ++ [Char.ofNat 10])).1.capacidad = 4 ∧
    (∀ c ∈ "sal".toList, c ≠ Char.ofNat 10) ∧
    (leer_linea (lectura_inicial (fun _ => Char.ofNat 0))
      ("sal".toList ++ [Char.ofNat 10])).1.capacidad = 500 := by
  have h500 : ∀ c ∈ List.replicate 500 (Char.ofNat 97), c ≠ Char.ofNat 10 := by
    intro c hc
    rw [List.eq_of_mem_replicate hc]
    decide
  have hsal : ∀ c ∈ "sal".toList, c ≠ Char.ofNat 10 := by decide
  obtain ⟨-, a2, a3, -, -, a6⟩ := C22_capacidad_del_buffer (fun _ => Char.ofNat 0)
    (List.replicate 500 (Char.ofNat 97)) h500 []
  obtain ⟨-, -, -, b4, -, -⟩ := C22_capacidad_del_buffer (fun _ => Char.ofNat 0)
    "sal".toList hsal []
  rw [List.length_replicate] at a2 a3 a6
  exact ⟨h500, a2, a3, (a6 (by decide)).1, hsal, b4⟩

/-! ## C21 -/

/-- Calls that never lock `mutex_salas` pass the test on `mutex_salas`,
whatever is held. -/
theorem sin_lock_de_salas (ls : List llamada) (tomados : List mutex)
    (h : ∀ c ∈ ls, c ≠ llamada.lock mutex.mutex_salas) :
    salas_sin_socket_tomado tomados ls = true := by
  induction ls generalizing tomados with
  | nil => rfl
  | cons c cs ih =>
    have hcs : ∀ d ∈ cs, d ≠ llamada.lock mutex.mutex_salas :=
      fun d hd => h d (List.mem_cons_of_mem _ hd)
    cases c with
    | lock m =>
      have hm : m ≠ mutex.mutex_salas := by
        intro hm
        exact h (llamada.lock m) (List.mem_cons_self _ _) (by rw [hm])
      simp [salas_sin_socket_tomado, hm, ih _ hcs]
    | unlock m => simp [salas_sin_socket_tomado, ih _ hcs]

theorem enviar_mensaje_usuarios_cerrojos_mem (l : List Nat) :
    ∀ c ∈ enviar_mensaje_usuarios_cerrojos l,
      c ≠ llamada.lock mutex.mutex_salas := by
  induction l with
  | nil => simp [enviar_mensaje_usuarios_cerrojos]
  | cons u us ih =>
    intro c hc
    simp only [enviar_mensaje_usuarios_cerrojos, List.mem_cons] at hc
    rcases hc with rfl | rfl | hc
    · simp
    · simp
    · exact ih c hc

theorem enviar_mensaje_salas_cerrojos_mem (e : Estado) (l : List Nat) :
    ∀ c ∈ enviar_mensaje_salas_cerrojos e l,
      c ≠ llamada.lock mutex.mutex_salas := by
  induction l with
  | nil => simp [enviar_mensaje_salas_cerrojos]
  | cons s ss ih =>
    intro c hc
    simp only [enviar_mensaje_salas_cerrojos, List.mem_append] at hc
    rcases hc with hc | hc
    · exact enviar_mensaje_usuarios_cerrojos_mem _ c hc
    · exact ih c hc

/-- With no `mutex_socket` held before it, the inner loop of `enviar_mensaje`
passes the test and leaves what is held as it was. -/
theorem un_socket_usuarios (l : List Nat) (tomados : List mutex)
    (resto : List llamada) (ht : tomados.any es_mutex_socket = false) :
    un_socket_a_la_vez tomados (enviar_mensaje_usuarios_cerrojos l ++ resto) =
      un_socket_a_la_vez tomados resto := by
  induction l with
  | nil => rfl
  | cons u us ih =>
    simp only [enviar_mensaje_usuarios_cerrojos, List.cons_append,
      un_socket_a_la_vez, ht, List.erase_cons_head]
    simpa using ih

theorem un_socket_salas (e : Estado) (l : List Nat) (tomados : List mutex)
    (resto : List llamada) (ht : tomados.any es_mutex_socket = false) :
    un_socket_a_la_vez tomados (enviar_mensaje_salas_cerrojos e l ++ resto) =
      un_socket_a_la_vez tomados resto := by
  induction l with
  | nil => rfl
  | cons s ss ih =>
    simp only [enviar_mensaje_salas_cerrojos, List.append_assoc]
    rw [un_socket_usuarios _ _ _ ht, ih]

/-- The two tests reject the orders they are meant to reject. -/
theorem pruebas_de_cerrojos_rechazan :
    salas_sin_socket_tomado []
      [llamada.lock (mutex.mutex_socket 1), llamada.lock mutex.mutex_salas,
        llamada.unlock mutex.mutex_salas,
        llamada.unlock (mutex.mutex_socket 1)] = false ∧
    un_socket_a_la_vez []
      [llamada.lock (mutex.mutex_socket 1), llamada.lock (mutex.mutex_socket 2),
        llamada.unlock (mutex.mutex_socket 2),
        llamada.unlock (mutex.mutex_socket 1)] = false :=
  ⟨by decide, by decide⟩

/-- C21: whatever the state and the arguments, and starting with no mutex
held, as the callers do: in the calls made by `crear_sala`, `eliminar_sala`,
`suscribir_usuario`, `desuscribir_usuario`, `imprimir_lista_salas`,
`listar_usuarios`, `enviar_mensaje` and the branch `fue` of the session
thread, `mutex_salas` is never locked while a `mutex_socket` is held; and in
the calls made by `enviar_mensaje` no `mutex_socket` is locked while another
one is held. -/
theorem C21_orden_de_cerrojos (e : Estado) (nombre : cadena) (user : Option Nat)
    (S : Nat) :
    salas_sin_socket_tomado [] (crear_sala_cerrojos e nombre user) = true ∧
    salas_sin_socket_tomado [] (eliminar_sala_cerrojos e nombre user) = true ∧
    salas_sin_socket_tomado [] (suscribir_usuario_cerrojos e nombre user) = true ∧
    salas_sin_socket_tomado [] (desuscribir_usuario_cerrojos user) = true ∧
    salas_sin_socket_tomado [] (imprimir_lista_salas_cerrojos user) = true ∧
    salas_sin_socket_tomado [] (listar_usuarios_cerrojos user) = true ∧
    salas_sin_socket_tomado [] (enviar_mensaje_cerrojos e user) = true ∧
    salas_sin_socket_tomado [] (rutina_hilo_cliente_fue_cerrojos S) = true ∧
    un_socket_a_la_vez [] (enviar_mensaje_cerrojos e user) = true := by
  refine ⟨?_, ?_, ?_, ?_, ?_, ?_, ?_, ?_, ?_⟩
  · unfold crear_sala_cerrojos
    cases user <;> split_ifs <;>
      simp [salas_sin_socket_tomado, es_mutex_socket]
  · unfold eliminar_sala_cerrojos
    cases user <;>
      cases encontrar_elemento e.lista_global_salas nombre (salas_iguales e) <;>
      simp [salas_sin_socket_tomado, es_mutex_socket]
  · unfold suscribir_usuario_cerrojos
    cases user with
    | none => simp [salas_sin_socket_tomado]
    | some u =>
      simp only []
      split
      · split_ifs <;> simp [salas_sin_socket_tomado, es_mutex_socket]
      · simp [salas_sin_socket_tomado, es_mutex_socket]
  · unfold desuscribir_usuario_cerrojos
    cases user <;> simp [salas_sin_socket_tomado]
  · unfold imprimir_lista_salas_cerrojos
    cases user <;> simp [salas_sin_socket_tomado, es_mutex_socket]
  · unfold listar_usuarios_cerrojos
    cases user <;> simp [salas_sin_socket_tomado]
  · apply sin_lock_de_salas
    unfold enviar_mensaje_cerrojos
    cases user with
    | none => simp
    | some u =>
      simp only []
      split_ifs
      · exact enviar_mensaje_salas_cerrojos_mem e _
      · simp
  · simp [rutina_hilo_cliente_fue_cerrojos, eliminar_usuario_cerrojos,
      desuscribir_usuario_cerrojos, salas_sin_socket_tomado, es_mutex_socket]
  · unfold enviar_mensaje_cerrojos
    cases user with
    | none => rfl
    | some u =>
      simp only []
      split_ifs
      · have := un_socket_salas e (e.usuarios u).lista_salas_suscritas [] [] rfl
        rw [List.append_nil] at this
        rw [this]
        rfl
      · rfl

end Schat
